import Mathlib

/-!
Verification of the security pipeline of the `whatsapp_python` repository:
the hybrid flow-encryption engine (`src/encryption.py`) and the media
download/verify/decrypt pipeline (`src/media.py`).

Bytes are modelled as `List Nat` with every entry `< 256`.  The external
cryptographic algorithms the source calls (SHA-256, HMAC-SHA256, AES in CBC
and GCM modes, PKCS#7 padding, base64, JSON) are embedded as executable Lean
functions following their public specifications (FIPS-180-4, FIPS-197,
NIST SP 800-38D, RFC 2104, RFC 4648, the CPython `json`/`base64`/`binascii`
behaviour and the pycryptodome padding module), since those are the exact
algorithms the Python libraries implement.
-/

set_option maxRecDepth 40000
set_option maxHeartbeats 4000000

namespace WA


/-- Bytes: lists of naturals, meant to be `< 256` entrywise. -/
abbrev Bytes := List Nat

instance {ε α : Type} [DecidableEq ε] [DecidableEq α] : DecidableEq (Except ε α) := fun a b =>
  match a, b with
  | .ok x, .ok y => decidable_of_iff (x = y) (by simp)
  | .error x, .error y => decidable_of_iff (x = y) (by simp)
  | .ok _, .error _ => isFalse (by simp)
  | .error _, .ok _ => isFalse (by simp)

/-- All entries of a byte string are genuine bytes. -/
def BytesOk (l : Bytes) : Prop := ∀ b ∈ l, b < 256

instance : DecidablePred BytesOk := fun l =>
  decidable_of_iff (∀ b ∈ l, b < 256) Iff.rfl

/-- Pointwise xor of two byte strings (truncating to the shorter, as
`zip` does in Python). -/
def xorBytes (a b : Bytes) : Bytes := List.zipWith (fun x y => x ^^^ y) a b

/-! ## Lowercase hex (Python `bytes.hex()` / `hashlib.sha256().hexdigest()`) -/

/-- One lowercase hex digit. -/
def hexChar (n : Nat) : Char :=
  if n < 10 then Char.ofNat (48 + n) else Char.ofNat (87 + n)

/-- Lowercase hex rendering of a byte string, two digits per byte. -/
def bytesToHex (l : Bytes) : String :=
  String.mk (l.flatMap fun b => [hexChar (b / 16), hexChar (b % 16)])

/-! ## Base64 (CPython `base64.b64encode` / `b64decode` with `validate=False`) -/

/-- The standard base64 alphabet. -/
def b64Alphabet : List Char :=
  "ABCDEFGHIJKLMNOPQRSTUVWXYZabcdefghijklmnopqrstuvwxyz0123456789+/".toList

/-- Alphabet character for a 6-bit value. -/
def b64Char (n : Nat) : Char := b64Alphabet.getD n 'A'

/-- Index of an alphabet character (64 if absent, never hit on filtered input). -/
def b64Index (c : Char) : Nat := b64Alphabet.findIdx (fun d => d = c)

/-- Core of `base64.b64encode`: groups of 3 bytes become 4 alphabet
characters; a final group of 1 or 2 bytes is padded with `=`. -/
def b64encodeChars : Bytes → List Char
  | a :: b :: c :: rest =>
      b64Char (a / 4) :: b64Char ((a % 4) * 16 + b / 16) ::
      b64Char ((b % 16) * 4 + c / 64) :: b64Char (c % 64) :: b64encodeChars rest
  | [a, b] => [b64Char (a / 4), b64Char ((a % 4) * 16 + b / 16), b64Char ((b % 16) * 4), '=']
  | [a] => [b64Char (a / 4), b64Char ((a % 4) * 16), '=', '=']
  | [] => []

/-- `base64.b64encode(..).decode()`. -/
def b64encode (l : Bytes) : String := String.mk (b64encodeChars l)

/-- Decode one complete quad of 6-bit values into 3 bytes. -/
def b64quadBytes (a b c d : Nat) : Bytes :=
  [a * 4 + b / 16, (b % 16) * 16 + c / 4, (c % 4) * 64 + d]

/-- Scanner core of CPython `binascii.a2b_base64` (non-strict): input is
already filtered to alphabet characters and `=`; `quad` holds the 6-bit
values of the current incomplete quad (length at most 3).  A `=` seen with
fewer than two data characters in the quad is ignored; with two data
characters it must be followed by a second `=` (then decoding stops); with
three data characters decoding stops immediately. -/
def b64quads (cs : List Char) (quad : List Nat) : Except String Bytes :=
  match cs with
  | [] =>
      if quad.length = 0 then .ok []
      else if quad.length = 1 then .error "Invalid base64-encoded string"
      else .error "Incorrect padding"
  | c :: rest =>
      if c = '=' then
        match quad with
        | [a, b] =>
            match rest with
            | '=' :: _ => .ok [a * 4 + b / 16]
            | _ => .error "Incorrect padding"
        | [a, b, c'] => .ok [a * 4 + b / 16, (b % 16) * 16 + c' / 4]
        | _ => b64quads rest quad
      else
        match quad with
        | [a, b, c'] => (b64quads rest []).map (fun tl => b64quadBytes a b c' (b64Index c) ++ tl)
        | _ => b64quads rest (quad ++ [b64Index c])

/-- `base64.b64decode` with default `validate=False`: characters outside
the alphabet (other than `=`) are discarded, then the quad scanner runs. -/
def b64decode (s : String) : Except String Bytes :=
  b64quads (s.toList.filter fun c => b64Alphabet.contains c || c = '=') []

/-! ## SHA-256 (FIPS 180-4), as computed by `hashlib.sha256` -/

/-- 32-bit right rotation. -/
def rotr32 (n x : Nat) : Nat := (x / 2 ^ n + x % 2 ^ n * 2 ^ (32 - n)) % 4294967296

/-- Big-endian bytes of a 32-bit word. -/
def wordBE (x : Nat) : Bytes :=
  [x / 16777216 % 256, x / 65536 % 256, x / 256 % 256, x % 256]

/-- Big-endian word from bytes. -/
def bytesToWordBE (l : Bytes) : Nat := l.foldl (fun acc b => acc * 256 + b) 0

/-- Big-endian 8-byte rendering of a (length) value. -/
def len64be (n : Nat) : Bytes :=
  [n / 2 ^ 56 % 256, n / 2 ^ 48 % 256, n / 2 ^ 40 % 256, n / 2 ^ 32 % 256,
   n / 2 ^ 24 % 256, n / 2 ^ 16 % 256, n / 2 ^ 8 % 256, n % 256]

/-- SHA-256 round constants. -/
def shaK : List Nat := [
  1116352408, 1899447441, 3049323471, 3921009573, 961987163, 1508970993, 2453635748, 2870763221,
  3624381080, 310598401, 607225278, 1426881987, 1925078388, 2162078206, 2614888103, 3248222580,
  3835390401, 4022224774, 264347078, 604807628, 770255983, 1249150122, 1555081692, 1996064986,
  2554220882, 2821834349, 2952996808, 3210313671, 3336571891, 3584528711, 113926993, 338241895,
  666307205, 773529912, 1294757372, 1396182291, 1695183700, 1986661051, 2177026350, 2456956037,
  2730485921, 2820302411, 3259730800, 3345764771, 3516065817, 3600352804, 4094571909, 275423344,
  430227734, 506948616, 659060556, 883997877, 958139571, 1322822218, 1537002063, 1747873779,
  1955562222, 2024104815, 2227730452, 2361852424, 2428436474, 2756734187, 3204031479, 3329325298
]

/-- SHA-256 padding: a `0x80` byte, zeros to 56 mod 64, then the bit length. -/
def shaPad (msg : Bytes) : Bytes :=
  msg ++ [128] ++ List.replicate ((64 + 56 - (msg.length + 1) % 64) % 64) 0
      ++ len64be (8 * msg.length)

/-- Split into 64-byte chunks (structural recursion on a length fuel, so
that the kernel can evaluate it). -/
def chunks64Go : Nat → Bytes → List Bytes
  | 0, _ => []
  | _ + 1, [] => []
  | fuel + 1, b :: rest => ((b :: rest).take 64) :: chunks64Go fuel ((b :: rest).drop 64)

/-- Split into 64-byte chunks. -/
def chunks64 (l : Bytes) : List Bytes := chunks64Go l.length l

/-- The eight working words of the SHA-256 state. -/
abbrev Sha2State := Nat × Nat × Nat × Nat × Nat × Nat × Nat × Nat

/-- Message schedule: 64 32-bit words from a 64-byte chunk. -/
def shaSchedule (chunk : Bytes) : List Nat :=
  (List.range 48).foldl
    (fun w i =>
      let x := w.getD (i + 1) 0
      let y := w.getD (i + 14) 0
      let s0 := rotr32 7 x ^^^ rotr32 18 x ^^^ x / 2 ^ 3
      let s1 := rotr32 17 y ^^^ rotr32 19 y ^^^ y / 2 ^ 10
      w ++ [(w.getD i 0 + s0 + w.getD (i + 9) 0 + s1) % 4294967296])
    ((List.range 16).map fun i => bytesToWordBE ((chunk.drop (4 * i)).take 4))

/-- One SHA-256 compression round. -/
def shaRound (w : List Nat) (st : Sha2State) (i : Nat) : Sha2State :=
  match st with
  | (a, b, c, d, e, f, g, h) =>
    let S1 := rotr32 6 e ^^^ rotr32 11 e ^^^ rotr32 25 e
    let ch := e &&& f ^^^ (4294967295 - e) &&& g
    let t1 := (h + S1 + ch + shaK.getD i 0 + w.getD i 0) % 4294967296
    let S0 := rotr32 2 a ^^^ rotr32 13 a ^^^ rotr32 22 a
    let mj := a &&& b ^^^ a &&& c ^^^ b &&& c
    let t2 := (S0 + mj) % 4294967296
    ((t1 + t2) % 4294967296, a, b, c, (d + t1) % 4294967296, e, f, g)

/-- Process one 64-byte chunk. -/
def shaCompress (st : Sha2State) (chunk : Bytes) : Sha2State :=
  match st, (List.range 64).foldl (shaRound (shaSchedule chunk)) st with
  | (a, b, c, d, e, f, g, h), (a', b', c', d', e', f', g', h') =>
    ((a + a') % 4294967296, (b + b') % 4294967296, (c + c') % 4294967296,
     (d + d') % 4294967296, (e + e') % 4294967296, (f + f') % 4294967296,
     (g + g') % 4294967296, (h + h') % 4294967296)

/-- SHA-256 digest (32 bytes). -/
def sha256 (msg : Bytes) : Bytes :=
  match (chunks64 (shaPad msg)).foldl shaCompress
      (1779033703, 3144134277, 1013904242, 2773480762,
       1359893119, 2600822924, 528734635, 1541459225) with
  | (a, b, c, d, e, f, g, h) =>
    wordBE a ++ wordBE b ++ wordBE c ++ wordBE d ++ wordBE e ++ wordBE f ++ wordBE g ++ wordBE h

/-! ## HMAC-SHA256 (RFC 2104), as computed by `hmac.new(key, msg, hashlib.sha256)` -/

/-- HMAC-SHA256 with the 64-byte SHA-256 block size. -/
def hmacSha256 (key msg : Bytes) : Bytes :=
  let k0 := if 64 < key.length then sha256 key else key
  let kp := k0 ++ List.replicate (64 - k0.length) 0
  sha256 ((kp.map fun b => b ^^^ 92) ++ sha256 ((kp.map fun b => b ^^^ 54) ++ msg))

/-! ## AES block cipher (FIPS-197), the cipher behind both pycryptodome's
`AES.new(key, AES.MODE_CBC, iv)` and the `cryptography` package's GCM mode. -/

/-- The AES S-box. -/
def sbox : List Nat := [
  99, 124, 119, 123, 242, 107, 111, 197, 48, 1, 103, 43, 254, 215, 171, 118,
  202, 130, 201, 125, 250, 89, 71, 240, 173, 212, 162, 175, 156, 164, 114, 192,
  183, 253, 147, 38, 54, 63, 247, 204, 52, 165, 229, 241, 113, 216, 49, 21,
  4, 199, 35, 195, 24, 150, 5, 154, 7, 18, 128, 226, 235, 39, 178, 117,
  9, 131, 44, 26, 27, 110, 90, 160, 82, 59, 214, 179, 41, 227, 47, 132,
  83, 209, 0, 237, 32, 252, 177, 91, 106, 203, 190, 57, 74, 76, 88, 207,
  208, 239, 170, 251, 67, 77, 51, 133, 69, 249, 2, 127, 80, 60, 159, 168,
  81, 163, 64, 143, 146, 157, 56, 245, 188, 182, 218, 33, 16, 255, 243, 210,
  205, 12, 19, 236, 95, 151, 68, 23, 196, 167, 126, 61, 100, 93, 25, 115,
  96, 129, 79, 220, 34, 42, 144, 136, 70, 238, 184, 20, 222, 94, 11, 219,
  224, 50, 58, 10, 73, 6, 36, 92, 194, 211, 172, 98, 145, 149, 228, 121,
  231, 200, 55, 109, 141, 213, 78, 169, 108, 86, 244, 234, 101, 122, 174, 8,
  186, 120, 37, 46, 28, 166, 180, 198, 232, 221, 116, 31, 75, 189, 139, 138,
  112, 62, 181, 102, 72, 3, 246, 14, 97, 53, 87, 185, 134, 193, 29, 158,
  225, 248, 152, 17, 105, 217, 142, 148, 155, 30, 135, 233, 206, 85, 40, 223,
  140, 161, 137, 13, 191, 230, 66, 104, 65, 153, 45, 15, 176, 84, 187, 22
]

/-- The inverse AES S-box. -/
def invSbox : List Nat := [
  82, 9, 106, 213, 48, 54, 165, 56, 191, 64, 163, 158, 129, 243, 215, 251,
  124, 227, 57, 130, 155, 47, 255, 135, 52, 142, 67, 68, 196, 222, 233, 203,
  84, 123, 148, 50, 166, 194, 35, 61, 238, 76, 149, 11, 66, 250, 195, 78,
  8, 46, 161, 102, 40, 217, 36, 178, 118, 91, 162, 73, 109, 139, 209, 37,
  114, 248, 246, 100, 134, 104, 152, 22, 212, 164, 92, 204, 93, 101, 182, 146,
  108, 112, 72, 80, 253, 237, 185, 218, 94, 21, 70, 87, 167, 141, 157, 132,
  144, 216, 171, 0, 140, 188, 211, 10, 247, 228, 88, 5, 184, 179, 69, 6,
  208, 44, 30, 143, 202, 63, 15, 2, 193, 175, 189, 3, 1, 19, 138, 107,
  58, 145, 17, 65, 79, 103, 220, 234, 151, 242, 207, 206, 240, 180, 230, 115,
  150, 172, 116, 34, 231, 173, 53, 133, 226, 249, 55, 232, 28, 117, 223, 110,
  71, 241, 26, 113, 29, 41, 197, 137, 111, 183, 98, 14, 170, 24, 190, 27,
  252, 86, 62, 75, 198, 210, 121, 32, 154, 219, 192, 254, 120, 205, 90, 244,
  31, 221, 168, 51, 136, 7, 199, 49, 177, 18, 16, 89, 39, 128, 236, 95,
  96, 81, 127, 169, 25, 181, 74, 13, 45, 229, 122, 159, 147, 201, 156, 239,
  160, 224, 59, 77, 174, 42, 245, 176, 200, 235, 187, 60, 131, 83, 153, 97,
  23, 43, 4, 126, 186, 119, 214, 38, 225, 105, 20, 99, 85, 33, 12, 125
]

/-- S-box lookup. -/
def sboxB (b : Nat) : Nat := sbox.getD b 0

/-- Inverse S-box lookup. -/
def invSboxB (b : Nat) : Nat := invSbox.getD b 0

/-- Multiplication by x in GF(2^8) mod x^8+x^4+x^3+x+1. -/
def xtime (x : Nat) : Nat := if x < 128 then 2 * x else (2 * x) ^^^ 283

/-- GF(2^8) multiplication by 2. -/
def gmul2 (x : Nat) : Nat := xtime x

/-- GF(2^8) multiplication by 3. -/
def gmul3 (x : Nat) : Nat := xtime x ^^^ x

/-- GF(2^8) multiplication by 9. -/
def gmul9 (x : Nat) : Nat := xtime (xtime (xtime x)) ^^^ x

/-- GF(2^8) multiplication by 11. -/
def gmul11 (x : Nat) : Nat := xtime (xtime (xtime x)) ^^^ xtime x ^^^ x

/-- GF(2^8) multiplication by 13. -/
def gmul13 (x : Nat) : Nat := xtime (xtime (xtime x)) ^^^ xtime (xtime x) ^^^ x

/-- GF(2^8) multiplication by 14. -/
def gmul14 (x : Nat) : Nat := xtime (xtime (xtime x)) ^^^ xtime (xtime x) ^^^ xtime x

/-- SubBytes. -/
def subBytes (s : Bytes) : Bytes := s.map sboxB

/-- InvSubBytes. -/
def invSubBytes (s : Bytes) : Bytes := s.map invSboxB

/-- ShiftRows on the column-major 16-byte state. -/
def shiftRows (s : Bytes) : Bytes :=
  (List.range 16).map fun i => s.getD ((i + 4 * (i % 4)) % 16) 0

/-- InvShiftRows on the column-major 16-byte state. -/
def invShiftRows (s : Bytes) : Bytes :=
  (List.range 16).map fun i => s.getD ((i + 16 - 4 * (i % 4)) % 16) 0

/-- MixColumns on one column. -/
def mixColumnsCol (a0 a1 a2 a3 : Nat) : Bytes :=
  [gmul2 a0 ^^^ gmul3 a1 ^^^ a2 ^^^ a3,
   a0 ^^^ gmul2 a1 ^^^ gmul3 a2 ^^^ a3,
   a0 ^^^ a1 ^^^ gmul2 a2 ^^^ gmul3 a3,
   gmul3 a0 ^^^ a1 ^^^ a2 ^^^ gmul2 a3]

/-- InvMixColumns on one column. -/
def invMixColumnsCol (a0 a1 a2 a3 : Nat) : Bytes :=
  [gmul14 a0 ^^^ gmul11 a1 ^^^ gmul13 a2 ^^^ gmul9 a3,
   gmul9 a0 ^^^ gmul14 a1 ^^^ gmul11 a2 ^^^ gmul13 a3,
   gmul13 a0 ^^^ gmul9 a1 ^^^ gmul14 a2 ^^^ gmul11 a3,
   gmul11 a0 ^^^ gmul13 a1 ^^^ gmul9 a2 ^^^ gmul14 a3]

/-- MixColumns, column by column. -/
def mixColumns : Bytes → Bytes
  | a0 :: a1 :: a2 :: a3 :: rest => mixColumnsCol a0 a1 a2 a3 ++ mixColumns rest
  | s => s

/-- InvMixColumns, column by column. -/
def invMixColumns : Bytes → Bytes
  | a0 :: a1 :: a2 :: a3 :: rest => invMixColumnsCol a0 a1 a2 a3 ++ invMixColumns rest
  | s => s

/-- AddRoundKey: bytewise xor of state and round key. -/
def addRoundKey (s k : Bytes) : Bytes := xorBytes s k

/-- Round-constant words for the key schedule. -/
def rcon : List Nat := [1, 2, 4, 8, 16, 32, 64, 128, 27, 54, 108, 216, 171, 77]

/-- Rotate a 4-byte word left by one byte. -/
def rotWord (w : List Nat) : List Nat := w.drop 1 ++ w.take 1

/-- Apply the S-box to each byte of a word. -/
def subWord (w : List Nat) : List Nat := w.map sboxB

/-- One step of the FIPS-197 key expansion. -/
def expandStep (key : Bytes) (w : List (List Nat)) (i : Nat) : List (List Nat) :=
  let Nk := key.length / 4
  if i < Nk then w ++ [(key.drop (4 * i)).take 4]
  else
    let temp := w.getD (i - 1) []
    let temp :=
      if i % Nk = 0 then
        xorBytes (subWord (rotWord temp)) [rcon.getD (i / Nk - 1) 0, 0, 0, 0]
      else if 6 < Nk ∧ i % Nk = 4 then subWord temp
      else temp
    w ++ [xorBytes (w.getD (i - Nk) []) temp]

/-- FIPS-197 key expansion, producing `4 * (Nr + 1)` 4-byte words. -/
def expandWords (key : Bytes) : List (List Nat) :=
  (List.range (4 * (key.length / 4 + 7))).foldl (expandStep key) []

/-- Concatenate each run of four words into a 16-byte round key. -/
def groupWords : List (List Nat) → List Bytes
  | w0 :: w1 :: w2 :: w3 :: rest => (w0 ++ w1 ++ w2 ++ w3) :: groupWords rest
  | _ => []

/-- The `Nr + 1` round keys of a key. -/
def roundKeys (key : Bytes) : List Bytes := groupWords (expandWords key)

/-- The middle rounds of the cipher. -/
def aesEncRounds (middle : List Bytes) (s : Bytes) : Bytes :=
  middle.foldl (fun s k => addRoundKey (mixColumns (shiftRows (subBytes s))) k) s

/-- The middle rounds of the inverse cipher (keys already reversed). -/
def aesDecRounds (middleRev : List Bytes) (s : Bytes) : Bytes :=
  middleRev.foldl (fun s k => invMixColumns (addRoundKey (invSubBytes (invShiftRows s)) k)) s

/-- AES block encryption (any of the three key sizes). -/
def encryptBlock (key block : Bytes) : Bytes :=
  let ks := roundKeys key
  addRoundKey
    (shiftRows (subBytes (aesEncRounds (ks.drop 1).dropLast (addRoundKey block (ks.getD 0 [])))))
    (ks.getLastD [])

/-- AES block decryption. -/
def decryptBlock (key block : Bytes) : Bytes :=
  let ks := roundKeys key
  addRoundKey
    (invSubBytes (invShiftRows
      (aesDecRounds ((ks.drop 1).dropLast).reverse (addRoundKey block (ks.getLastD [])))))
    (ks.getD 0 [])

/-! ### Key schedule well-formedness -/

/-- A well-formed word: 4 bytes. -/
def WordWf (w : List Nat) : Prop := w.length = 4 ∧ BytesOk w

/-- CBC encryption, structural on a length fuel so the kernel can evaluate it. -/
def cbcEncGo : Nat → Bytes → Bytes → Bytes → Bytes
  | 0, _, _, _ => []
  | _ + 1, _, _, [] => []
  | fuel + 1, key, prev, b :: rest =>
      let c := encryptBlock key (xorBytes ((b :: rest).take 16) prev)
      c ++ cbcEncGo fuel key c ((b :: rest).drop 16)

/-- CBC encryption of a whole (block-aligned) byte string. -/
def cbcEncrypt (key iv data : Bytes) : Bytes := cbcEncGo data.length key iv data

/-- CBC decryption, structural on a length fuel. -/
def cbcDecGo : Nat → Bytes → Bytes → Bytes → Bytes
  | 0, _, _, _ => []
  | _ + 1, _, _, [] => []
  | fuel + 1, key, prev, b :: rest =>
      xorBytes (decryptBlock key ((b :: rest).take 16)) prev
        ++ cbcDecGo fuel key ((b :: rest).take 16) ((b :: rest).drop 16)

/-- CBC decryption of a whole (block-aligned) byte string. -/
def cbcDecrypt (key iv data : Bytes) : Bytes := cbcDecGo data.length key iv data

/-! ### PKCS#7 padding (pycryptodome `Crypto.Util.Padding.pad` / `unpad`) -/

/-- `Crypto.Util.Padding.pad` with the default pkcs7 style. -/
def pkcsPad (data : Bytes) (block_size : Nat) : Bytes :=
  data ++ List.replicate (block_size - data.length % block_size)
    (block_size - data.length % block_size)

/-- `Crypto.Util.Padding.unpad` with the default pkcs7 style, with
pycryptodome's exact failure messages. -/
def pkcsUnpad (data : Bytes) (block_size : Nat) : Except String Bytes :=
  if data.length = 0 then .error "Zero-length input cannot be unpadded"
  else if data.length % block_size ≠ 0 then .error "Input data is not padded"
  else
    let padding_len := data.getLastD 0
    if padding_len < 1 ∨ min block_size data.length < padding_len then .error "Padding is incorrect."
    else if data.drop (data.length - padding_len) ≠ List.replicate padding_len padding_len then
      .error "PKCS#7 padding is incorrect."
    else .ok (data.take (data.length - padding_len))

/-! ## The media pipeline (`src/media.py`, class `WhatsappMedia`)

`download_from_cdn` is an HTTP call; the pipeline functions below therefore
take the downloaded blob as an argument.  File writes are modelled by an
explicit association-list file system threaded through `process_media_tr`,
and the order of the pipeline stages is recorded in an event list. -/

/-- The fields of a `WhatsappMedia` instance after `__init__`: the key
material has been base64-decoded to raw bytes, the two hashes are kept as
the metadata strings, and the two debug flags default to false. -/
structure WhatsappMedia where
  file_name : String
  media_id : String := ""
  cdn_url : String := ""
  encryption_key : Bytes
  hmac_key : Bytes
  iv : Bytes
  plaintext_hash : String
  encrypted_hash : String
  debug_mode : Bool := false
  keep_temp_files : Bool := false

/-- `WhatsappMedia.verify_enc_hash`: try a direct lowercase-hex comparison,
then decode the expected hash as base64 and compare its hex; the bare
`except` around the decode turns any decode error into `False`. -/
def verify_enc_hash (m : WhatsappMedia) (cdn_file : Bytes) : Bool :=
  let calculated_hash := bytesToHex (sha256 cdn_file)
  let expected_hash := m.encrypted_hash
  if calculated_hash = expected_hash then true
  else
    match b64decode expected_hash with
    | .ok decoded => decide (calculated_hash = bytesToHex decoded)
    | .error _ => false

/-- `WhatsappMedia.validate_hmac`: first 10 bytes of
`HMAC-SHA256(hmac_key, iv ‖ ciphertext)` against the trailing tag. -/
def validate_hmac (m : WhatsappMedia) (ciphertext hmac10 : Bytes) : Bool :=
  decide ((hmacSha256 m.hmac_key (m.iv ++ ciphertext)).take 10 = hmac10)

/-- `WhatsappMedia.decrypt_media`: AES-CBC decrypt then PKCS#7 unpad.
pycryptodome raises `ValueError` on an illegal key size, a wrong-size IV,
non-block-aligned ciphertext, or bad padding; those exceptions are the
`Except.error` values here. -/
def decrypt_media (m : WhatsappMedia) (ciphertext : Bytes) : Except String Bytes :=
  if ¬ (m.encryption_key.length = 16 ∨ m.encryption_key.length = 24 ∨
      m.encryption_key.length = 32) then
    .error "Incorrect AES key length"
  else if ¬ m.iv.length = 16 then
    .error "Incorrect IV length (it must be 16 bytes long)"
  else if ¬ ciphertext.length % 16 = 0 then
    .error "Data must be padded to 16 byte boundary in CBC mode"
  else
    pkcsUnpad (cbcDecrypt m.encryption_key m.iv ciphertext) 16

/-- `WhatsappMedia.verify_plaintext_hash`: same dual comparison as
`verify_enc_hash`, against `plaintext_hash`. -/
def verify_plaintext_hash (m : WhatsappMedia) (decrypted_media : Bytes) : Bool :=
  let calculated_hash := bytesToHex (sha256 decrypted_media)
  let expected_hash := m.plaintext_hash
  if calculated_hash = expected_hash then true
  else
    match b64decode expected_hash with
    | .ok decoded => decide (calculated_hash = bytesToHex decoded)
    | .error _ => false

/-- A tiny model of the file system: names mapped to contents. -/
abbrev FS := List (String × Bytes)

/-- Remove a file (no-op when absent, as the code checks existence first). -/
def fsRemove (fs : FS) (name : String) : FS := fs.filter fun p => p.1 != name

/-- `open(name, "wb")` + write: truncating write. -/
def fsWrite (fs : FS) (name : String) (content : Bytes) : FS :=
  (name, content) :: fsRemove fs name

/-- Look a file up. -/
def fsLookup (fs : FS) (name : String) : Option Bytes :=
  (fs.find? fun p => p.1 == name).map Prod.snd

/-- `WhatsappMedia.cleanup_temp_files`: unconditionally removes the two
diagnostic artifacts if present. -/
def cleanup_temp_files (m : WhatsappMedia) (fs : FS) : FS :=
  fsRemove (fsRemove fs (m.file_name ++ ".raw")) (m.file_name ++ ".decrypted")

/-- The split in `process_media` / `bypass_verifications`:
`ciphertext = cdn_file[:-10]`, `hmac10 = cdn_file[-10:]` (Python slice
semantics: a blob of 10 bytes or fewer gives an empty ciphertext and the
whole blob as tag). -/
def split_cdn (cdn_file : Bytes) : Bytes × Bytes :=
  (cdn_file.take (cdn_file.length - 10), cdn_file.drop (cdn_file.length - 10))

/-- The observable steps of a pipeline run. -/
inductive MediaEvent where
  | download
  | writeRaw
  | encHashCheck (ok : Bool)
  | hmacCheck (ok : Bool)
  | decrypt
  | writeDecrypted
  | plaintextHashCheck (ok : Bool)
deriving DecidableEq, Repr

/-- `WhatsappMedia.process_media`, instrumented with the event trace and
the file-system state.  The tuple result, the branch structure, the
temp-file bookkeeping and the cleanup conditions mirror the source; the
only exception raised inside the `try` in this model is the `ValueError`
out of `decrypt_media` (the b64 decode inside `verify_enc_hash` has its own
`except`), so the `except Exception` arm is the `.error` branch. -/
def process_media_tr (m : WhatsappMedia) (cdn_file : Bytes) (fs0 : FS) :
    (Option Bytes × Bool × String) × List MediaEvent × FS :=
  let wr := m.debug_mode && m.keep_temp_files
  let fs1 := if wr then fsWrite fs0 (m.file_name ++ ".raw") cdn_file else fs0
  let tf1 : List String := if wr then [m.file_name ++ ".raw"] else []
  let ev1 := [MediaEvent.download] ++ (if wr then [MediaEvent.writeRaw] else [])
  if verify_enc_hash m cdn_file = false then
    ((none, false, "Encrypted file hash verification failed"),
      ev1 ++ [.encHashCheck false], fs1)
  else
    let ciphertext := (split_cdn cdn_file).1
    let hmac10 := (split_cdn cdn_file).2
    if validate_hmac m ciphertext hmac10 = false then
      ((none, false, "HMAC validation failed"),
        ev1 ++ [.encHashCheck true, .hmacCheck false], fs1)
    else
      let ev3 := ev1 ++ [.encHashCheck true, .hmacCheck true, .decrypt]
      match decrypt_media m ciphertext with
      | .error e =>
          let fs2 := if ¬ m.keep_temp_files then tf1.foldl fsRemove fs1 else fs1
          ((none, false, "Error during processing: " ++ e), ev3, fs2)
      | .ok decrypted_media =>
          let fs2 := if wr then fsWrite fs1 (m.file_name ++ ".decrypted") decrypted_media else fs1
          let tf2 := tf1 ++ (if wr then [m.file_name ++ ".decrypted"] else [])
          let ev4 := ev3 ++ (if wr then [MediaEvent.writeDecrypted] else [])
          if verify_plaintext_hash m decrypted_media = false then
            let fs3 := if ¬ m.keep_temp_files then tf2.foldl fsRemove fs2 else fs2
            ((none, false, "Plaintext hash verification failed"),
              ev4 ++ [.plaintextHashCheck false], fs3)
          else
            ((some decrypted_media, true, "Media successfully decrypted and verified"),
              ev4 ++ [.plaintextHashCheck true], fs2)

/-- `WhatsappMedia.process_media`: the returned
`(decrypted_media, success_flag, message)` tuple. -/
def process_media (m : WhatsappMedia) (cdn_file : Bytes) : Option Bytes × Bool × String :=
  (process_media_tr m cdn_file []).1

/-- `WhatsappMedia.bypass_verifications`: download, split, decrypt with no
verification, save, cleanup. -/
def bypass_verifications (m : WhatsappMedia) (cdn_file : Bytes) (output_path : Option String)
    (fs0 : FS) : (Bool × String) × List MediaEvent × FS :=
  let ev : List MediaEvent := [.download, .decrypt]
  let ciphertext := (split_cdn cdn_file).1
  match decrypt_media m ciphertext with
  | .error e => ((false, "Error during processing: " ++ e), ev, fs0)
  | .ok decrypted_media =>
      let path := output_path.getD m.file_name
      let fs1 := fsWrite fs0 path decrypted_media
      let fs2 := cleanup_temp_files m fs1
      ((true, "Media saved to " ++ path ++ " (bypassed verification)"), ev, fs2)

/-! ## AES-GCM (NIST SP 800-38D) -/

def natToBytesBE : Nat → Nat → Bytes
  | 0, _ => []
  | w + 1, n => natToBytesBE w (n / 256) ++ [n % 256]

def gcmR : Nat := 225 * 2 ^ 120

def gf128mulGo : Nat → Nat → Nat → Nat → Nat
  | 0, _, _, z => z
  | i + 1, x, v, z =>
      let z2 := if x.testBit i then z ^^^ v else z
      let v2 := if v % 2 = 1 then v / 2 ^^^ gcmR else v / 2
      gf128mulGo i x v2 z2

def gf128mul (x y : Nat) : Nat := gf128mulGo 128 x y 0

def chunks16Go : Nat → Bytes → List Bytes
  | 0, _ => []
  | _ + 1, [] => []
  | fuel + 1, l => l.take 16 :: chunks16Go fuel (l.drop 16)

def ghash (h : Nat) (data : Bytes) : Nat :=
  (chunks16Go data.length data).foldl (fun y c => gf128mul (y ^^^ bytesToWordBE c) h) 0

def pad16 (l : Bytes) : Bytes := l ++ List.replicate ((16 - l.length % 16) % 16) 0

def len64bits (nbits : Nat) : Bytes := natToBytesBE 8 nbits

def gcmH (key : Bytes) : Nat := bytesToWordBE (encryptBlock key (List.replicate 16 0))

def gcm_j0 (key iv : Bytes) : Bytes :=
  if iv.length = 12 then iv ++ [0, 0, 0, 1]
  else natToBytesBE 16 (ghash (gcmH key) (pad16 iv ++ len64bits 0 ++ len64bits (8 * iv.length)))

def inc32 (b : Bytes) : Bytes :=
  b.take 12 ++ natToBytesBE 4 ((bytesToWordBE (b.drop 12) + 1) % 4294967296)

def inc32s : Nat → Bytes → Bytes
  | 0, b => b
  | n + 1, b => inc32 (inc32s n b)

def gcmKeystream (key j0 : Bytes) (n : Nat) : Bytes :=
  (((List.range ((n + 15) / 16)).map fun i => encryptBlock key (inc32s (i + 1) j0)).flatten).take n

def ctrCrypt (key j0 data : Bytes) : Bytes :=
  xorBytes data (gcmKeystream key j0 data.length)

def gcmTag (key iv ct : Bytes) : Bytes :=
  xorBytes (encryptBlock key (gcm_j0 key iv))
    (natToBytesBE 16 (ghash (gcmH key) (pad16 ct ++ len64bits 0 ++ len64bits (8 * ct.length))))

def flip_iv (iv : Bytes) : Bytes := iv.map fun b => b ^^^ 255


/-! ## JSON values (the fragment exchanged by the flow endpoints)

`json.dumps` / `json.loads` are modelled over JSON values whose numbers are
integers (the flow payloads only carry integers; floats, `NaN` and
`Infinity` are outside the modelled fragment and the parser rejects them)
and whose strings are Unicode scalar strings (Lean `String`; Python lone
surrogates are not representable). Objects are ordered key/value lists,
matching Python dict insertion order. -/

mutual
inductive Json where
  | null : Json
  | bool : Bool → Json
  | num : Int → Json
  | str : String → Json
  | arr : JsonList → Json
  | obj : JsonObj → Json
deriving DecidableEq
inductive JsonList where
  | nil : JsonList
  | cons : Json → JsonList → JsonList
deriving DecidableEq
inductive JsonObj where
  | nil : JsonObj
  | cons : String → Json → JsonObj → JsonObj
deriving DecidableEq
end

/-! ### Serialization: `json.dumps` with default options
(`ensure_ascii=True`, separators `", "` and `": "`). -/

def digitChar (d : Nat) : Char := Char.ofNat (48 + d)

def natToDecChars : Nat → Nat → List Char
  | 0, _ => []
  | fuel + 1, n =>
      if n = 0 then [] else natToDecChars fuel (n / 10) ++ [digitChar (n % 10)]

def natToDec (n : Nat) : String :=
  if n = 0 then "0" else String.mk (natToDecChars n n)

def intToDec (i : Int) : String :=
  if i < 0 then "-" ++ natToDec i.natAbs else natToDec i.natAbs

/-- `\uXXXX` escape, lowercase hex, as produced by `json.dumps`. -/
def uEscape (n : Nat) : List Char :=
  ['\\', 'u', hexChar (n / 4096 % 16), hexChar (n / 256 % 16),
   hexChar (n / 16 % 16), hexChar (n % 16)]

/-- Escape one character the way CPython's `py_encode_basestring_ascii`
does: short escapes for `\" \\ \b \f \n \r \t`, `\u00xx` for other
controls, `\uXXXX` (with surrogate pairs above U+FFFF) for non-ASCII. -/
def escapeChar (c : Char) : List Char :=
  let n := c.toNat
  if c = '"' then ['\\', '"']
  else if c = '\\' then ['\\', '\\']
  else if n = 8 then ['\\', 'b']
  else if n = 12 then ['\\', 'f']
  else if n = 10 then ['\\', 'n']
  else if n = 13 then ['\\', 'r']
  else if n = 9 then ['\\', 't']
  else if n < 32 ∨ 127 ≤ n then
    if n < 65536 then uEscape n
    else uEscape (55296 + (n - 65536) / 1024) ++ uEscape (56320 + (n - 65536) % 1024)
  else [c]

def encodeString (s : String) : String :=
  String.mk ('"' :: s.data.flatMap escapeChar ++ ['"'])

mutual
def dumps : Json → String
  | .null => "null"
  | .bool true => "true"
  | .bool false => "false"
  | .num i => intToDec i
  | .str s => encodeString s
  | .arr .nil => "[]"
  | .arr (.cons h t) => "[" ++ dumps h ++ dumpsL t ++ "]"
  | .obj .nil => "\x7b\x7d"
  | .obj (.cons k v t) =>
      "\x7b" ++ encodeString k ++ ": " ++ dumps v ++ dumpsO t ++ "\x7d"
def dumpsL : JsonList → String
  | .nil => ""
  | .cons h t => ", " ++ dumps h ++ dumpsL t
def dumpsO : JsonObj → String
  | .nil => ""
  | .cons k v t => ", " ++ encodeString k ++ ": " ++ dumps v ++ dumpsO t
end

/-! ### Parsing: `json.loads` on the modelled fragment -/

def isWsChar (c : Char) : Bool := c = ' ' ∨ c = '\t' ∨ c = '\n' ∨ c = '\r'

def skipWs : List Char → List Char
  | [] => []
  | c :: cs => if isWsChar c then skipWs cs else c :: cs

def hexVal (c : Char) : Option Nat :=
  if 48 ≤ c.toNat ∧ c.toNat ≤ 57 then some (c.toNat - 48)
  else if 97 ≤ c.toNat ∧ c.toNat ≤ 102 then some (c.toNat - 87)
  else if 65 ≤ c.toNat ∧ c.toNat ≤ 70 then some (c.toNat - 55)
  else none

def parseHex4 : List Char → Option (Nat × List Char)
  | c1 :: c2 :: c3 :: c4 :: rest =>
      match hexVal c1, hexVal c2, hexVal c3, hexVal c4 with
      | some v1, some v2, some v3, some v4 =>
          some (4096 * v1 + 256 * v2 + 16 * v3 + v4, rest)
      | _, _, _, _ => none
  | _ => none

def shortEscape (e : Char) : Option Char :=
  if e = '"' then some '"'
  else if e = '\\' then some '\\'
  else if e = '/' then some '/'
  else if e = 'b' then some (Char.ofNat 8)
  else if e = 'f' then some (Char.ofNat 12)
  else if e = 'n' then some (Char.ofNat 10)
  else if e = 'r' then some (Char.ofNat 13)
  else if e = 't' then some (Char.ofNat 9)
  else none

/-- Decode a `\uXXXX` payload (the four hex digits onward), combining a
high/low surrogate pair as `py_scanstring` does. Lone surrogates are
rejected (Python would keep them, but they are not representable as Lean
characters). -/
def parseUEsc (cs1 : List Char) : Except String (Char × List Char) :=
  match parseHex4 cs1 with
  | none => .error "Invalid \\uXXXX escape"
  | some (n, cs2) =>
      if 55296 ≤ n ∧ n < 56320 then
        match cs2 with
        | '\\' :: 'u' :: cs3 =>
            match parseHex4 cs3 with
            | none => .error "Invalid \\uXXXX escape"
            | some (m, cs4) =>
                if 56320 ≤ m ∧ m < 57344 then
                  .ok (Char.ofNat (65536 + (n - 55296) * 1024 + (m - 56320)), cs4)
                else .error "Unpaired high surrogate"
        | _ => .error "Unpaired high surrogate"
      else if 56320 ≤ n ∧ n < 57344 then .error "Unpaired low surrogate"
      else .ok (Char.ofNat n, cs2)

/-- Parse a string body after the opening quote, as `py_scanstring` does. -/
def parseStringGo : Nat → List Char → Except String (List Char × List Char)
  | 0, _ => .error "Unterminated string starting at"
  | _ + 1, [] => .error "Unterminated string starting at"
  | fuel + 1, c :: cs =>
      if c = '"' then .ok ([], cs)
      else if c = '\\' then
        match cs with
        | [] => .error "Unterminated string starting at"
        | e :: cs1 =>
            if e = 'u' then
              match parseUEsc cs1 with
              | .error err => .error err
              | .ok (ch, cs2) =>
                  match parseStringGo fuel cs2 with
                  | .error err => .error err
                  | .ok (body, rest) => .ok (ch :: body, rest)
            else
              match shortEscape e with
              | some d =>
                  match parseStringGo fuel cs1 with
                  | .error err => .error err
                  | .ok (body, rest) => .ok (d :: body, rest)
              | none => .error "Invalid \\escape"
      else if c.toNat < 32 then .error "Invalid control character at"
      else
        match parseStringGo fuel cs with
        | .error err => .error err
        | .ok (body, rest) => .ok (c :: body, rest)

def isDigitChar (c : Char) : Bool := 48 ≤ c.toNat ∧ c.toNat ≤ 57

def spanDigits : List Char → List Char × List Char
  | [] => ([], [])
  | c :: cs =>
      if isDigitChar c then
        let (d, r) := spanDigits cs
        (c :: d, r)
      else ([], c :: cs)

def digitsVal (ds : List Char) : Nat := ds.foldl (fun a c => a * 10 + (c.toNat - 48)) 0

/-- Unsigned part of a JSON integer literal: `0|[1-9][0-9]*`, with a
fraction or exponent continuation (a float, outside the modelled fragment)
rejected. -/
def parseUNumber (neg : Bool) (cs1 : List Char) : Except String (Json × List Char) :=
  match cs1 with
  | [] => Except.error "Expecting value"
  | c :: r =>
      if c = '0' then
        match r with
        | c2 :: _ =>
            if c2 = '.' ∨ c2 = 'e' ∨ c2 = 'E' then
              Except.error "float literals are outside the modelled fragment"
            else Except.ok (Json.num 0, r)
        | [] => Except.ok (Json.num 0, r)
      else if isDigitChar c then
        let (ds, r2) := spanDigits r
        let v : Int := Int.ofNat (digitsVal (c :: ds))
        match r2 with
        | c2 :: _ =>
            if c2 = '.' ∨ c2 = 'e' ∨ c2 = 'E' then
              Except.error "float literals are outside the modelled fragment"
            else Except.ok (Json.num (if neg then -v else v), r2)
        | [] => Except.ok (Json.num (if neg then -v else v), r2)
      else Except.error "Expecting value"

/-- Parse an integer literal following the JSON `NUMBER_RE` grammar
(`-?(0|[1-9][0-9]*)`). -/
def parseNumber (cs : List Char) : Except String (Json × List Char) :=
  match cs with
  | [] => Except.error "Expecting value"
  | c :: r => if c = '-' then parseUNumber true r else parseUNumber false (c :: r)

def objHasKey : JsonObj → String → Bool
  | .nil, _ => false
  | .cons k _ t, k' => k = k' || objHasKey t k'

/-- Python `dict` insertion: replace in place if the key exists, else
append. -/
def objUpsert : JsonObj → String → Json → JsonObj
  | .nil, k, v => .cons k v .nil
  | .cons k1 v1 t, k, v =>
      if k1 = k then .cons k1 v t else .cons k1 v1 (objUpsert t k v)

def objCanonGo : JsonObj → JsonObj → JsonObj
  | acc, .nil => acc
  | acc, .cons k v t => objCanonGo (objUpsert acc k v) t

mutual
/-- Parse one JSON value; `fuel` bounds the nesting structure. -/
def parseV : Nat → List Char → Except String (Json × List Char)
  | 0, _ => .error "value nesting exceeds fuel"
  | fuel + 1, cs =>
      match cs with
      | [] => .error "Expecting value"
      | c :: r =>
          if c = 'n' then
            match r with
            | 'u' :: 'l' :: 'l' :: r2 => .ok (.null, r2)
            | _ => .error "Expecting value"
          else if c = 't' then
            match r with
            | 'r' :: 'u' :: 'e' :: r2 => .ok (.bool true, r2)
            | _ => .error "Expecting value"
          else if c = 'f' then
            match r with
            | 'a' :: 'l' :: 's' :: 'e' :: r2 => .ok (.bool false, r2)
            | _ => .error "Expecting value"
          else if c = '"' then
            match parseStringGo r.length r with
            | .error e => .error e
            | .ok (body, rest) => .ok (.str (String.mk body), rest)
          else if c = '[' then
            match skipWs r with
            | [] => .error "Expecting value"
            | c1 :: r1 =>
                if c1 = ']' then .ok (.arr .nil, r1)
                else
                  match parseL fuel (c1 :: r1) with
                  | .error e => .error e
                  | .ok (xs, rest) => .ok (.arr xs, rest)
          else if c = '\x7b' then
            match skipWs r with
            | [] => .error "Expecting property name enclosed in double quotes"
            | c1 :: r1 =>
                if c1 = '\x7d' then .ok (.obj .nil, r1)
                else
                  match parseO fuel (c1 :: r1) with
                  | .error e => .error e
                  | .ok (xs, rest) => .ok (.obj (objCanonGo .nil xs), rest)
          else if c = 'N' ∨ c = 'I' then
            .error "NaN and Infinity are outside the modelled fragment"
          else parseNumber (c :: r)
def parseL : Nat → List Char → Except String (JsonList × List Char)
  | 0, _ => .error "value nesting exceeds fuel"
  | fuel + 1, cs =>
      match parseV fuel cs with
      | .error e => .error e
      | .ok (v, r) =>
          match skipWs r with
          | ',' :: r2 =>
              match parseL fuel (skipWs r2) with
              | .error e => .error e
              | .ok (t, rest) => .ok (.cons v t, rest)
          | ']' :: r2 => .ok (.cons v .nil, r2)
          | _ => .error "Expecting ',' delimiter"
def parseO : Nat → List Char → Except String (JsonObj × List Char)
  | 0, _ => .error "value nesting exceeds fuel"
  | fuel + 1, cs =>
      match cs with
      | '"' :: r =>
          match parseStringGo r.length r with
          | .error e => .error e
          | .ok (kb, r1) =>
              match skipWs r1 with
              | ':' :: r2 =>
                  (match parseV fuel (skipWs r2) with
                   | .error e => .error e
                   | .ok (v, r3) =>
                       match skipWs r3 with
                       | ',' :: r4 =>
                           (match parseO fuel (skipWs r4) with
                            | .error e => .error e
                            | .ok (t, rest) => .ok (.cons (String.mk kb) v t, rest))
                       | '\x7d' :: r4 => .ok (.cons (String.mk kb) v .nil, r4)
                       | _ => .error "Expecting ',' delimiter")
              | _ => .error "Expecting ':' delimiter"
      | _ => .error "Expecting property name enclosed in double quotes"
end

def loads (s : String) : Except String Json :=
  match parseV ((skipWs s.data).length + 1) (skipWs s.data) with
  | .error e => .error e
  | .ok (v, r) =>
      match skipWs r with
      | [] => .ok v
      | _ => .error "Extra data"

/-! ### UTF-8 (`str.encode("utf-8")` / `bytes.decode("utf-8")`) -/

def utf8Char (c : Char) : Bytes :=
  let n := c.toNat
  if n < 128 then [n]
  else if n < 2048 then [192 + n / 64, 128 + n % 64]
  else if n < 65536 then [224 + n / 4096, 128 + n / 64 % 64, 128 + n % 64]
  else [240 + n / 262144, 128 + n / 4096 % 64, 128 + n / 64 % 64, 128 + n % 64]

def utf8Encode (s : String) : Bytes := s.data.flatMap utf8Char

/-- Decode one multi-byte UTF-8 sequence (leading byte `b` ≥ 0x80),
with CPython's strict checks: truncated sequences, overlong encodings,
surrogates and values above U+10FFFF are rejected. -/
def utf8DecodeMulti (b : Nat) (rest : Bytes) : Except String (Char × Bytes) :=
  if 194 ≤ b ∧ b < 224 then
    match rest with
    | b1 :: rest1 =>
        if 128 ≤ b1 ∧ b1 < 192 then .ok (Char.ofNat ((b - 192) * 64 + (b1 - 128)), rest1)
        else .error "utf-8 codec cant decode"
    | [] => .error "utf-8 codec cant decode"
  else if 224 ≤ b ∧ b < 240 then
    match rest with
    | b1 :: b2 :: rest1 =>
        if (if b = 224 then 160 ≤ b1 ∧ b1 < 192
            else if b = 237 then 128 ≤ b1 ∧ b1 < 160
            else 128 ≤ b1 ∧ b1 < 192) ∧ 128 ≤ b2 ∧ b2 < 192 then
          .ok (Char.ofNat ((b - 224) * 4096 + (b1 - 128) * 64 + (b2 - 128)), rest1)
        else .error "utf-8 codec cant decode"
    | _ => .error "utf-8 codec cant decode"
  else if 240 ≤ b ∧ b < 245 then
    match rest with
    | b1 :: b2 :: b3 :: rest1 =>
        if (if b = 240 then 144 ≤ b1 ∧ b1 < 192
            else if b = 244 then 128 ≤ b1 ∧ b1 < 144
            else 128 ≤ b1 ∧ b1 < 192) ∧ 128 ≤ b2 ∧ b2 < 192 ∧ 128 ≤ b3 ∧ b3 < 192 then
          .ok (Char.ofNat ((b - 240) * 262144 + (b1 - 128) * 4096 + (b2 - 128) * 64 +
            (b3 - 128)), rest1)
        else .error "utf-8 codec cant decode"
    | _ => .error "utf-8 codec cant decode"
  else .error "utf-8 codec cant decode"

/-- Strict UTF-8 decoding (CPython's default `errors="strict"`). -/
def utf8DecodeGo : Nat → Bytes → Except String (List Char)
  | 0, [] => .ok []
  | 0, _ => .error "utf-8 codec cant decode"
  | _ + 1, [] => .ok []
  | fuel + 1, b :: rest =>
      if b < 128 then
        match utf8DecodeGo fuel rest with
        | .error e => .error e
        | .ok cs => .ok (Char.ofNat b :: cs)
      else
        match utf8DecodeMulti b rest with
        | .error e => .error e
        | .ok (c, rest1) =>
            match utf8DecodeGo fuel rest1 with
            | .error e => .error e
            | .ok cs => .ok (c :: cs)

def utf8Decode (l : Bytes) : Except String String :=
  match utf8DecodeGo l.length l with
  | .error e => .error e
  | .ok cs => .ok (String.mk cs)

/-! ### Number parsing round-trip -/

def RestOk (l : List Char) : Prop :=
  l = [] ∨ l.headD ' ' = ',' ∨ l.headD ' ' = ']' ∨ l.headD ' ' = '\x7d'

/-! ### Structure size, dict-likeness, object canonicalization -/

mutual
def jsizeJ : Json → Nat
  | .null => 1
  | .bool _ => 1
  | .num _ => 1
  | .str _ => 1
  | .arr xs => 1 + jsizeL xs
  | .obj xs => 1 + jsizeO xs
def jsizeL : JsonList → Nat
  | .nil => 0
  | .cons h t => 1 + jsizeJ h + jsizeL t
def jsizeO : JsonObj → Nat
  | .nil => 0
  | .cons _ v t => 1 + jsizeJ v + jsizeO t
end

def objKeysNodup : JsonObj → Bool
  | .nil => true
  | .cons k _ t => !objHasKey t k && objKeysNodup t

/-! `dictLikeJ`: every object anywhere inside the value has
pairwise-distinct keys — automatically true of anything produced from
Python dicts. -/

mutual
def dictLikeJ : Json → Bool
  | .null => true
  | .bool _ => true
  | .num _ => true
  | .str _ => true
  | .arr xs => dictLikeL xs
  | .obj xs => objKeysNodup xs && dictLikeO xs
def dictLikeL : JsonList → Bool
  | .nil => true
  | .cons h t => dictLikeJ h && dictLikeL t
def dictLikeO : JsonObj → Bool
  | .nil => true
  | .cons _ v t => dictLikeJ v && dictLikeO t
end

def objAppend : JsonObj → JsonObj → JsonObj
  | .nil, ys => ys
  | .cons k v t, ys => .cons k v (objAppend t ys)

def HeadClass (c : Char) : Prop :=
  c = 'n' ∨ c = 't' ∨ c = 'f' ∨ c = '-' ∨ isDigitChar c = true ∨
  c = '"' ∨ c = '[' ∨ c = '\x7b'

/-! ## Response encryption / request decryption (`src/encryption.py`,
class `WhatsappEncryption`)

`PRIVATE_KEY.decrypt` (RSA-OAEP with the operator's private key, loaded
from a PEM file) is an external-key operation; `decrypt_request` is
therefore parametrized by the key-unwrapping function `unwrap`. -/

/-- `encrypt_response`: flip the IV bytewise, serialize the response with
`json.dumps`, AES-GCM encrypt, and base64 the ciphertext plus tag. -/
def encrypt_response (response : Json) (aes_key iv : Bytes) : Except String String :=
  if ¬ (aes_key.length = 16 ∨ aes_key.length = 24 ∨ aes_key.length = 32) then
    .error "Invalid key size for AES"
  else if (flip_iv iv).length < 8 ∨ 128 < (flip_iv iv).length then
    .error "initialization_vector must be between 8 and 128 bytes (64 and 1024 bits)"
  else
    .ok (b64encode
      (ctrCrypt aes_key (gcm_j0 aes_key (flip_iv iv)) (utf8Encode (dumps response)) ++
       gcmTag aes_key (flip_iv iv)
         (ctrCrypt aes_key (gcm_j0 aes_key (flip_iv iv)) (utf8Encode (dumps response)))))

/-- `decrypt_request`: base64-decode the inputs, unwrap the AES key, split
the flow blob into body and trailing 16-byte tag, authenticated-decrypt
with AES-GCM (an `InvalidTag` failure returns no plaintext), and parse the
UTF-8 JSON. -/
def decrypt_request (unwrap : Bytes → Except String Bytes)
    (encrypted_flow_data_b64 encrypted_aes_key_b64 initial_vector_b64 : String) :
    Except String (Json × Bytes × Bytes) := do
  let flow_data ← b64decode encrypted_flow_data_b64
  let iv ← b64decode initial_vector_b64
  let encrypted_aes_key ← b64decode encrypted_aes_key_b64
  let aes_key ← unwrap encrypted_aes_key
  if ¬ (aes_key.length = 16 ∨ aes_key.length = 24 ∨ aes_key.length = 32) then
    .error "Invalid key size for AES"
  else if iv.length < 8 ∨ 128 < iv.length then
    .error "initialization_vector must be between 8 and 128 bytes (64 and 1024 bits)"
  else if (flow_data.drop (flow_data.length - 16)).length < 16 then
    .error "Authentication tag must be 16 bytes or longer"
  else if ¬ flow_data.drop (flow_data.length - 16)
      = gcmTag aes_key iv (flow_data.take (flow_data.length - 16)) then
    .error "InvalidTag"
  else do
    let s ← utf8Decode (ctrCrypt aes_key (gcm_j0 aes_key iv)
      (flow_data.take (flow_data.length - 16)))
    let decrypted_data ← loads s
    .ok (decrypted_data, aes_key, iv)

/-- Flip bit `j` of byte `i` of a tag. -/
def tamperTag (t : Bytes) (i j : Nat) : Bytes := t.set i (t.getD i 0 ^^^ 2 ^ j)


/-! # Theorems -/

theorem xorBytes_self_cancel (k : Bytes) : ∀ a : Bytes, xorBytes (xorBytes a k) k = a ∨ a.length > k.length := by
  intro a
  induction k generalizing a with
  | nil => cases a with
    | nil => left; rfl
    | cons x xs => right; simp
  | cons y ys ih =>
    cases a with
    | nil => left; rfl
    | cons x xs =>
      rcases ih xs with h | h
      · left; simp [xorBytes, List.zipWith] at h ⊢
        exact ⟨Nat.xor_cancel_right _ _, h⟩
      · right; simpa using h

theorem xorBytes_cancel {a k : Bytes} (h : a.length ≤ k.length) :
    xorBytes (xorBytes a k) k = a := by
  rcases xorBytes_self_cancel k a with h' | h'
  · exact h'
  · omega

theorem length_xorBytes (a b : Bytes) :
    (xorBytes a b).length = min a.length b.length := by
  simp [xorBytes]

theorem xorBytes_ok {a b : Bytes} (ha : BytesOk a) (hb : BytesOk b) :
    BytesOk (xorBytes a b) := by
  induction a generalizing b with
  | nil => intro x hx; simp [xorBytes] at hx
  | cons x xs ih =>
    cases b with
    | nil => intro y hy; simp [xorBytes] at hy
    | cons y ys =>
      intro z hz
      simp only [xorBytes, List.zipWith, List.mem_cons] at hz
      rcases hz with hz | hz
      · subst hz
        exact Nat.xor_lt_two_pow (n := 8) (ha x (by simp)) (hb y (by simp))
      · exact ih (fun b hb' => ha b (by simp [hb'])) (fun b hb' => hb b (by simp [hb'])) z hz

theorem b64Char_ne_pad {n : Nat} (h : n < 64) : b64Char n ≠ '=' := by
  revert h; revert n; decide

theorem b64Char_contains {n : Nat} (h : n < 64) : b64Alphabet.contains (b64Char n) = true := by
  revert h; revert n; decide

theorem b64Index_b64Char {n : Nat} (h : n < 64) : b64Index (b64Char n) = n := by
  revert h; revert n; decide

theorem b64Char_filter_ok {n : Nat} (h : n < 64) :
    (b64Alphabet.contains (b64Char n) || decide (b64Char n = '=')) = true := by
  rw [b64Char_contains h]; rfl

theorem mem_b64encodeChars {l : Bytes} (hl : BytesOk l) :
    ∀ c ∈ b64encodeChars l, (b64Alphabet.contains c || decide (c = '=')) = true := by
  induction l using b64encodeChars.induct with
  | case1 a b c rest ih =>
    have ha : a < 256 := hl a (by simp)
    have hb : b < 256 := hl b (by simp)
    have hc : c < 256 := hl c (by simp)
    intro x hx
    simp only [b64encodeChars, List.mem_cons] at hx
    rcases hx with h | h | h | h | h
    · subst h; exact b64Char_filter_ok (by omega)
    · subst h; exact b64Char_filter_ok (by omega)
    · subst h; exact b64Char_filter_ok (by omega)
    · subst h; exact b64Char_filter_ok (by omega)
    · exact ih (fun y hy => hl y (by simp [hy])) x h
  | case2 a b =>
    have ha : a < 256 := hl a (by simp)
    have hb : b < 256 := hl b (by simp)
    intro x hx
    simp only [b64encodeChars, List.mem_cons, List.not_mem_nil, or_false] at hx
    rcases hx with h | h | h | h
    · subst h; exact b64Char_filter_ok (by omega)
    · subst h; exact b64Char_filter_ok (by omega)
    · subst h; exact b64Char_filter_ok (by omega)
    · subst h; simp
  | case3 a =>
    have ha : a < 256 := hl a (by simp)
    intro x hx
    simp only [b64encodeChars, List.mem_cons, List.not_mem_nil, or_false] at hx
    rcases hx with h | h | h | h
    · subst h; exact b64Char_filter_ok (by omega)
    · subst h; exact b64Char_filter_ok (by omega)
    · subst h; simp
    · subst h; simp
  | case4 =>
    intro x hx
    simp [b64encodeChars] at hx

theorem b64quads_data (c : Char) (hc : ¬ c = '=') (rest : List Char) :
    (∀ quad, quad.length ≤ 1 →
      b64quads (c :: rest) quad = b64quads rest (quad ++ [b64Index c])) ∧
    (∀ a b, b64quads (c :: rest) [a, b] = b64quads rest [a, b, b64Index c]) ∧
    (∀ a b c', b64quads (c :: rest) [a, b, c'] =
      (b64quads rest []).map (fun tl => b64quadBytes a b c' (b64Index c) ++ tl)) := by
  refine ⟨?_, ?_, ?_⟩
  · intro quad hq
    match quad with
    | [] => simp [b64quads, hc]
    | [a] => simp [b64quads, hc]
  · intro a b; simp [b64quads, hc]
  · intro a b c'; simp [b64quads, hc]

theorem b64quads_encodeChars {l : Bytes} (hl : BytesOk l) :
    b64quads (b64encodeChars l) [] = .ok l := by
  induction l using b64encodeChars.induct with
  | case1 a b c rest ih =>
    have ha : a < 256 := hl a (by simp)
    have hb : b < 256 := hl b (by simp)
    have hc : c < 256 := hl c (by simp)
    have h1 : a / 4 < 64 := by omega
    have h2 : (a % 4) * 16 + b / 16 < 64 := by omega
    have h3 : (b % 16) * 4 + c / 64 < 64 := by omega
    have h4 : c % 64 < 64 := by omega
    rw [b64encodeChars]
    rw [(b64quads_data _ (b64Char_ne_pad h1) _).1 [] (by simp)]
    simp only [List.nil_append, b64Index_b64Char h1]
    rw [(b64quads_data _ (b64Char_ne_pad h2) _).1 _ (by simp)]
    simp only [List.singleton_append, b64Index_b64Char h2]
    rw [(b64quads_data _ (b64Char_ne_pad h3) _).2.1]
    simp only [b64Index_b64Char h3]
    rw [(b64quads_data _ (b64Char_ne_pad h4) _).2.2]
    simp only [b64Index_b64Char h4]
    rw [ih (fun y hy => hl y (by simp [hy]))]
    simp only [Except.map]
    refine congrArg Except.ok ?_
    have : b64quadBytes (a / 4) ((a % 4) * 16 + b / 16) ((b % 16) * 4 + c / 64) (c % 64)
        = [a, b, c] := by
      simp only [b64quadBytes]
      refine List.ext_getElem (by simp) ?_
      intro i h1 h2
      simp only [List.length_cons, List.length_nil] at h2
      interval_cases i <;> (simp [b64quadBytes]; omega)
    rw [this]
    simp
  | case2 a b =>
    have ha : a < 256 := hl a (by simp)
    have hb : b < 256 := hl b (by simp)
    have h1 : a / 4 < 64 := by omega
    have h2 : (a % 4) * 16 + b / 16 < 64 := by omega
    have h3 : (b % 16) * 4 < 64 := by omega
    rw [b64encodeChars]
    rw [(b64quads_data _ (b64Char_ne_pad h1) _).1 [] (by simp)]
    simp only [List.nil_append, b64Index_b64Char h1]
    rw [(b64quads_data _ (b64Char_ne_pad h2) _).1 _ (by simp)]
    simp only [List.singleton_append, b64Index_b64Char h2]
    rw [(b64quads_data _ (b64Char_ne_pad h3) _).2.1]
    simp only [b64Index_b64Char h3]
    simp only [b64quads, if_pos rfl]
    refine congrArg Except.ok ?_
    refine List.ext_getElem (by simp) ?_
    intro i h1 h2
    simp only [List.length_cons, List.length_nil] at h2
    interval_cases i <;> (simp; omega)
  | case3 a =>
    have ha : a < 256 := hl a (by simp)
    have h1 : a / 4 < 64 := by omega
    have h2 : (a % 4) * 16 < 64 := by omega
    rw [b64encodeChars]
    rw [(b64quads_data _ (b64Char_ne_pad h1) _).1 [] (by simp)]
    simp only [List.nil_append, b64Index_b64Char h1]
    rw [(b64quads_data _ (b64Char_ne_pad h2) _).1 _ (by simp)]
    simp only [List.singleton_append, b64Index_b64Char h2]
    simp only [b64quads, if_pos rfl]
    refine congrArg Except.ok ?_
    refine List.ext_getElem (by simp) ?_
    intro i h1 h2
    simp only [List.length_cons, List.length_nil] at h2
    interval_cases i <;> (simp; omega)
  | case4 => rfl

/-- Round trip: decoding a canonical base64 encoding recovers the bytes. -/
theorem b64decode_b64encode {l : Bytes} (hl : BytesOk l) :
    b64decode (b64encode l) = .ok l := by
  have hf : ((b64encode l).toList.filter fun c => b64Alphabet.contains c || c = '=')
      = b64encodeChars l := by
    have : (b64encode l).toList = b64encodeChars l := rfl
    rw [this, List.filter_eq_self]
    intro c hc
    simpa using mem_b64encodeChars hl c hc
  rw [b64decode, hf, b64quads_encodeChars hl]

theorem length_sha256 (msg : Bytes) : (sha256 msg).length = 32 := by
  rw [sha256]
  generalize (chunks64 (shaPad msg)).foldl shaCompress
      (1779033703, 3144134277, 1013904242, 2773480762,
       1359893119, 2600822924, 528734635, 1541459225) = st
  rcases st with ⟨a, b, c, d, e, f, g, h⟩
  simp [wordBE]

theorem wordBE_ok (x : Nat) : BytesOk (wordBE x) := by
  intro b hb
  simp [wordBE] at hb
  rcases hb with h | h | h | h <;> omega

theorem sha256_ok (msg : Bytes) : BytesOk (sha256 msg) := by
  rw [sha256]
  generalize (chunks64 (shaPad msg)).foldl shaCompress
      (1779033703, 3144134277, 1013904242, 2773480762,
       1359893119, 2600822924, 528734635, 1541459225) = st
  rcases st with ⟨a, b, c, d, e, f, g, hh⟩
  intro x hx
  simp only [List.mem_append] at hx
  rcases hx with ((((((h1 | h1) | h1) | h1) | h1) | h1) | h1) | h1 <;>
    exact wordBE_ok _ _ h1

theorem length_hmacSha256 (key msg : Bytes) : (hmacSha256 key msg).length = 32 :=
  length_sha256 _

/-! ### xor algebra -/

theorem xor_left_comm (a b c : Nat) : a ^^^ (b ^^^ c) = b ^^^ (a ^^^ c) := by
  rw [← Nat.xor_assoc, Nat.xor_comm a b, Nat.xor_assoc]

theorem xor_xor_cancel_pair (a b c : Nat) : (a ^^^ c) ^^^ (b ^^^ c) = a ^^^ b := by
  rw [Nat.xor_assoc, Nat.xor_comm b c, ← Nat.xor_assoc c c b, Nat.xor_self, Nat.zero_xor]

theorem xor16_transpose (w0 w1 w2 w3 x0 x1 x2 x3 y0 y1 y2 y3 z0 z1 z2 z3 : Nat) :
    ((((w0 ^^^ w1) ^^^ w2) ^^^ w3) ^^^ (((x0 ^^^ x1) ^^^ x2) ^^^ x3) ^^^
      (((y0 ^^^ y1) ^^^ y2) ^^^ y3)) ^^^ (((z0 ^^^ z1) ^^^ z2) ^^^ z3) =
    ((((w0 ^^^ x0) ^^^ y0) ^^^ z0) ^^^ (((w1 ^^^ x1) ^^^ y1) ^^^ z1) ^^^
      (((w2 ^^^ x2) ^^^ y2) ^^^ z2)) ^^^ (((w3 ^^^ x3) ^^^ y3) ^^^ z3) := by
  simp only [Nat.xor_assoc]
  simp [Nat.xor_comm, xor_left_comm]

theorem two_mul_xor (x y : Nat) : 2 * (x ^^^ y) = 2 * x ^^^ 2 * y := by
  have h1 : ∀ z : Nat, 2 * z = z <<< 1 := fun z => by rw [Nat.shiftLeft_eq]; ring
  rw [h1, h1, h1]
  apply Nat.eq_of_testBit_eq
  intro i
  rcases i with _ | i
  · simp only [Nat.testBit_shiftLeft]
    simp [Nat.shiftLeft_eq, Nat.testBit_to_div_mod]
  · simp [Nat.testBit_shiftLeft, Nat.testBit_xor]

theorem testBit7_eq {x : Nat} (h : x < 256) : x.testBit 7 = decide (128 ≤ x) := by
  by_cases h1 : 128 ≤ x
  · have e : x / 2 ^ 7 % 2 = 1 := by omega
    rw [Nat.testBit_to_div_mod, e]; simp [h1]
  · have e : x / 2 ^ 7 % 2 = 0 := by omega
    rw [Nat.testBit_to_div_mod, e]; simp [h1]

theorem xtime_linear {x y : Nat} (hx : x < 256) (hy : y < 256) :
    xtime (x ^^^ y) = xtime x ^^^ xtime y := by
  have hxy : x ^^^ y < 256 := Nat.xor_lt_two_pow (n := 8) hx hy
  have key : decide (128 ≤ x ^^^ y) = ((decide (128 ≤ x)).xor (decide (128 ≤ y))) := by
    rw [← testBit7_eq hxy, ← testBit7_eq hx, ← testBit7_eq hy, Nat.testBit_xor]
  by_cases h1 : x < 128 <;> by_cases h2 : y < 128
  · have hlt : x ^^^ y < 128 := by
      rw [decide_eq_false (by omega : ¬ 128 ≤ x), decide_eq_false (by omega : ¬ 128 ≤ y)] at key
      simp only [Bool.xor_false] at key
      have := of_decide_eq_false key
      omega
    simp only [xtime, if_pos h1, if_pos h2, if_pos hlt]
    exact two_mul_xor x y
  · have hge : ¬ (x ^^^ y < 128) := by
      rw [decide_eq_false (by omega : ¬ 128 ≤ x), decide_eq_true (by omega : 128 ≤ y)] at key
      simp only [Bool.xor_true, Bool.not_eq_eq_eq_not, Bool.not_false] at key
      have := of_decide_eq_true key
      omega
    simp only [xtime, if_pos h1, if_neg h2, if_neg hge]
    rw [two_mul_xor]
    exact Nat.xor_assoc _ _ _
  · have hge : ¬ (x ^^^ y < 128) := by
      rw [decide_eq_true (by omega : 128 ≤ x), decide_eq_false (by omega : ¬ 128 ≤ y)] at key
      simp only [Bool.true_xor, Bool.not_eq_eq_eq_not, Bool.not_false] at key
      have := of_decide_eq_true key
      omega
    simp only [xtime, if_neg h1, if_pos h2, if_neg hge]
    rw [two_mul_xor]
    simp [Nat.xor_assoc, Nat.xor_comm, xor_left_comm]
  · have hlt : x ^^^ y < 128 := by
      rw [decide_eq_true (by omega : 128 ≤ x), decide_eq_true (by omega : 128 ≤ y)] at key
      simp only [Bool.xor_self] at key
      have := of_decide_eq_false key
      omega
    simp only [xtime, if_neg h1, if_neg h2, if_pos hlt]
    rw [two_mul_xor, xor_xor_cancel_pair]

/-! ### GF(2^8) multiplier lemmas -/

theorem xtime_lt {x : Nat} (h : x < 256) : xtime x < 256 := by
  revert h; revert x; decide

theorem gmul2_lt {x : Nat} (h : x < 256) : gmul2 x < 256 := xtime_lt h

theorem gmul3_lt {x : Nat} (h : x < 256) : gmul3 x < 256 :=
  Nat.xor_lt_two_pow (n := 8) (xtime_lt h) h

theorem xor4_transpose (a1 a2 b1 b2 : Nat) :
    (a1 ^^^ b1) ^^^ (a2 ^^^ b2) = (a1 ^^^ a2) ^^^ (b1 ^^^ b2) := by
  simp [Nat.xor_assoc, Nat.xor_comm, xor_left_comm]

theorem xor6_transpose (a1 a2 a3 b1 b2 b3 : Nat) :
    ((a1 ^^^ b1) ^^^ (a2 ^^^ b2)) ^^^ (a3 ^^^ b3) = ((a1 ^^^ a2) ^^^ a3) ^^^ ((b1 ^^^ b2) ^^^ b3) := by
  simp [Nat.xor_assoc, Nat.xor_comm, xor_left_comm]

theorem xt2_linear {x y : Nat} (hx : x < 256) (hy : y < 256) :
    xtime (xtime (x ^^^ y)) = xtime (xtime x) ^^^ xtime (xtime y) := by
  rw [xtime_linear hx hy, xtime_linear (xtime_lt hx) (xtime_lt hy)]

theorem xt3_linear {x y : Nat} (hx : x < 256) (hy : y < 256) :
    xtime (xtime (xtime (x ^^^ y))) = xtime (xtime (xtime x)) ^^^ xtime (xtime (xtime y)) := by
  rw [xt2_linear hx hy, xtime_linear (xtime_lt (xtime_lt hx)) (xtime_lt (xtime_lt hy))]

theorem gmul2_linear {x y : Nat} (hx : x < 256) (hy : y < 256) :
    gmul2 (x ^^^ y) = gmul2 x ^^^ gmul2 y := xtime_linear hx hy

theorem gmul3_linear {x y : Nat} (hx : x < 256) (hy : y < 256) :
    gmul3 (x ^^^ y) = gmul3 x ^^^ gmul3 y := by
  unfold gmul3
  rw [xtime_linear hx hy, xor4_transpose]

theorem gmul9_linear {x y : Nat} (hx : x < 256) (hy : y < 256) :
    gmul9 (x ^^^ y) = gmul9 x ^^^ gmul9 y := by
  unfold gmul9
  rw [xt3_linear hx hy, xor4_transpose]

theorem gmul11_linear {x y : Nat} (hx : x < 256) (hy : y < 256) :
    gmul11 (x ^^^ y) = gmul11 x ^^^ gmul11 y := by
  unfold gmul11
  rw [xt3_linear hx hy, xtime_linear hx hy, xor6_transpose]

theorem gmul13_linear {x y : Nat} (hx : x < 256) (hy : y < 256) :
    gmul13 (x ^^^ y) = gmul13 x ^^^ gmul13 y := by
  unfold gmul13
  rw [xt3_linear hx hy, xt2_linear hx hy, xor6_transpose]

theorem gmul14_linear {x y : Nat} (hx : x < 256) (hy : y < 256) :
    gmul14 (x ^^^ y) = gmul14 x ^^^ gmul14 y := by
  unfold gmul14
  rw [xt3_linear hx hy, xt2_linear hx hy, xtime_linear hx hy, xor6_transpose]

theorem glin_expand4 {g : Nat → Nat}
    (hg : ∀ {x y : Nat}, x < 256 → y < 256 → g (x ^^^ y) = g x ^^^ g y)
    {A B C D : Nat} (hA : A < 256) (hB : B < 256) (hC : C < 256) (hD : D < 256) :
    g (((A ^^^ B) ^^^ C) ^^^ D) = ((g A ^^^ g B) ^^^ g C) ^^^ g D := by
  have h1 : A ^^^ B < 256 := Nat.xor_lt_two_pow (n := 8) hA hB
  have h2 : (A ^^^ B) ^^^ C < 256 := Nat.xor_lt_two_pow (n := 8) h1 hC
  rw [hg h2 hD, hg h1 hC, hg hA hB]

/-- The sixteen GF(2^8) coefficient identities behind
InvMixColumns ∘ MixColumns = id, checked by evaluation. -/
theorem gmulCoefs : ∀ a < 256,
    (((gmul14 (gmul2 a) ^^^ gmul11 a) ^^^ gmul13 a) ^^^ gmul9 (gmul3 a) = a ∧
     ((gmul14 (gmul3 a) ^^^ gmul11 (gmul2 a)) ^^^ gmul13 a) ^^^ gmul9 a = 0 ∧
     ((gmul14 a ^^^ gmul11 (gmul3 a)) ^^^ gmul13 (gmul2 a)) ^^^ gmul9 a = 0 ∧
     ((gmul14 a ^^^ gmul11 a) ^^^ gmul13 (gmul3 a)) ^^^ gmul9 (gmul2 a) = 0) ∧
    (((gmul9 (gmul2 a) ^^^ gmul14 a) ^^^ gmul11 a) ^^^ gmul13 (gmul3 a) = 0 ∧
     ((gmul9 (gmul3 a) ^^^ gmul14 (gmul2 a)) ^^^ gmul11 a) ^^^ gmul13 a = a ∧
     ((gmul9 a ^^^ gmul14 (gmul3 a)) ^^^ gmul11 (gmul2 a)) ^^^ gmul13 a = 0 ∧
     ((gmul9 a ^^^ gmul14 a) ^^^ gmul11 (gmul3 a)) ^^^ gmul13 (gmul2 a) = 0) ∧
    (((gmul13 (gmul2 a) ^^^ gmul9 a) ^^^ gmul14 a) ^^^ gmul11 (gmul3 a) = 0 ∧
     ((gmul13 (gmul3 a) ^^^ gmul9 (gmul2 a)) ^^^ gmul14 a) ^^^ gmul11 a = 0 ∧
     ((gmul13 a ^^^ gmul9 (gmul3 a)) ^^^ gmul14 (gmul2 a)) ^^^ gmul11 a = a ∧
     ((gmul13 a ^^^ gmul9 a) ^^^ gmul14 (gmul3 a)) ^^^ gmul11 (gmul2 a) = 0) ∧
    (((gmul11 (gmul2 a) ^^^ gmul13 a) ^^^ gmul9 a) ^^^ gmul14 (gmul3 a) = 0 ∧
     ((gmul11 (gmul3 a) ^^^ gmul13 (gmul2 a)) ^^^ gmul9 a) ^^^ gmul14 a = 0 ∧
     ((gmul11 a ^^^ gmul13 (gmul3 a)) ^^^ gmul9 (gmul2 a)) ^^^ gmul14 a = 0 ∧
     ((gmul11 a ^^^ gmul13 a) ^^^ gmul9 (gmul3 a)) ^^^ gmul14 (gmul2 a) = a) := by
  decide

/-- InvMixColumns inverts MixColumns on one column of bytes. -/
theorem invMixColumnsCol_mixColumnsCol {a0 a1 a2 a3 : Nat}
    (h0 : a0 < 256) (h1 : a1 < 256) (h2 : a2 < 256) (h3 : a3 < 256) :
    invMixColumnsCol
      (((gmul2 a0 ^^^ gmul3 a1) ^^^ a2) ^^^ a3)
      (((a0 ^^^ gmul2 a1) ^^^ gmul3 a2) ^^^ a3)
      (((a0 ^^^ a1) ^^^ gmul2 a2) ^^^ gmul3 a3)
      (((gmul3 a0 ^^^ a1) ^^^ a2) ^^^ gmul2 a3) = [a0, a1, a2, a3] := by
  have c0 := (gmulCoefs a0 h0)
  have c1 := (gmulCoefs a1 h1)
  have c2 := (gmulCoefs a2 h2)
  have c3 := (gmulCoefs a3 h3)
  simp only [invMixColumnsCol, List.cons.injEq, and_true]
  refine ⟨?_, ?_, ?_, ?_⟩
  · rw [glin_expand4 gmul14_linear (gmul2_lt h0) (gmul3_lt h1) h2 h3,
        glin_expand4 gmul11_linear h0 (gmul2_lt h1) (gmul3_lt h2) h3,
        glin_expand4 gmul13_linear h0 h1 (gmul2_lt h2) (gmul3_lt h3),
        glin_expand4 gmul9_linear (gmul3_lt h0) h1 h2 (gmul2_lt h3),
        xor16_transpose, c0.1.1, c1.1.2.1, c2.1.2.2.1, c3.1.2.2.2]
    simp
  · rw [glin_expand4 gmul9_linear (gmul2_lt h0) (gmul3_lt h1) h2 h3,
        glin_expand4 gmul14_linear h0 (gmul2_lt h1) (gmul3_lt h2) h3,
        glin_expand4 gmul11_linear h0 h1 (gmul2_lt h2) (gmul3_lt h3),
        glin_expand4 gmul13_linear (gmul3_lt h0) h1 h2 (gmul2_lt h3),
        xor16_transpose, c0.2.1.1, c1.2.1.2.1, c2.2.1.2.2.1, c3.2.1.2.2.2]
    simp
  · rw [glin_expand4 gmul13_linear (gmul2_lt h0) (gmul3_lt h1) h2 h3,
        glin_expand4 gmul9_linear h0 (gmul2_lt h1) (gmul3_lt h2) h3,
        glin_expand4 gmul14_linear h0 h1 (gmul2_lt h2) (gmul3_lt h3),
        glin_expand4 gmul11_linear (gmul3_lt h0) h1 h2 (gmul2_lt h3),
        xor16_transpose, c0.2.2.1.1, c1.2.2.1.2.1, c2.2.2.1.2.2.1, c3.2.2.1.2.2.2]
    simp
  · rw [glin_expand4 gmul11_linear (gmul2_lt h0) (gmul3_lt h1) h2 h3,
        glin_expand4 gmul13_linear h0 (gmul2_lt h1) (gmul3_lt h2) h3,
        glin_expand4 gmul9_linear h0 h1 (gmul2_lt h2) (gmul3_lt h3),
        glin_expand4 gmul14_linear (gmul3_lt h0) h1 h2 (gmul2_lt h3),
        xor16_transpose, c0.2.2.2.1, c1.2.2.2.2.1, c2.2.2.2.2.2.1, c3.2.2.2.2.2.2]
    simp

/-! ### State operation lemmas -/

theorem getD_mem {α : Type} {l : List α} {n : Nat} (h : n < l.length) (d : α) :
    l.getD n d ∈ l := by
  rw [List.getD_eq_getElem l d h]
  exact List.getElem_mem h

theorem getD_lt_of_ok {l : Bytes} (hl : BytesOk l) (n : Nat) : l.getD n 0 < 256 := by
  by_cases h : n < l.length
  · exact hl _ (getD_mem h 0)
  · rw [List.getD_eq_default l 0 (by omega)]; omega

theorem sboxB_lt (b : Nat) : sboxB b < 256 := by
  by_cases h : b < 256
  · revert h; revert b; decide
  · rw [sboxB, List.getD_eq_default _ _ (by simp [sbox]; omega)]; omega

theorem invSboxB_lt (b : Nat) : invSboxB b < 256 := by
  by_cases h : b < 256
  · revert h; revert b; decide
  · rw [invSboxB, List.getD_eq_default _ _ (by simp [invSbox]; omega)]; omega

theorem invSboxB_sboxB {b : Nat} (h : b < 256) : invSboxB (sboxB b) = b := by
  revert h; revert b; decide

theorem length_subBytes (s : Bytes) : (subBytes s).length = s.length := by
  simp [subBytes]

theorem subBytes_ok (s : Bytes) : BytesOk (subBytes s) := by
  intro b hb
  simp only [subBytes, List.mem_map] at hb
  rcases hb with ⟨a, _, rfl⟩
  exact sboxB_lt a

theorem invSubBytes_subBytes {s : Bytes} (hs : BytesOk s) : invSubBytes (subBytes s) = s := by
  induction s with
  | nil => rfl
  | cons a t ih =>
    simp only [subBytes, invSubBytes, List.map_cons, List.map_map] at ih ⊢
    rw [List.cons.injEq]
    constructor
    · exact invSboxB_sboxB (hs a (by simp))
    · simpa [subBytes, invSubBytes] using ih (fun b hb => hs b (by simp [hb]))

theorem length_shiftRows (s : Bytes) : (shiftRows s).length = 16 := by simp [shiftRows]

theorem length_invShiftRows (s : Bytes) : (invShiftRows s).length = 16 := by
  simp [invShiftRows]

theorem shiftRows_ok {s : Bytes} (hs : BytesOk s) : BytesOk (shiftRows s) := by
  intro b hb
  simp only [shiftRows, List.mem_map] at hb
  rcases hb with ⟨i, _, rfl⟩
  exact getD_lt_of_ok hs _

theorem invShiftRows_ok {s : Bytes} (hs : BytesOk s) : BytesOk (invShiftRows s) := by
  intro b hb
  simp only [invShiftRows, List.mem_map] at hb
  rcases hb with ⟨i, _, rfl⟩
  exact getD_lt_of_ok hs _

theorem getD_mapRange16 (f : Nat → Nat) {j : Nat} (h : j < 16) :
    ((List.range 16).map f).getD j 0 = f j := by
  rw [List.getD_eq_getElem _ _ (by simp; omega)]
  simp

theorem invShiftRows_shiftRows {s : Bytes} (h : s.length = 16) :
    invShiftRows (shiftRows s) = s := by
  refine List.ext_getElem (by simp [invShiftRows, h]) ?_
  intro i h1 h2
  have hi : i < 16 := by simpa [invShiftRows] using h1
  simp only [invShiftRows, shiftRows]
  rw [List.getElem_map, List.getElem_range]
  rw [getD_mapRange16 _ (by omega : (i + 16 - 4 * (i % 4)) % 16 < 16)]
  have hgetD : ∀ j : Nat, ∀ hj : j < 16, s.getD j 0 = s.get ⟨j, by omega⟩ := by
    intro j hj
    exact List.getD_eq_getElem s 0 (by omega)
  interval_cases i <;> simp [hgetD, List.getElem?_eq_getElem, h]

theorem length_mixColumnsCol (a0 a1 a2 a3 : Nat) : (mixColumnsCol a0 a1 a2 a3).length = 4 := rfl

theorem mixColumnsCol_ok {a0 a1 a2 a3 : Nat}
    (h0 : a0 < 256) (h1 : a1 < 256) (h2 : a2 < 256) (h3 : a3 < 256) :
    BytesOk (mixColumnsCol a0 a1 a2 a3) := by
  intro b hb
  have l2 : ∀ x : Nat, x < 256 → gmul2 x < 256 := fun x hx => gmul2_lt hx
  have l3 : ∀ x : Nat, x < 256 → gmul3 x < 256 := fun x hx => gmul3_lt hx
  simp only [mixColumnsCol, List.mem_cons, List.not_mem_nil, or_false] at hb
  rcases hb with rfl | rfl | rfl | rfl <;>
    exact Nat.xor_lt_two_pow (n := 8)
      (Nat.xor_lt_two_pow (n := 8) (Nat.xor_lt_two_pow (n := 8) (by first | exact l2 _ h0 | exact l3 _ h0 | exact h0) (by first | exact l2 _ h1 | exact l3 _ h1 | exact h1)) (by first | exact l2 _ h2 | exact l3 _ h2 | exact h2)) (by first | exact l2 _ h3 | exact l3 _ h3 | exact h3)

theorem length_mixColumns : ∀ s : Bytes, (mixColumns s).length = s.length
  | a0 :: a1 :: a2 :: a3 :: rest => by
    rw [mixColumns]
    simp only [List.length_append, length_mixColumnsCol, length_mixColumns rest]
    simp only [List.length_cons]
    omega
  | [] => rfl
  | [_] => rfl
  | [_, _] => rfl
  | [_, _, _] => rfl

theorem mixColumns_ok : ∀ s : Bytes, BytesOk s → BytesOk (mixColumns s)
  | a0 :: a1 :: a2 :: a3 :: rest, hs => by
    rw [mixColumns]
    intro b hb
    rcases List.mem_append.mp hb with h | h
    · exact mixColumnsCol_ok (hs a0 (by simp)) (hs a1 (by simp)) (hs a2 (by simp))
        (hs a3 (by simp)) b h
    · exact mixColumns_ok rest (fun x hx => hs x (by simp [hx])) b h
  | [], _ => by intro b hb; simp [mixColumns] at hb
  | [a], hs => hs
  | [a, b], hs => hs
  | [a, b, c], hs => hs

theorem invMixColumns_mixColumns : ∀ s : Bytes, s.length % 4 = 0 → BytesOk s →
    invMixColumns (mixColumns s) = s
  | a0 :: a1 :: a2 :: a3 :: rest, hlen, hs => by
    have h0 : a0 < 256 := hs a0 (by simp)
    have h1 : a1 < 256 := hs a1 (by simp)
    have h2 : a2 < 256 := hs a2 (by simp)
    have h3 : a3 < 256 := hs a3 (by simp)
    rw [mixColumns]
    show invMixColumns (_ :: _ :: _ :: _ :: mixColumns rest) = _
    rw [invMixColumns]
    rw [show invMixColumnsCol _ _ _ _ ++ invMixColumns (mixColumns rest)
        = [a0, a1, a2, a3] ++ invMixColumns (mixColumns rest) from by
      rw [invMixColumnsCol_mixColumnsCol h0 h1 h2 h3]]
    have hlen4 : rest.length % 4 = 0 := by
      simp only [List.length_cons] at hlen
      omega
    rw [invMixColumns_mixColumns rest hlen4 (fun x hx => hs x (by simp [hx]))]
    simp
  | [], _, _ => rfl
  | [a], hlen, _ => by simp at hlen
  | [a, b], hlen, _ => by simp at hlen
  | [a, b, c], hlen, _ => by simp at hlen

theorem rconD_lt (j : Nat) : rcon.getD j 0 < 256 := by
  by_cases h : j < rcon.length
  · have := getD_mem h (0 : Nat)
    revert this
    have : ∀ x ∈ rcon, x < 256 := by decide
    intro hm
    exact this _ hm
  · rw [List.getD_eq_default _ _ (by omega)]; omega

theorem rotWord_wf {w : List Nat} (h : WordWf w) : WordWf (rotWord w) := by
  obtain ⟨hl, hok⟩ := h
  constructor
  · simp [rotWord, hl]
  · intro b hb
    rcases List.mem_append.mp hb with h' | h'
    · exact hok b (List.mem_of_mem_drop h')
    · exact hok b (List.mem_of_mem_take h')

theorem subWord_wf {w : List Nat} (h : WordWf w) : WordWf (subWord w) := by
  obtain ⟨hl, _⟩ := h
  constructor
  · simp [subWord, hl]
  · intro b hb
    simp only [subWord, List.mem_map] at hb
    rcases hb with ⟨a, _, rfl⟩
    exact sboxB_lt a

theorem xorWord_wf {v w : List Nat} (hv : WordWf v) (hw : WordWf w) :
    WordWf (xorBytes v w) := by
  refine ⟨?_, xorBytes_ok hv.2 hw.2⟩
  rw [length_xorBytes, hv.1, hw.1]
  rfl

theorem expandWords_wf {key : Bytes} (hk : BytesOk key)
    (hlen : key.length = 16 ∨ key.length = 24 ∨ key.length = 32) :
    (expandWords key).length = 4 * (key.length / 4 + 7) ∧
    ∀ w ∈ expandWords key, WordWf w := by
  have hNk : 4 ≤ key.length / 4 := by rcases hlen with h | h | h <;> omega
  have hmod : key.length % 4 = 0 := by rcases hlen with h | h | h <;> omega
  suffices h : ∀ n, ((List.range n).foldl (expandStep key) []).length = n ∧
      ∀ w ∈ (List.range n).foldl (expandStep key) [], WordWf w from h _
  intro n
  induction n with
  | zero => simp
  | succ n ih =>
    obtain ⟨ihlen, ihwf⟩ := ih
    rw [List.range_succ, List.foldl_append, List.foldl_cons, List.foldl_nil]
    have step_new : ∀ W : List (List Nat), W.length = n → (∀ w ∈ W, WordWf w) →
        (expandStep key W n).length = n + 1 ∧ ∀ w ∈ expandStep key W n, WordWf w := by
      intro W hWlen hWwf
      by_cases hc : n < key.length / 4
      · constructor
        · simp [expandStep, hc, hWlen]
        · intro w hw
          rw [expandStep] at hw
          simp only [hc, if_pos] at hw
          rcases List.mem_append.mp hw with h' | h'
          · exact hWwf w h'
          · have : w = (key.drop (4 * n)).take 4 := by simpa using h'
            subst this
            constructor
            · rw [List.length_take, List.length_drop]
              omega
            · intro b hb
              exact hk b (List.mem_of_mem_drop (List.mem_of_mem_take hb))
      · have hn1 : n - 1 < W.length := by omega
        have hnk : n - key.length / 4 < W.length := by omega
        have htemp : WordWf (W.getD (n - 1) []) := hWwf _ (getD_mem hn1 [])
        have hword : WordWf (W.getD (n - key.length / 4) []) := hWwf _ (getD_mem hnk [])
        have hnew : WordWf (xorBytes (W.getD (n - key.length / 4) [])
            (if n % (key.length / 4) = 0 then
              xorBytes (subWord (rotWord (W.getD (n - 1) []))) [rcon.getD (n / (key.length / 4) - 1) 0, 0, 0, 0]
            else if 6 < key.length / 4 ∧ n % (key.length / 4) = 4 then subWord (W.getD (n - 1) [])
            else W.getD (n - 1) [])) := by
          apply xorWord_wf hword
          split
          · apply xorWord_wf (subWord_wf (rotWord_wf htemp))
            constructor
            · rfl
            · intro b hb
              simp only [List.mem_cons, List.not_mem_nil, or_false] at hb
              rcases hb with rfl | rfl | rfl | rfl
              · exact rconD_lt _
              all_goals omega
          · split
            · exact subWord_wf htemp
            · exact htemp
        constructor
        · simp [expandStep, hc, hWlen]
        · intro w hw
          rw [expandStep] at hw
          simp only [hc, if_neg, if_false] at hw
          rcases List.mem_append.mp hw with h' | h'
          · exact hWwf w h'
          · have heq := List.mem_singleton.mp h'
            subst heq
            exact hnew
    exact step_new _ ihlen ihwf

theorem groupWords_wf : ∀ ws : List (List Nat), (∀ w ∈ ws, WordWf w) →
    (groupWords ws).length = ws.length / 4 ∧
    ∀ k ∈ groupWords ws, k.length = 16 ∧ BytesOk k
  | w0 :: w1 :: w2 :: w3 :: rest, hwf => by
    obtain ⟨ihlen, ihwf⟩ := groupWords_wf rest (fun w hw => hwf w (by simp [hw]))
    rw [groupWords]
    constructor
    · simp only [List.length_cons, ihlen]
      omega
    · intro k hk
      rcases List.mem_cons.mp hk with rfl | h'
      · have h0 := hwf w0 (by simp)
        have h1 := hwf w1 (by simp)
        have h2 := hwf w2 (by simp)
        have h3 := hwf w3 (by simp)
        constructor
        · simp [h0.1, h1.1, h2.1, h3.1]
        · intro b hb
          rcases List.mem_append.mp hb with hb | hb
          · rcases List.mem_append.mp hb with hb | hb
            · rcases List.mem_append.mp hb with hb | hb
              · exact h0.2 b hb
              · exact h1.2 b hb
            · exact h2.2 b hb
          · exact h3.2 b hb
      · exact ihwf k h'
  | [], _ => by simp [groupWords]
  | [w], _ => by simp [groupWords]
  | [w0, w1], _ => by simp [groupWords]
  | [w0, w1, w2], _ => by simp [groupWords]

theorem roundKeys_wf {key : Bytes} (hk : BytesOk key)
    (hlen : key.length = 16 ∨ key.length = 24 ∨ key.length = 32) :
    (roundKeys key).length = key.length / 4 + 7 ∧
    ∀ k ∈ roundKeys key, k.length = 16 ∧ BytesOk k := by
  obtain ⟨hel, hewf⟩ := expandWords_wf hk hlen
  obtain ⟨hgl, hgwf⟩ := groupWords_wf _ hewf
  constructor
  · show (groupWords (expandWords key)).length = _
    rw [hgl, hel]
    omega
  · exact hgwf

/-! ### Block inversion -/

theorem aesEncRounds_wf : ∀ (middle : List Bytes) (s : Bytes), s.length = 16 → BytesOk s →
    (∀ k ∈ middle, k.length = 16 ∧ BytesOk k) →
    (aesEncRounds middle s).length = 16 ∧ BytesOk (aesEncRounds middle s)
  | [], s, hl, hok, _ => ⟨hl, hok⟩
  | k :: ks, s, hl, hok, hm => by
    have hk := hm k (by simp)
    have hstate : (addRoundKey (mixColumns (shiftRows (subBytes s))) k).length = 16 ∧
        BytesOk (addRoundKey (mixColumns (shiftRows (subBytes s))) k) := by
      constructor
      · rw [addRoundKey, length_xorBytes, length_mixColumns, length_shiftRows, hk.1]
        rfl
      · exact xorBytes_ok (mixColumns_ok _ (shiftRows_ok (subBytes_ok s))) hk.2
    have : aesEncRounds (k :: ks) s
        = aesEncRounds ks (addRoundKey (mixColumns (shiftRows (subBytes s))) k) := by
      simp [aesEncRounds]
    rw [this]
    exact aesEncRounds_wf ks _ hstate.1 hstate.2 (fun k' hk' => hm k' (by simp [hk']))

theorem aesDecRounds_aesEncRounds (middle : List Bytes) :
    ∀ s : Bytes, s.length = 16 → BytesOk s → (∀ k ∈ middle, k.length = 16 ∧ BytesOk k) →
    aesDecRounds middle.reverse (shiftRows (subBytes (aesEncRounds middle s)))
      = shiftRows (subBytes s) := by
  induction middle using List.reverseRecOn with
  | nil => intro s _ _ _; rfl
  | append_singleton ms k ih =>
    intro s hsl hsok hm
    have hk : k.length = 16 ∧ BytesOk k := hm k (by simp)
    have hms : ∀ k' ∈ ms, k'.length = 16 ∧ BytesOk k' := fun k' hk' => hm k' (by simp [hk'])
    obtain ⟨hEl, hEok⟩ := aesEncRounds_wf ms s hsl hsok hms
    have henc : aesEncRounds (ms ++ [k]) s
        = addRoundKey (mixColumns (shiftRows (subBytes (aesEncRounds ms s)))) k := by
      simp [aesEncRounds, List.foldl_append]
    have hrev : (ms ++ [k]).reverse = k :: ms.reverse := by simp
    rw [henc, hrev]
    have hdec1 : aesDecRounds (k :: ms.reverse)
        (shiftRows (subBytes (addRoundKey (mixColumns (shiftRows (subBytes (aesEncRounds ms s)))) k)))
        = aesDecRounds ms.reverse
          (invMixColumns (addRoundKey (invSubBytes (invShiftRows
            (shiftRows (subBytes (addRoundKey (mixColumns (shiftRows (subBytes (aesEncRounds ms s)))) k))))) k)) := by
      simp [aesDecRounds]
    rw [hdec1]
    have harklen : (addRoundKey (mixColumns (shiftRows (subBytes (aesEncRounds ms s)))) k).length = 16 := by
      rw [addRoundKey, length_xorBytes, length_mixColumns, length_shiftRows, hk.1]
      rfl
    have harkok : BytesOk (addRoundKey (mixColumns (shiftRows (subBytes (aesEncRounds ms s)))) k) :=
      xorBytes_ok (mixColumns_ok _ (shiftRows_ok (subBytes_ok _))) hk.2
    rw [invShiftRows_shiftRows (by rw [length_subBytes, harklen]),
        invSubBytes_subBytes harkok]
    have hmixlen : (mixColumns (shiftRows (subBytes (aesEncRounds ms s)))).length = 16 := by
      rw [length_mixColumns, length_shiftRows]
    rw [show addRoundKey (addRoundKey (mixColumns (shiftRows (subBytes (aesEncRounds ms s)))) k) k
        = mixColumns (shiftRows (subBytes (aesEncRounds ms s))) from
      xorBytes_cancel (by rw [hmixlen, hk.1])]
    rw [invMixColumns_mixColumns _ (by rw [length_shiftRows])
      (shiftRows_ok (subBytes_ok _))]
    exact ih s hsl hsok hms

theorem getLastD_mem {α : Type} : ∀ (l : List α) (d : α), l ≠ [] → l.getLastD d ∈ l
  | [], _, h => absurd rfl h
  | a :: t, d, _ => by
    rw [List.getLastD_cons]
    cases t with
    | nil => simp
    | cons b t' =>
      have := getLastD_mem (b :: t') a (by simp)
      simp only [List.mem_cons] at this ⊢
      tauto

/-- AES block decryption inverts block encryption for the three legal key sizes. -/
theorem decryptBlock_encryptBlock {key block : Bytes}
    (hklen : key.length = 16 ∨ key.length = 24 ∨ key.length = 32)
    (hkOk : BytesOk key) (hblen : block.length = 16) (hbOk : BytesOk block) :
    decryptBlock key (encryptBlock key block) = block := by
  obtain ⟨hlen, hwf⟩ := roundKeys_wf hkOk hklen
  have hks11 : 11 ≤ (roundKeys key).length := by
    rcases hklen with h | h | h <;> rw [hlen, h] <;> omega
  have hne : roundKeys key ≠ [] := by
    intro h
    rw [h] at hks11
    simp at hks11
  have hk0 : (roundKeys key).getD 0 [] ∈ roundKeys key := getD_mem (by omega) []
  have hklast : (roundKeys key).getLastD [] ∈ roundKeys key := getLastD_mem _ _ hne
  obtain ⟨hk0l, hk0ok⟩ := hwf _ hk0
  obtain ⟨hkll, hklok⟩ := hwf _ hklast
  have hmid : ∀ k ∈ ((roundKeys key).drop 1).dropLast, k.length = 16 ∧ BytesOk k :=
    fun k hk => hwf k (List.drop_subset _ _ ((List.dropLast_sublist _).subset hk))
  rw [encryptBlock, decryptBlock]
  have hs0l : (addRoundKey block ((roundKeys key).getD 0 [])).length = 16 := by
    rw [addRoundKey, length_xorBytes, hblen, hk0l]
    rfl
  have hs0ok : BytesOk (addRoundKey block ((roundKeys key).getD 0 [])) :=
    xorBytes_ok hbOk hk0ok
  obtain ⟨hEl, hEok⟩ := aesEncRounds_wf _ _ hs0l hs0ok hmid
  rw [show addRoundKey (addRoundKey
      (shiftRows (subBytes (aesEncRounds ((roundKeys key).drop 1).dropLast
        (addRoundKey block ((roundKeys key).getD 0 [])))))
      ((roundKeys key).getLastD [])) ((roundKeys key).getLastD [])
      = shiftRows (subBytes (aesEncRounds ((roundKeys key).drop 1).dropLast
        (addRoundKey block ((roundKeys key).getD 0 [])))) from
    xorBytes_cancel (by rw [length_shiftRows, hkll])]
  rw [aesDecRounds_aesEncRounds _ _ hs0l hs0ok hmid]
  rw [invShiftRows_shiftRows (by rw [length_subBytes, hs0l]),
      invSubBytes_subBytes hs0ok]
  exact xorBytes_cancel (by rw [hblen, hk0l])

/-! ## CBC mode and PKCS#7 padding (pycryptodome `AES.MODE_CBC`, `Crypto.Util.Padding`) -/

theorem encryptBlock_wf {key s : Bytes}
    (hklen : key.length = 16 ∨ key.length = 24 ∨ key.length = 32)
    (hkOk : BytesOk key) (hsl : s.length = 16) (hsOk : BytesOk s) :
    (encryptBlock key s).length = 16 ∧ BytesOk (encryptBlock key s) := by
  obtain ⟨hlen, hwf⟩ := roundKeys_wf hkOk hklen
  have hks11 : 11 ≤ (roundKeys key).length := by
    rcases hklen with h | h | h <;> rw [hlen, h] <;> omega
  have hne : roundKeys key ≠ [] := by
    intro h; rw [h] at hks11; simp at hks11
  obtain ⟨hk0l, hk0ok⟩ := hwf _ (getD_mem (show 0 < (roundKeys key).length by omega) [])
  obtain ⟨hkll, hklok⟩ := hwf _ (getLastD_mem (roundKeys key) [] hne)
  have hmid : ∀ k ∈ ((roundKeys key).drop 1).dropLast, k.length = 16 ∧ BytesOk k :=
    fun k hk => hwf k (List.drop_subset _ _ ((List.dropLast_sublist _).subset hk))
  have hs0l : (addRoundKey s ((roundKeys key).getD 0 [])).length = 16 := by
    rw [addRoundKey, length_xorBytes, hsl, hk0l]; rfl
  have hs0ok : BytesOk (addRoundKey s ((roundKeys key).getD 0 [])) :=
    xorBytes_ok hsOk hk0ok
  obtain ⟨hEl, hEok⟩ := aesEncRounds_wf _ _ hs0l hs0ok hmid
  rw [encryptBlock]
  constructor
  · rw [addRoundKey, length_xorBytes, length_shiftRows, hkll]; rfl
  · exact xorBytes_ok (shiftRows_ok (subBytes_ok _)) hklok

theorem cbcEncGo_wf : ∀ (fuel : Nat) (key iv data : Bytes), data.length ≤ fuel →
    data.length % 16 = 0 →
    (key.length = 16 ∨ key.length = 24 ∨ key.length = 32) → BytesOk key →
    iv.length = 16 → BytesOk iv → BytesOk data →
    (cbcEncGo fuel key iv data).length = data.length ∧ BytesOk (cbcEncGo fuel key iv data)
  | 0, _, _, data, hf, _, _, _, _, _, _ => by
    have : data = [] := List.eq_nil_of_length_eq_zero (by omega)
    subst this
    exact ⟨rfl, by intro x hx; simp [cbcEncGo] at hx⟩
  | _ + 1, _, _, [], _, _, _, _, _, _, _ =>
    ⟨rfl, by intro x hx; simp [cbcEncGo] at hx⟩
  | fuel + 1, key, iv, b :: rest, hf, hm, hklen, hkOk, hivl, hivOk, hdOk => by
    have hlen16 : 16 ≤ (b :: rest).length := by
      by_contra hcon
      push_neg at hcon
      have h1 : 0 < (b :: rest).length := by simp
      omega
    have htl : ((b :: rest).take 16).length = 16 := by
      rw [List.length_take]; omega
    have hxl : (xorBytes ((b :: rest).take 16) iv).length = 16 := by
      rw [length_xorBytes, htl, hivl]; rfl
    have hxOk : BytesOk (xorBytes ((b :: rest).take 16) iv) :=
      xorBytes_ok (fun x hx => hdOk x (List.mem_of_mem_take hx)) hivOk
    obtain ⟨hcl, hcOk⟩ := encryptBlock_wf hklen hkOk hxl hxOk
    have hrest : ((b :: rest).drop 16).length = (b :: rest).length - 16 := List.length_drop _ _
    obtain ⟨ihl, ihOk⟩ := cbcEncGo_wf fuel key (encryptBlock key (xorBytes ((b :: rest).take 16) iv))
      ((b :: rest).drop 16) (by omega) (by omega) hklen hkOk hcl hcOk
      (fun x hx => hdOk x (List.mem_of_mem_drop hx))
    constructor
    · rw [cbcEncGo]
      simp only [List.length_append, hcl, ihl, hrest]
      omega
    · rw [cbcEncGo]
      intro x hx
      rcases List.mem_append.mp hx with h | h
      · exact hcOk x h
      · exact ihOk x h

theorem cbcDecGo_cbcEncGo : ∀ (fuelE fuelD : Nat) (key iv data : Bytes),
    data.length ≤ fuelE → (cbcEncGo fuelE key iv data).length ≤ fuelD →
    data.length % 16 = 0 →
    (key.length = 16 ∨ key.length = 24 ∨ key.length = 32) → BytesOk key →
    iv.length = 16 → BytesOk iv → BytesOk data →
    cbcDecGo fuelD key iv (cbcEncGo fuelE key iv data) = data
  | 0, fuelD, key, iv, data, hf, hfd, _, _, _, _, _, _ => by
    have : data = [] := List.eq_nil_of_length_eq_zero (by omega)
    subst this
    cases fuelD <;> rfl
  | _ + 1, fuelD, _, _, [], _, _, _, _, _, _, _, _ => by
    cases fuelD <;> rfl
  | fuelE + 1, fuelD, key, iv, b :: rest, hf, hfd, hm, hklen, hkOk, hivl, hivOk, hdOk => by
    have hlen16 : 16 ≤ (b :: rest).length := by
      by_contra hcon
      push_neg at hcon
      have h1 : 0 < (b :: rest).length := by simp
      omega
    have htl : ((b :: rest).take 16).length = 16 := by
      rw [List.length_take]; omega
    have hblkOk : BytesOk ((b :: rest).take 16) :=
      fun x hx => hdOk x (List.mem_of_mem_take hx)
    have hxl : (xorBytes ((b :: rest).take 16) iv).length = 16 := by
      rw [length_xorBytes, htl, hivl]; rfl
    have hxOk : BytesOk (xorBytes ((b :: rest).take 16) iv) :=
      xorBytes_ok hblkOk hivOk
    obtain ⟨hcl, hcOk⟩ := encryptBlock_wf hklen hkOk hxl hxOk
    have hrest : ((b :: rest).drop 16).length = (b :: rest).length - 16 := List.length_drop _ _
    obtain ⟨hencl, _⟩ := cbcEncGo_wf fuelE key (encryptBlock key (xorBytes ((b :: rest).take 16) iv))
      ((b :: rest).drop 16) (by omega) (by omega) hklen hkOk hcl hcOk
      (fun x hx => hdOk x (List.mem_of_mem_drop hx))
    rw [cbcEncGo] at hfd ⊢
    simp only [List.length_append, hcl, hencl] at hfd
    rcases fuelD with _ | fuelD
    · omega
    have hne : encryptBlock key (xorBytes ((b :: rest).take 16) iv)
        ++ cbcEncGo fuelE key (encryptBlock key (xorBytes ((b :: rest).take 16) iv)) ((b :: rest).drop 16)
        ≠ [] := by
      intro hcon
      have := congrArg List.length hcon
      simp only [List.length_append, hcl, hencl] at this
      simp at this
    match hh : encryptBlock key (xorBytes ((b :: rest).take 16) iv)
        ++ cbcEncGo fuelE key (encryptBlock key (xorBytes ((b :: rest).take 16) iv)) ((b :: rest).drop 16),
      hne with
    | c0 :: ctl, _ =>
      rw [cbcDecGo]
      rw [← hh]
      rw [List.take_left' hcl, List.drop_left' hcl]
      rw [decryptBlock_encryptBlock hklen hkOk hxl hxOk]
      rw [xorBytes_cancel (by rw [htl, hivl])]
      rw [cbcDecGo_cbcEncGo fuelE fuelD key _ ((b :: rest).drop 16) (by omega)
        (by rw [hencl]; omega) (by omega) hklen hkOk hcl hcOk
        (fun x hx => hdOk x (List.mem_of_mem_drop hx))]
      exact List.take_append_drop 16 (b :: rest)

/-- CBC decryption inverts CBC encryption on block-aligned byte data. -/
theorem cbcDecrypt_cbcEncrypt {key iv data : Bytes}
    (hklen : key.length = 16 ∨ key.length = 24 ∨ key.length = 32) (hkOk : BytesOk key)
    (hivl : iv.length = 16) (hivOk : BytesOk iv)
    (hm : data.length % 16 = 0) (hdOk : BytesOk data) :
    cbcDecrypt key iv (cbcEncrypt key iv data) = data := by
  rw [cbcDecrypt, cbcEncrypt]
  exact cbcDecGo_cbcEncGo data.length _ key iv data (le_refl _) (le_refl _)
    hm hklen hkOk hivl hivOk hdOk

theorem length_cbcEncrypt {key iv data : Bytes}
    (hklen : key.length = 16 ∨ key.length = 24 ∨ key.length = 32) (hkOk : BytesOk key)
    (hivl : iv.length = 16) (hivOk : BytesOk iv)
    (hm : data.length % 16 = 0) (hdOk : BytesOk data) :
    (cbcEncrypt key iv data).length = data.length :=
  (cbcEncGo_wf _ _ _ _ (le_refl _) hm hklen hkOk hivl hivOk hdOk).1

theorem pkcsUnpad_pkcsPad (data : Bytes) : pkcsUnpad (pkcsPad data 16) 16 = .ok data := by
  set n := 16 - data.length % 16 with hn
  have hn1 : 1 ≤ n := by omega
  have hn16 : n ≤ 16 := by omega
  have hlen : (pkcsPad data 16).length = data.length + n := by
    simp [pkcsPad]
  have hlast : (pkcsPad data 16).getLastD 0 = n := by
    rw [pkcsPad, ← hn]
    rcases Nat.exists_eq_add_of_le hn1 with ⟨m, hm⟩
    rw [hm, Nat.add_comm 1 m, List.replicate_succ']
    rw [← List.append_assoc]
    exact List.getLastD_concat _ _ _
  rw [pkcsUnpad]
  rw [if_neg (by omega)]
  rw [if_neg (by push_neg; rw [hlen]; omega)]
  simp only [hlast]
  rw [if_neg (by rw [hlen]; omega)]
  have hdrop : (pkcsPad data 16).drop ((pkcsPad data 16).length - n) = List.replicate n n := by
    rw [hlen, pkcsPad, ← hn]
    have : data.length + n - n = data.length := by omega
    rw [this, List.drop_left]
  rw [if_neg (by rw [hdrop]; simp)]
  rw [hlen, pkcsPad, ← hn]
  have : data.length + n - n = data.length := by omega
  rw [this, List.take_left]

theorem length_pkcsPad (data : Bytes) : (pkcsPad data 16).length % 16 = 0 := by
  simp only [pkcsPad, List.length_append, List.length_replicate]
  omega

theorem pkcsPad_ok {data : Bytes} (h : BytesOk data) : BytesOk (pkcsPad data 16) := by
  intro x hx
  rcases List.mem_append.mp hx with h' | h'
  · exact h x h'
  · have := List.eq_of_mem_replicate h'
    omega

/-! ## Claim C1 -/

/-- C1: for every media descriptor (with a legal AES key and 16-byte IV)
and every correctly constructed CDN blob — the plaintext PKCS#7-padded and
CBC-encrypted under the descriptor's key and IV, followed by the first 10
bytes of HMAC-SHA256(hmac_key, iv ‖ ciphertext), with `encrypted_hash` the
hex digest of the blob and `plaintext_hash` the hex digest of the
plaintext — `process_media` returns success with exactly the original
plaintext bytes and the success message. -/
theorem process_media_roundtrip (m : WhatsappMedia) (pt : Bytes)
    (hkey : m.encryption_key.length = 16 ∨ m.encryption_key.length = 24 ∨
      m.encryption_key.length = 32)
    (hkeyOk : BytesOk m.encryption_key)
    (hiv : m.iv.length = 16) (hivOk : BytesOk m.iv)
    (hpt : BytesOk pt)
    (hench : m.encrypted_hash = bytesToHex (sha256
      (cbcEncrypt m.encryption_key m.iv (pkcsPad pt 16)
        ++ (hmacSha256 m.hmac_key
            (m.iv ++ cbcEncrypt m.encryption_key m.iv (pkcsPad pt 16))).take 10)))
    (hpth : m.plaintext_hash = bytesToHex (sha256 pt)) :
    process_media m
      (cbcEncrypt m.encryption_key m.iv (pkcsPad pt 16)
        ++ (hmacSha256 m.hmac_key
            (m.iv ++ cbcEncrypt m.encryption_key m.iv (pkcsPad pt 16))).take 10)
      = (some pt, true, "Media successfully decrypted and verified") := by
  set ct := cbcEncrypt m.encryption_key m.iv (pkcsPad pt 16) with hct
  set tag := (hmacSha256 m.hmac_key (m.iv ++ ct)).take 10 with htag
  have hctl : ct.length = (pkcsPad pt 16).length :=
    length_cbcEncrypt hkey hkeyOk hiv hivOk (length_pkcsPad pt) (pkcsPad_ok hpt)
  have hct16 : ct.length % 16 = 0 := by rw [hctl]; exact length_pkcsPad pt
  have htagl : tag.length = 10 := by
    rw [htag, List.length_take, length_hmacSha256]
    rfl
  have hsplit : split_cdn (ct ++ tag) = (ct, tag) := by
    rw [split_cdn]
    have hlen : (ct ++ tag).length - 10 = ct.length := by
      rw [List.length_append, htagl]
      omega
    rw [hlen, List.take_left, List.drop_left]
  have hv1 : verify_enc_hash m (ct ++ tag) = true := by
    rw [verify_enc_hash, hench, if_pos rfl]
  have hv2 : validate_hmac m ct tag = true := by
    rw [validate_hmac, htag]
    simp
  have hdec : decrypt_media m ct = .ok pt := by
    rw [decrypt_media, if_neg (not_not_intro hkey), if_neg (not_not_intro hiv),
        if_neg (not_not_intro hct16)]
    rw [hct, cbcDecrypt_cbcEncrypt hkey hkeyOk hiv hivOk (length_pkcsPad pt) (pkcsPad_ok hpt)]
    exact pkcsUnpad_pkcsPad pt
  have hv3 : verify_plaintext_hash m pt = true := by
    rw [verify_plaintext_hash, hpth, if_pos rfl]
  rw [process_media, process_media_tr]
  rw [hv1]
  simp only [Bool.true_eq_false, if_false, hsplit]
  rw [hv2]
  simp only [Bool.true_eq_false, if_false, hdec]
  rw [hv3]
  simp only [Bool.true_eq_false, if_false]

/-- The concrete scenario of C1: iv = 16 zero bytes, AES key = 32 bytes of
0x01, HMAC key = 32 bytes of 0x02, plaintext "hello world"; the pipeline
returns exactly "hello world". -/
theorem process_media_roundtrip_witness :
    process_media
      { file_name := "f"
        encryption_key := List.replicate 32 1
        hmac_key := List.replicate 32 2
        iv := List.replicate 16 0
        plaintext_hash := "b94d27b9934d3e08a52e52d7da7dabfac484efe37a5380ee9088f7ace2efcde9"
        encrypted_hash := "51605026aca5c0ed53287c38d62cd2af7c5c30322a0deacacc78f1d4e4f1ccd2" }
      (cbcEncrypt (List.replicate 32 1) (List.replicate 16 0)
          (pkcsPad [104, 101, 108, 108, 111, 32, 119, 111, 114, 108, 100] 16)
        ++ (hmacSha256 (List.replicate 32 2)
            (List.replicate 16 0 ++ cbcEncrypt (List.replicate 32 1) (List.replicate 16 0)
              (pkcsPad [104, 101, 108, 108, 111, 32, 119, 111, 114, 108, 100] 16))).take 10)
      = (some [104, 101, 108, 108, 111, 32, 119, 111, 114, 108, 100], true,
          "Media successfully decrypted and verified") :=
  process_media_roundtrip _ [104, 101, 108, 108, 111, 32, 119, 111, 114, 108, 100]
    (by decide) (by decide) (by decide) (by decide) (by decide)
    (by decide) (by decide)

/-! ## Claim C2 -/

theorem verify_enc_hash_false {m : WhatsappMedia} {blob : Bytes}
    (h1 : ¬ m.encrypted_hash = bytesToHex (sha256 blob))
    (h2 : ∀ d, b64decode m.encrypted_hash = .ok d →
      ¬ bytesToHex (sha256 blob) = bytesToHex d) :
    verify_enc_hash m blob = false := by
  rw [verify_enc_hash]
  rw [if_neg (fun h => h1 h.symm)]
  match hd : b64decode m.encrypted_hash with
  | .ok d => exact decide_eq_false (h2 d hd)
  | .error _ => rfl

theorem verify_plaintext_hash_false {m : WhatsappMedia} {pt : Bytes}
    (h1 : ¬ m.plaintext_hash = bytesToHex (sha256 pt))
    (h2 : ∀ d, b64decode m.plaintext_hash = .ok d →
      ¬ bytesToHex (sha256 pt) = bytesToHex d) :
    verify_plaintext_hash m pt = false := by
  rw [verify_plaintext_hash]
  rw [if_neg (fun h => h1 h.symm)]
  match hd : b64decode m.plaintext_hash with
  | .ok d => exact decide_eq_false (h2 d hd)
  | .error _ => rfl

/-- C2 (corrected): corrupting the encrypted hash, the trailing tag, the
padding, or the plaintext hash each forces the matching specific failure
tuple — with the messages the code actually returns
("Encrypted file hash verification failed", "HMAC validation failed",
"Error during processing: <ValueError text>",
"Plaintext hash verification failed") — and never success. -/
theorem process_media_fail_closed :
    (∀ (m : WhatsappMedia) (blob : Bytes),
      ¬ m.encrypted_hash = bytesToHex (sha256 blob) →
      (∀ d, b64decode m.encrypted_hash = .ok d →
        ¬ bytesToHex (sha256 blob) = bytesToHex d) →
      process_media m blob = (none, false, "Encrypted file hash verification failed")) ∧
    (∀ (m : WhatsappMedia) (ct tag : Bytes), tag.length = 10 →
      verify_enc_hash m (ct ++ tag) = true →
      ¬ tag = (hmacSha256 m.hmac_key (m.iv ++ ct)).take 10 →
      process_media m (ct ++ tag) = (none, false, "HMAC validation failed")) ∧
    (∀ (m : WhatsappMedia) (ct tag : Bytes) (e : String), tag.length = 10 →
      verify_enc_hash m (ct ++ tag) = true →
      tag = (hmacSha256 m.hmac_key (m.iv ++ ct)).take 10 →
      decrypt_media m ct = .error e →
      process_media m (ct ++ tag) = (none, false, "Error during processing: " ++ e)) ∧
    (∀ (m : WhatsappMedia) (ct tag pt : Bytes), tag.length = 10 →
      verify_enc_hash m (ct ++ tag) = true →
      tag = (hmacSha256 m.hmac_key (m.iv ++ ct)).take 10 →
      decrypt_media m ct = .ok pt →
      verify_plaintext_hash m pt = false →
      process_media m (ct ++ tag) = (none, false, "Plaintext hash verification failed")) := by
  have hsplit : ∀ (ct tag : Bytes), tag.length = 10 → split_cdn (ct ++ tag) = (ct, tag) := by
    intro ct tag htagl
    rw [split_cdn]
    have hlen : (ct ++ tag).length - 10 = ct.length := by
      rw [List.length_append, htagl]; omega
    rw [hlen, List.take_left, List.drop_left]
  refine ⟨?_, ?_, ?_, ?_⟩
  · intro m blob h1 h2
    rw [process_media, process_media_tr, verify_enc_hash_false h1 h2]
    rfl
  · intro m ct tag htagl hv1 hne
    have hv2 : validate_hmac m ct tag = false :=
      decide_eq_false (fun h => hne h.symm)
    rw [process_media, process_media_tr, hv1]
    simp only [Bool.true_eq_false, if_false, hsplit ct tag htagl]
    rw [hv2]
    rfl
  · intro m ct tag e htagl hv1 heq hdec
    have hv2 : validate_hmac m ct tag = true := by
      rw [validate_hmac, heq]; simp
    rw [process_media, process_media_tr, hv1]
    simp only [Bool.true_eq_false, if_false, hsplit ct tag htagl]
    rw [hv2]
    simp only [Bool.true_eq_false, if_false, hdec]
  · intro m ct tag pt htagl hv1 heq hdec hv3
    have hv2 : validate_hmac m ct tag = true := by
      rw [validate_hmac, heq]; simp
    rw [process_media, process_media_tr, hv1]
    simp only [Bool.true_eq_false, if_false, hsplit ct tag htagl]
    rw [hv2]
    simp only [Bool.true_eq_false, if_false, hdec]
    rw [hv3]
    rfl

/-- C2 witness: each corruption at a concrete input produces exactly the
failure the (amended) claim states. -/
theorem process_media_fail_closed_witness :
    (process_media
      { file_name := "f", encryption_key := List.replicate 32 1,
        hmac_key := List.replicate 32 2, iv := List.replicate 16 0,
        plaintext_hash := "B", encrypted_hash := "A" } [0]
      = (none, false, "Encrypted file hash verification failed")) ∧
    (process_media
      { file_name := "f", encryption_key := List.replicate 32 1,
        hmac_key := List.replicate 32 2, iv := List.replicate 16 0,
        plaintext_hash := "B",
        encrypted_hash := "01d448afd928065458cf670b60f5a594d735af0172c8d67f22a81680132681ca" }
      ([] ++ [0, 0, 0, 0, 0, 0, 0, 0, 0, 0])
      = (none, false, "HMAC validation failed")) ∧
    (process_media
      { file_name := "f", encryption_key := List.replicate 32 1,
        hmac_key := List.replicate 32 2, iv := List.replicate 16 0,
        plaintext_hash := "B",
        encrypted_hash := "79bb551f933916db80b82d3a92dc121f924b3e1cf50e2928cb51a9197f1c4c9a" }
      (List.replicate 16 0 ++ [38, 212, 13, 9, 194, 99, 82, 40, 221, 231])
      = (none, false, "Error during processing: " ++ "Padding is incorrect.")) ∧
    (process_media
      { file_name := "f", encryption_key := List.replicate 32 1,
        hmac_key := List.replicate 32 2, iv := List.replicate 16 0,
        plaintext_hash := "B",
        encrypted_hash := "51605026aca5c0ed53287c38d62cd2af7c5c30322a0deacacc78f1d4e4f1ccd2" }
      (cbcEncrypt (List.replicate 32 1) (List.replicate 16 0)
          (pkcsPad [104, 101, 108, 108, 111, 32, 119, 111, 114, 108, 100] 16)
        ++ [132, 91, 198, 213, 158, 155, 250, 226, 177, 21])
      = (none, false, "Plaintext hash verification failed")) := by
  refine ⟨?_, ?_, ?_, ?_⟩
  · exact process_media_fail_closed.1 _ [0] (by decide)
      (fun d hd => by
        rw [show b64decode "A" = Except.error "Invalid base64-encoded string" from by decide] at hd
        exact absurd hd (by simp))
  · exact process_media_fail_closed.2.1 _ [] [0, 0, 0, 0, 0, 0, 0, 0, 0, 0]
      (by decide) (by decide) (by decide)
  · exact process_media_fail_closed.2.2.1 _ (List.replicate 16 0)
      [38, 212, 13, 9, 194, 99, 82, 40, 221, 231] "Padding is incorrect."
      (by decide) (by decide) (by decide) (by decide)
  · exact process_media_fail_closed.2.2.2 _
      (cbcEncrypt (List.replicate 32 1) (List.replicate 16 0)
        (pkcsPad [104, 101, 108, 108, 111, 32, 119, 111, 114, 108, 100] 16))
      [132, 91, 198, 213, 158, 155, 250, 226, 177, 21]
      [104, 101, 108, 108, 111, 32, 119, 111, 114, 108, 100]
      (by decide) (by decide) (by decide) (by decide)
      (verify_plaintext_hash_false (by decide) (fun d hd => by
        rw [show b64decode "B" = Except.error "Invalid base64-encoded string" from by decide] at hd
        exact absurd hd (by simp)))

/-- C2 counterexample: the claim's quoted reason strings are not the ones
the code returns — at a concretely corrupted encrypted hash the pipeline
answers "Encrypted file hash verification failed", not the spec's
"encrypted hash verification failed". -/
theorem process_media_messages_counterexample :
    process_media
      { file_name := "f", encryption_key := List.replicate 32 1,
        hmac_key := List.replicate 32 2, iv := List.replicate 16 0,
        plaintext_hash := "B", encrypted_hash := "A" } [0]
      = (none, false, "Encrypted file hash verification failed") ∧
    ¬ process_media
      { file_name := "f", encryption_key := List.replicate 32 1,
        hmac_key := List.replicate 32 2, iv := List.replicate 16 0,
        plaintext_hash := "B", encrypted_hash := "A" } [0]
      = (none, false, "encrypted hash verification failed") := by
  constructor
  · decide
  · decide

/-! ## Claim C5 -/

theorem process_media_tr_events (m : WhatsappMedia) (cdn_file : Bytes) (fs : FS) :
    (process_media_tr m cdn_file fs).2.1 =
      ([MediaEvent.download] ++
        (if m.debug_mode && m.keep_temp_files then [MediaEvent.writeRaw] else [])) ++
      (if verify_enc_hash m cdn_file = false then [MediaEvent.encHashCheck false]
       else if validate_hmac m (split_cdn cdn_file).1 (split_cdn cdn_file).2 = false then
         [MediaEvent.encHashCheck true, MediaEvent.hmacCheck false]
       else
         [MediaEvent.encHashCheck true, MediaEvent.hmacCheck true, MediaEvent.decrypt] ++
         (match decrypt_media m (split_cdn cdn_file).1 with
          | .error _ => []
          | .ok d =>
            (if m.debug_mode && m.keep_temp_files then [MediaEvent.writeDecrypted] else []) ++
            (if verify_plaintext_hash m d = false then [MediaEvent.plaintextHashCheck false]
             else [MediaEvent.plaintextHashCheck true]))) := by
  rcases hd : decrypt_media m (split_cdn cdn_file).1 with e | d <;>
    cases hv : verify_enc_hash m cdn_file <;>
    cases hh : validate_hmac m (split_cdn cdn_file).1 (split_cdn cdn_file).2 <;>
    simp [process_media_tr, hv, hh, hd] <;>
    cases hp : verify_plaintext_hash m d <;>
    simp [hp]

/-- C5: the pipeline never decrypts before both the encrypted-hash check
and the HMAC check have passed: a failed encrypted-hash check means no
decrypt event at all, and whenever a decrypt event occurs, successful
encrypted-hash and HMAC checks occur strictly before it. -/
theorem process_media_authenticate_then_decrypt (m : WhatsappMedia) (cdn_file : Bytes) (fs : FS) :
    (verify_enc_hash m cdn_file = false →
      MediaEvent.decrypt ∉ (process_media_tr m cdn_file fs).2.1) ∧
    (MediaEvent.decrypt ∈ (process_media_tr m cdn_file fs).2.1 →
      MediaEvent.encHashCheck true ∈
        ((process_media_tr m cdn_file fs).2.1.takeWhile fun e => e != MediaEvent.decrypt) ∧
      MediaEvent.hmacCheck true ∈
        ((process_media_tr m cdn_file fs).2.1.takeWhile fun e => e != MediaEvent.decrypt)) := by
  rw [process_media_tr_events]
  rcases hd : decrypt_media m (split_cdn cdn_file).1 with e | d <;>
    cases hw : m.debug_mode && m.keep_temp_files <;>
    cases hv : verify_enc_hash m cdn_file <;>
    cases hh : validate_hmac m (split_cdn cdn_file).1 (split_cdn cdn_file).2 <;>
    first
    | (cases hp : verify_plaintext_hash m d <;> simp [hw, hv, hh, hd, hp] <;> decide)
    | (simp [hw, hv, hh, hd] <;> decide)

/-- C5 witness: at a concrete failing encrypted hash, no decrypt event. -/
theorem process_media_authenticate_then_decrypt_witness :
    MediaEvent.decrypt ∉ (process_media_tr
      { file_name := "f", encryption_key := List.replicate 32 1,
        hmac_key := List.replicate 32 2, iv := List.replicate 16 0,
        plaintext_hash := "B", encrypted_hash := "A" } [0] []).2.1 :=
  (process_media_authenticate_then_decrypt _ [0] []).1 (by decide)

/-! ## Claim C6 -/

/-- C6: both hash checks accept the expected digest in either
representation — a descriptor carrying the raw lowercase-hex digest and a
descriptor carrying the base64 encoding of the same digest both validate
against identical content — while a hash matching neither form is
rejected. -/
theorem dual_encoding_acceptance :
    (∀ (m : WhatsappMedia) (content : Bytes),
      m.encrypted_hash = bytesToHex (sha256 content) →
      verify_enc_hash m content = true) ∧
    (∀ (m : WhatsappMedia) (content : Bytes),
      m.encrypted_hash = b64encode (sha256 content) →
      verify_enc_hash m content = true) ∧
    (∀ (m : WhatsappMedia) (content : Bytes),
      m.plaintext_hash = bytesToHex (sha256 content) →
      verify_plaintext_hash m content = true) ∧
    (∀ (m : WhatsappMedia) (content : Bytes),
      m.plaintext_hash = b64encode (sha256 content) →
      verify_plaintext_hash m content = true) ∧
    (∀ (m : WhatsappMedia) (content : Bytes),
      ¬ m.encrypted_hash = bytesToHex (sha256 content) →
      (∀ d, b64decode m.encrypted_hash = .ok d →
        ¬ bytesToHex (sha256 content) = bytesToHex d) →
      verify_enc_hash m content = false) ∧
    (∀ (m : WhatsappMedia) (content : Bytes),
      ¬ m.plaintext_hash = bytesToHex (sha256 content) →
      (∀ d, b64decode m.plaintext_hash = .ok d →
        ¬ bytesToHex (sha256 content) = bytesToHex d) →
      verify_plaintext_hash m content = false) := by
  refine ⟨?_, ?_, ?_, ?_, ?_, ?_⟩
  · intro m content h
    rw [verify_enc_hash, h, if_pos rfl]
  · intro m content h
    rw [verify_enc_hash, h]
    by_cases hc : bytesToHex (sha256 content) = b64encode (sha256 content)
    · rw [if_pos hc]
    · rw [if_neg hc, b64decode_b64encode (sha256_ok content)]
      simp
  · intro m content h
    rw [verify_plaintext_hash, h, if_pos rfl]
  · intro m content h
    rw [verify_plaintext_hash, h]
    by_cases hc : bytesToHex (sha256 content) = b64encode (sha256 content)
    · rw [if_pos hc]
    · rw [if_neg hc, b64decode_b64encode (sha256_ok content)]
      simp
  · intro m content h1 h2
    exact verify_enc_hash_false h1 h2
  · intro m content h1 h2
    exact verify_plaintext_hash_false h1 h2

/-- C6 witness: concrete content accepted under both representations and
rejected when the stored hash matches neither. -/
theorem dual_encoding_acceptance_witness :
    verify_enc_hash
      { file_name := "f", encryption_key := [], hmac_key := [], iv := [],
        plaintext_hash := "",
        encrypted_hash := "6e340b9cffb37a989ca544e6bb780a2c78901d3fb33738768511a30617afa01d" }
      [0] = true ∧
    verify_enc_hash
      { file_name := "f", encryption_key := [], hmac_key := [], iv := [],
        plaintext_hash := "",
        encrypted_hash := "bjQLnP+zepicpUTmu3gKLHiQHT+zNzh2hRGjBhevoB0=" }
      [0] = true ∧
    verify_plaintext_hash
      { file_name := "f", encryption_key := [], hmac_key := [], iv := [],
        plaintext_hash := "bjQLnP+zepicpUTmu3gKLHiQHT+zNzh2hRGjBhevoB0=",
        encrypted_hash := "" }
      [0] = true ∧
    verify_enc_hash
      { file_name := "f", encryption_key := [], hmac_key := [], iv := [],
        plaintext_hash := "", encrypted_hash := "A" }
      [0] = false :=
  ⟨dual_encoding_acceptance.1 _ [0] (by decide),
   dual_encoding_acceptance.2.1 _ [0] (by decide),
   dual_encoding_acceptance.2.2.2.1 _ [0] (by decide),
   dual_encoding_acceptance.2.2.2.2.1 _ [0] (by decide)
     (fun d hd => by
       rw [show b64decode "A" = Except.error "Invalid base64-encoded string" from by decide] at hd
       exact absurd hd (by simp))⟩

/-! ## Claim C7 -/

theorem fsLookup_cons_ne {a : String} {b : Bytes} {t : FS} {n : String}
    (h : ¬ a = n) : fsLookup ((a, b) :: t) n = fsLookup t n := by
  simp only [fsLookup]
  rw [List.find?_cons_of_neg _ (by simpa using h)]

theorem fsLookup_fsRemove_other {n n' : String} (h : ¬ n = n') :
    ∀ fs : FS, fsLookup (fsRemove fs n') n = fsLookup fs n := by
  intro fs
  induction fs with
  | nil => rfl
  | cons p t ih =>
    rcases p with ⟨a, b⟩
    by_cases ha : a = n'
    · subst ha
      have h1 : fsRemove ((a, b) :: t) a = fsRemove t a := by
        simp [fsRemove, List.filter_cons]
      rw [h1, ih, fsLookup_cons_ne (fun hc => h (by rw [hc]))]
    · have h1 : fsRemove ((a, b) :: t) n' = (a, b) :: fsRemove t n' := by
        simp [fsRemove, List.filter_cons, ha]
      rw [h1]
      by_cases han : a = n
      · subst han
        simp only [fsLookup]
        rw [List.find?_cons_of_pos _ (by simp), List.find?_cons_of_pos _ (by simp)]
      · rw [fsLookup_cons_ne han, fsLookup_cons_ne han, ih]

theorem fsLookup_fsWrite_same (fs : FS) (n : String) (c : Bytes) :
    fsLookup (fsWrite fs n c) n = some c := by
  simp only [fsWrite, fsLookup]
  rw [List.find?_cons_of_pos _ (by simp)]
  rfl

theorem fsLookup_fsWrite_other {n n' : String} (h : ¬ n = n') (fs : FS) (c : Bytes) :
    fsLookup (fsWrite fs n' c) n = fsLookup fs n := by
  rw [fsWrite, fsLookup_cons_ne (fun hc => h (by rw [hc])), fsLookup_fsRemove_other h]

theorem raw_ne_decrypted (s : String) : ¬ s ++ ".raw" = s ++ ".decrypted" := by
  intro h
  have h2 := congrArg String.length h
  rw [String.length_append, String.length_append] at h2
  have ha : String.length ".raw" = 4 := rfl
  have hb : String.length ".decrypted" = 10 := rfl
  omega

theorem process_media_tr_fs (m : WhatsappMedia) (c : Bytes) (fs : FS) :
    (process_media_tr m c fs).2.2 =
      if m.debug_mode && m.keep_temp_files then
        (if verify_enc_hash m c = false then fsWrite fs (m.file_name ++ ".raw") c
         else if validate_hmac m (split_cdn c).1 (split_cdn c).2 = false then
           fsWrite fs (m.file_name ++ ".raw") c
         else
           match decrypt_media m (split_cdn c).1 with
           | .error _ => fsWrite fs (m.file_name ++ ".raw") c
           | .ok d => fsWrite (fsWrite fs (m.file_name ++ ".raw") c)
               (m.file_name ++ ".decrypted") d)
      else fs := by
  rcases hd : decrypt_media m (split_cdn c).1 with e | d <;>
    cases hdm : m.debug_mode <;>
    cases hkt : m.keep_temp_files <;>
    cases hv : verify_enc_hash m c <;>
    cases hh : validate_hmac m (split_cdn c).1 (split_cdn c).2 <;>
    simp [process_media_tr, hdm, hkt, hv, hh, hd] <;>
    cases hp : verify_plaintext_hash m d <;>
    simp [hp]

/-- C7 (amended): the `.raw`/`.decrypted` diagnostic artifacts are written
only when both `debug_mode` and `keep_temp_files` are enabled (both default
to false); but since the failure-path cleanup only runs when
`keep_temp_files` is false — and nothing is ever written then — a written
raw artifact survives every pipeline exit, success or failure, contrary to
removal on non-success exits. -/
theorem process_media_artifacts :
    (∀ (m : WhatsappMedia) (blob : Bytes) (fs : FS),
      ¬ (m.debug_mode = true ∧ m.keep_temp_files = true) →
      (process_media_tr m blob fs).2.2 = fs) ∧
    (∀ fn mid cdn ek hk iv ph eh,
      ({ file_name := fn, media_id := mid, cdn_url := cdn, encryption_key := ek,
         hmac_key := hk, iv := iv, plaintext_hash := ph,
         encrypted_hash := eh : WhatsappMedia }).debug_mode = false ∧
      ({ file_name := fn, media_id := mid, cdn_url := cdn, encryption_key := ek,
         hmac_key := hk, iv := iv, plaintext_hash := ph,
         encrypted_hash := eh : WhatsappMedia }).keep_temp_files = false) ∧
    (∀ (m : WhatsappMedia) (blob : Bytes) (fs : FS),
      m.debug_mode = true → m.keep_temp_files = true →
      fsLookup (process_media_tr m blob fs).2.2 (m.file_name ++ ".raw") = some blob) := by
  refine ⟨?_, ?_, ?_⟩
  · intro m blob fs hflags
    have hw : (m.debug_mode && m.keep_temp_files) = false := by
      cases hdm : m.debug_mode <;> cases hkt : m.keep_temp_files <;> simp_all
    rw [process_media_tr_fs, hw]
    rfl
  · intro fn mid cdn ek hk iv ph eh
    exact ⟨rfl, rfl⟩
  · intro m blob fs hdm hkt
    have hw : (m.debug_mode && m.keep_temp_files) = true := by rw [hdm, hkt]; rfl
    rw [process_media_tr_fs, hw]
    simp only [if_true]
    cases hv : verify_enc_hash m blob
    · simp only [Bool.false_eq_true, if_true]
      exact fsLookup_fsWrite_same fs _ blob
    · simp only [Bool.true_eq_false, if_false]
      cases hh : validate_hmac m (split_cdn blob).1 (split_cdn blob).2
      · simp only [Bool.false_eq_true, if_true]
        exact fsLookup_fsWrite_same fs _ blob
      · simp only [Bool.true_eq_false, if_false]
        rcases hd : decrypt_media m (split_cdn blob).1 with e | d
        · exact fsLookup_fsWrite_same fs _ blob
        · rw [fsLookup_fsWrite_other (fun h => raw_ne_decrypted m.file_name h) _ d]
          exact fsLookup_fsWrite_same fs _ blob

/-- C7 counterexample: with both flags on, a failing run exits non-success
yet the `.raw` artifact remains on disk. -/
theorem process_media_artifacts_counterexample :
    ((process_media_tr
      { file_name := "f", encryption_key := List.replicate 32 1,
        hmac_key := List.replicate 32 2, iv := List.replicate 16 0,
        plaintext_hash := "B", encrypted_hash := "A",
        debug_mode := true, keep_temp_files := true } [0] []).1).2.1 = false ∧
    fsLookup (process_media_tr
      { file_name := "f", encryption_key := List.replicate 32 1,
        hmac_key := List.replicate 32 2, iv := List.replicate 16 0,
        plaintext_hash := "B", encrypted_hash := "A",
        debug_mode := true, keep_temp_files := true } [0] []).2.2 "f.raw" = some [0] := by
  constructor
  · decide
  · decide

/-- C7 witness: the amended claim at concrete inputs — no flags, no
writes; both flags, the artifact persists after a failing run. -/
theorem process_media_artifacts_witness :
    (process_media_tr
      { file_name := "f", encryption_key := List.replicate 32 1,
        hmac_key := List.replicate 32 2, iv := List.replicate 16 0,
        plaintext_hash := "B", encrypted_hash := "A" } [0] []).2.2 = [] ∧
    fsLookup (process_media_tr
      { file_name := "f", encryption_key := List.replicate 32 1,
        hmac_key := List.replicate 32 2, iv := List.replicate 16 0,
        plaintext_hash := "B", encrypted_hash := "A",
        debug_mode := true, keep_temp_files := true } [0] []).2.2 "f.raw" = some [0] :=
  ⟨process_media_artifacts.1 _ [0] [] (by simp),
   process_media_artifacts.2.2 _ [0] [] rfl rfl⟩

/-! ## Claim C10 -/

/-- C10: no length check before the split — a blob of at most 10 bytes
splits into an empty ciphertext and the whole blob as the tag, after which
`process_media` still proceeds to HMAC validation (when the encrypted hash
matches) and `bypass_verifications` proceeds straight to decryption. -/
theorem short_blob_no_length_check :
    (∀ blob : Bytes, blob.length ≤ 10 → split_cdn blob = ([], blob)) ∧
    (∀ (m : WhatsappMedia) (blob : Bytes) (fs : FS), blob.length ≤ 10 →
      verify_enc_hash m blob = true →
      MediaEvent.hmacCheck (validate_hmac m [] blob) ∈ (process_media_tr m blob fs).2.1) ∧
    (∀ (m : WhatsappMedia) (blob : Bytes) (path : Option String) (fs : FS),
      blob.length ≤ 10 →
      MediaEvent.decrypt ∈ (bypass_verifications m blob path fs).2.1) := by
  have hs : ∀ blob : Bytes, blob.length ≤ 10 → split_cdn blob = ([], blob) := by
    intro blob h
    rw [split_cdn]
    have h0 : blob.length - 10 = 0 := by omega
    rw [h0, List.take_zero, List.drop_zero]
  refine ⟨hs, ?_, ?_⟩
  · intro m blob fs hshort hv
    rw [process_media_tr_events, hv, hs blob hshort]
    rcases hd : decrypt_media m [] with e | d <;>
      cases hw : m.debug_mode && m.keep_temp_files <;>
      cases hh : validate_hmac m [] blob <;>
      simp [hw, hh, hd] <;>
      cases hp : verify_plaintext_hash m d <;>
      simp [hp]
  · intro m blob path fs hshort
    rw [bypass_verifications]
    rcases hd : decrypt_media m (split_cdn blob).1 with e | d <;> simp [hd]

/-- C10 witness: a 1-byte blob with a matching encrypted hash reaches the
HMAC check in `process_media`, and reaches decryption in
`bypass_verifications`, with the empty prefix as ciphertext. -/
theorem short_blob_no_length_check_witness :
    split_cdn [0] = ([], [0]) ∧
    MediaEvent.hmacCheck (validate_hmac
      { file_name := "f", encryption_key := List.replicate 32 1,
        hmac_key := List.replicate 32 2, iv := List.replicate 16 0,
        plaintext_hash := "B",
        encrypted_hash := "6e340b9cffb37a989ca544e6bb780a2c78901d3fb33738768511a30617afa01d" }
      [] [0]) ∈ (process_media_tr
      { file_name := "f", encryption_key := List.replicate 32 1,
        hmac_key := List.replicate 32 2, iv := List.replicate 16 0,
        plaintext_hash := "B",
        encrypted_hash := "6e340b9cffb37a989ca544e6bb780a2c78901d3fb33738768511a30617afa01d" }
      [0] []).2.1 ∧
    MediaEvent.decrypt ∈ (bypass_verifications
      { file_name := "f", encryption_key := List.replicate 32 1,
        hmac_key := List.replicate 32 2, iv := List.replicate 16 0,
        plaintext_hash := "B", encrypted_hash := "x" } [0] none []).2.1 :=
  ⟨short_blob_no_length_check.1 [0] (by decide),
   short_blob_no_length_check.2.1 _ [0] [] (by decide) (by decide),
   short_blob_no_length_check.2.2 _ [0] none [] (by decide)⟩


/-! ### Character utilities -/

theorem char_eq_of_toNat {c d : Char} (h : c.toNat = d.toNat) : c = d :=
  Char.eq_of_val_eq (UInt32.eq_of_val_eq (Fin.eq_of_val_eq h))

theorem toNat_ofNat_valid {n : Nat} (h : Nat.isValidChar n) : (Char.ofNat n).toNat = n := by
  simp [Char.ofNat, h, Char.ofNatAux, Char.toNat, UInt32.toNat, UInt32.ofNat]

theorem char_valid (c : Char) : c.toNat < 55296 ∨ (57344 ≤ c.toNat ∧ c.toNat < 1114112) := by
  rcases c.valid with h | h
  · exact Or.inl h
  · exact Or.inr ⟨h.1, h.2⟩

theorem char_ne_of_toNat_ne {c d : Char} (h : ¬ c.toNat = d.toNat) : ¬ c = d :=
  fun hc => h (by rw [hc])

/-! ### Decimal digits -/

theorem digitChar_toNat {d : Nat} (h : d < 10) : (digitChar d).toNat = 48 + d := by
  have : Nat.isValidChar (48 + d) := Or.inl (by omega)
  exact toNat_ofNat_valid this

theorem isDigitChar_digitChar {d : Nat} (h : d < 10) : isDigitChar (digitChar d) = true := by
  simp [isDigitChar, digitChar_toNat h]
  omega

theorem natToDecChars_mono : ∀ f g n, n ≤ f → f ≤ g →
    natToDecChars g n = natToDecChars f n := by
  intro f
  induction f with
  | zero =>
    intro g n hn _
    interval_cases n
    cases g
    · rfl
    · simp [natToDecChars]
  | succ f ih =>
    intro g n hn hg
    obtain ⟨g, rfl⟩ : ∃ g2, g = g2 + 1 := ⟨g - 1, by omega⟩
    rw [natToDecChars, natToDecChars]
    by_cases h0 : n = 0
    · simp [h0]
    · simp only [h0, if_false]
      have h1 : n / 10 ≤ f := by omega
      rw [ih g (n / 10) h1 (by omega)]

theorem digitsVal_append (ds : List Char) (c : Char) :
    digitsVal (ds ++ [c]) = 10 * digitsVal ds + (c.toNat - 48) := by
  simp [digitsVal, List.foldl_append]
  ring

theorem natToDec_correct : ∀ n f, 1 ≤ n → n ≤ f →
    natToDecChars f n ≠ [] ∧
    (∀ c ∈ natToDecChars f n, isDigitChar c = true) ∧
    digitsVal (natToDecChars f n) = n ∧
    (natToDecChars f n).headD '0' ≠ '0' := by
  intro n
  induction n using Nat.strong_induction_on with
  | _ n ih =>
    intro f h1 hf
    obtain ⟨f, rfl⟩ : ∃ f2, f = f2 + 1 := ⟨f - 1, by omega⟩
    rw [natToDecChars]
    simp only [show ¬ n = 0 by omega, if_false]
    by_cases hsmall : n < 10
    · have h10 : n / 10 = 0 := by omega
      rw [h10]
      have hz : natToDecChars f 0 = [] := by
        cases f <;> simp [natToDecChars]
      rw [hz]
      refine ⟨by simp, ?_, ?_, ?_⟩
      · intro c hc
        simp at hc
        rw [hc]
        exact isDigitChar_digitChar (by omega)
      · simp [digitsVal, digitChar_toNat (show n % 10 < 10 by omega)]
        omega
      · simp only [List.nil_append, List.headD]
        intro hc
        have h2 := congrArg Char.toNat hc
        rw [digitChar_toNat (by omega)] at h2
        have h3 : Char.toNat '0' = 48 := rfl
        omega
    · have hrec := ih (n / 10) (by omega) f (by omega) (by omega)
      obtain ⟨hne, hdig, hval, hhead⟩ := hrec
      refine ⟨by simp, ?_, ?_, ?_⟩
      · intro c hc
        rcases List.mem_append.mp hc with hc | hc
        · exact hdig c hc
        · simp at hc
          rw [hc]
          exact isDigitChar_digitChar (by omega)
      · rw [digitsVal_append, hval, digitChar_toNat (by omega)]
        omega
      · match hx : natToDecChars f (n / 10) with
        | [] => exact absurd hx hne
        | c :: cs =>
          rw [hx] at hhead
          simpa using hhead

/-! ### skipWs and spanDigits -/

theorem skipWs_not_ws {c : Char} (h : isWsChar c = false) (cs : List Char) :
    skipWs (c :: cs) = c :: cs := by
  rw [skipWs, h]
  simp

theorem skipWs_space (cs : List Char) : skipWs (' ' :: cs) = skipWs cs := by
  rw [skipWs]
  simp [isWsChar]

theorem spanDigits_stop : ∀ {l : List Char}, (l = [] ∨ isDigitChar (l.headD '0') = false) →
    spanDigits l = ([], l) := by
  intro l h
  match l with
  | [] => rfl
  | c :: cs =>
    rcases h with h | h
    · cases h
    · simp only [List.headD] at h
      rw [spanDigits, h]
      simp

theorem spanDigits_digits : ∀ (ds : List Char) (rest : List Char),
    (∀ c ∈ ds, isDigitChar c = true) →
    (rest = [] ∨ isDigitChar (rest.headD '0') = false) →
    spanDigits (ds ++ rest) = (ds, rest) := by
  intro ds
  induction ds with
  | nil =>
    intro rest _ hrest
    simpa using spanDigits_stop hrest
  | cons c cs ih =>
    intro rest hds hrest
    rw [List.cons_append, spanDigits, hds c (by simp)]
    simp only
    rw [ih rest (fun d hd => hds d (by simp [hd])) hrest]
    simp
theorem restOk_not_digit {l : List Char} (h : RestOk l) :
    l = [] ∨ isDigitChar (l.headD '0') = false := by
  match l with
  | [] => exact Or.inl rfl
  | c :: t =>
    right
    simp only [List.headD]
    rcases h with h | h | h | h
    · cases h
    all_goals
      simp only [List.headD] at h
      rw [h]
      decide

theorem restOk_not_float {l : List Char} (h : RestOk l) (c2 : Char) (t : List Char)
    (hl : l = c2 :: t) : (c2 = '.' ∨ c2 = 'e' ∨ c2 = 'E') = False := by
  subst hl
  rcases h with h | h | h | h
  · cases h
  all_goals
    simp only [List.headD] at h
    rw [h]
    simp

theorem parseUNumber_digits {n : Nat} (hn : 1 ≤ n) (neg : Bool) (rest : List Char)
    (h : RestOk rest) :
    parseUNumber neg ((natToDec n).data ++ rest) =
      .ok (.num (if neg then -(Int.ofNat n) else Int.ofNat n), rest) := by
  rw [natToDec]
  simp only [show ¬ n = 0 by omega, if_false]
  obtain ⟨hne, hdig, hval, hhead⟩ := natToDec_correct n n hn (by omega)
  match hx : natToDecChars n n with
  | [] => exact absurd hx hne
  | c :: cs =>
    rw [hx] at hdig hval hhead
    have hcd : isDigitChar c = true := hdig c (by simp)
    have hc0 : ¬ c = '0' := by simpa using hhead
    show parseUNumber neg (c :: (cs ++ rest)) = _
    rw [parseUNumber.eq_def]
    simp only [if_neg hc0, hcd, if_true]
    rw [spanDigits_digits cs rest (fun d hd => hdig d (by simp [hd])) (restOk_not_digit h)]
    simp only
    rw [hval]
    match hr : rest with
    | [] => simp
    | c2 :: t =>
      have hf := restOk_not_float h c2 t rfl
      simp only [hf]
      simp

theorem parseNumber_intToDec (i : Int) (rest : List Char) (h : RestOk rest) :
    parseNumber ((intToDec i).data ++ rest) = .ok (.num i, rest) := by
  rw [intToDec]
  by_cases hneg : i < 0
  · simp only [hneg, if_true]
    have h1 : ("-" ++ natToDec i.natAbs).data = '-' :: (natToDec i.natAbs).data := by
      rw [String.data_append]
      rfl
    rw [h1, List.cons_append, parseNumber]
    simp only [if_pos rfl]
    rw [parseUNumber_digits (by omega) true rest h]
    have h2 : -(Int.ofNat i.natAbs) = i := by
      show -((i.natAbs : Int)) = i
      omega
    rw [if_pos rfl, h2]
    exact if_pos trivial
  · simp only [hneg, if_false]
    by_cases h0 : i = 0
    · subst h0
      show parseNumber ('0' :: rest) = _
      rw [parseNumber]
      have : ¬ ('0' : Char) = '-' := by decide
      rw [if_neg this, parseUNumber.eq_def]
      simp only [if_pos rfl]
      match hr : rest with
      | [] => simp
      | c2 :: t =>
        have hf := restOk_not_float (hr ▸ h) c2 t rfl
        simp only [hf]
        simp
    · have hn : 1 ≤ i.natAbs := by omega
      obtain ⟨hne, hdig, hval, hhead⟩ := natToDec_correct i.natAbs i.natAbs hn (by omega)
      rw [natToDec]
      simp only [show ¬ i.natAbs = 0 by omega, if_false]
      match hx : natToDecChars i.natAbs i.natAbs with
      | [] => exact absurd hx hne
      | c :: cs =>
        rw [hx] at hdig
        have hcd : isDigitChar c = true := hdig c (by simp)
        have hcm : ¬ c = '-' := by
          intro hc
          rw [hc] at hcd
          simp [isDigitChar] at hcd
        show parseNumber (c :: (cs ++ rest)) = _
        rw [parseNumber, if_neg hcm]
        have h2 : (c :: (cs ++ rest)) = (natToDec i.natAbs).data ++ rest := by
          rw [natToDec]
          simp only [show ¬ i.natAbs = 0 by omega, if_false, hx]
          rfl
        rw [h2, parseUNumber_digits hn false rest h]
        have h3 : Int.ofNat i.natAbs = i := by
          show ((i.natAbs : Int)) = i
          omega
        rw [if_neg Bool.false_ne_true, h3]
/-! ### String escape round-trip -/

theorem hexVal_hexChar {d : Nat} (h : d < 16) : hexVal (hexChar d) = some d := by
  interval_cases d <;> decide

theorem parseHex4_digits {a b c d : Nat} (ha : a < 16) (hb : b < 16) (hc : c < 16)
    (hd : d < 16) (rest : List Char) :
    parseHex4 (hexChar a :: hexChar b :: hexChar c :: hexChar d :: rest) =
      some (4096 * a + 256 * b + 16 * c + d, rest) := by
  simp only [parseHex4, hexVal_hexChar ha, hexVal_hexChar hb, hexVal_hexChar hc,
    hexVal_hexChar hd]

theorem uEscape_cons (n : Nat) (cs : List Char) :
    uEscape n ++ cs = '\\' :: 'u' :: (hexChar (n / 4096 % 16) :: hexChar (n / 256 % 16) ::
      hexChar (n / 16 % 16) :: hexChar (n % 16) :: cs) := rfl

theorem parseUEsc_single {n : Nat} (hn : n < 65536)
    (hs1 : ¬ (55296 ≤ n ∧ n < 56320)) (hs2 : ¬ (56320 ≤ n ∧ n < 57344)) (cs : List Char) :
    parseUEsc (hexChar (n / 4096 % 16) :: hexChar (n / 256 % 16) ::
      hexChar (n / 16 % 16) :: hexChar (n % 16) :: cs) = .ok (Char.ofNat n, cs) := by
  rw [parseUEsc, parseHex4_digits (by omega) (by omega) (by omega) (by omega)]
  simp only []
  have hrec : 4096 * (n / 4096 % 16) + 256 * (n / 256 % 16) + 16 * (n / 16 % 16) + n % 16
      = n := by omega
  rw [hrec, if_neg hs1, if_neg hs2]

theorem parseUEsc_pair {n : Nat} (h1 : 65536 ≤ n) (h2 : n < 1114112) (cs : List Char) :
    parseUEsc (hexChar ((55296 + (n - 65536) / 1024) / 4096 % 16) ::
      hexChar ((55296 + (n - 65536) / 1024) / 256 % 16) ::
      hexChar ((55296 + (n - 65536) / 1024) / 16 % 16) ::
      hexChar ((55296 + (n - 65536) / 1024) % 16) ::
      (uEscape (56320 + (n - 65536) % 1024) ++ cs)) = .ok (Char.ofNat n, cs) := by
  set hi := 55296 + (n - 65536) / 1024 with hhi
  set lo := 56320 + (n - 65536) % 1024 with hlo
  have h3 : (n - 65536) / 1024 < 1024 := by omega
  rw [parseUEsc, parseHex4_digits (by omega) (by omega) (by omega) (by omega)]
  simp only []
  have hrec : 4096 * (hi / 4096 % 16) + 256 * (hi / 256 % 16) + 16 * (hi / 16 % 16) + hi % 16
      = hi := by omega
  rw [hrec, if_pos (show 55296 ≤ hi ∧ hi < 56320 by omega)]
  rw [uEscape_cons]
  simp only []
  rw [parseHex4_digits (by omega) (by omega) (by omega) (by omega)]
  simp only []
  have hrec2 : 4096 * (lo / 4096 % 16) + 256 * (lo / 256 % 16) + 16 * (lo / 16 % 16) + lo % 16
      = lo := by omega
  rw [hrec2, if_pos (show 56320 ≤ lo ∧ lo < 57344 by omega)]
  have hcomb : 65536 + (hi - 55296) * 1024 + (lo - 56320) = n := by omega
  rw [hcomb]

theorem parseStringGo_plain {c : Char} (h1 : ¬ c = '"') (h2 : ¬ c = '\\')
    (h3 : ¬ c.toNat < 32) (f : Nat) (cs : List Char) :
    parseStringGo (f + 1) (c :: cs) =
      match parseStringGo f cs with
      | .error e => .error e
      | .ok (body, rest) => .ok (c :: body, rest) := by
  rw [parseStringGo.eq_def]
  simp only [if_neg h1, if_neg h2, if_neg h3]

theorem parseStringGo_shortEsc {e d : Char} (he : shortEscape e = some d)
    (hu : ¬ e = 'u') (f : Nat) (cs : List Char) :
    parseStringGo (f + 1) ('\\' :: e :: cs) =
      match parseStringGo f cs with
      | .error err => .error err
      | .ok (body, rest) => .ok (d :: body, rest) := by
  rw [parseStringGo, if_neg (by decide : ¬ ('\\' : Char) = '"'), if_pos rfl]
  rw [if_neg hu, he]

theorem parseStringGo_uEscStep (f : Nat) (cs1 : List Char) :
    parseStringGo (f + 1) ('\\' :: 'u' :: cs1) =
      match parseUEsc cs1 with
      | .error err => .error err
      | .ok (ch, cs2) =>
          match parseStringGo f cs2 with
          | .error err => .error err
          | .ok (body, rest) => .ok (ch :: body, rest) := by
  rw [parseStringGo, if_neg (by decide : ¬ ('\\' : Char) = '"'), if_pos rfl]
  exact if_pos rfl

theorem parseStringGo_escape (l : List Char) : ∀ (f : Nat) (rest : List Char),
    l.length < f →
    parseStringGo f (l.flatMap escapeChar ++ '"' :: rest) = .ok (l, rest) := by
  induction l with
  | nil =>
    intro f rest hf
    obtain ⟨f, rfl⟩ : ∃ f2, f = f2 + 1 := ⟨f - 1, by omega⟩
    simp only [List.flatMap_nil, List.nil_append]
    rw [parseStringGo.eq_def]
    simp only [if_pos rfl]
    exact if_pos trivial
  | cons c l ih =>
    intro f rest hf
    obtain ⟨f, rfl⟩ : ∃ f2, f = f2 + 1 := ⟨f - 1, by omega⟩
    have ihf := ih f rest (by simp at hf ⊢; omega)
    simp only [List.flatMap_cons, List.append_assoc]
    by_cases hq : c = '"'
    · subst hq
      show parseStringGo (f + 1) ('\\' :: '"' :: (l.flatMap escapeChar ++ '"' :: rest)) = _
      rw [parseStringGo_shortEsc (show shortEscape '"' = some '"' from rfl) (by decide), ihf]
    · by_cases hbs : c = '\\'
      · subst hbs
        show parseStringGo (f + 1) ('\\' :: '\\' :: (l.flatMap escapeChar ++ '"' :: rest)) = _
        rw [parseStringGo_shortEsc (show shortEscape '\\' = some '\\' from rfl) (by decide),
          ihf]
      · by_cases h8 : c.toNat = 8
        · have hc : escapeChar c = ['\\', 'b'] := by
            rw [escapeChar, if_neg hq, if_neg hbs, if_pos h8]
          rw [hc]
          show parseStringGo (f + 1) ('\\' :: 'b' :: (l.flatMap escapeChar ++ '"' :: rest)) = _
          rw [parseStringGo_shortEsc (show shortEscape 'b' = some c by
              rw [show shortEscape 'b' = some (Char.ofNat 8) from rfl,
                char_eq_of_toNat (show (Char.ofNat 8).toNat = c.toNat by
                  rw [toNat_ofNat_valid (Or.inl (by omega)), h8])])
            (by decide), ihf]
        · by_cases h12 : c.toNat = 12
          · have hc : escapeChar c = ['\\', 'f'] := by
              rw [escapeChar, if_neg hq, if_neg hbs, if_neg h8, if_pos h12]
            rw [hc]
            show parseStringGo (f + 1) ('\\' :: 'f' :: (l.flatMap escapeChar ++ '"' :: rest)) = _
            rw [parseStringGo_shortEsc (show shortEscape 'f' = some c by
                rw [show shortEscape 'f' = some (Char.ofNat 12) from rfl,
                  char_eq_of_toNat (show (Char.ofNat 12).toNat = c.toNat by
                    rw [toNat_ofNat_valid (Or.inl (by omega)), h12])])
              (by decide), ihf]
          · by_cases h10 : c.toNat = 10
            · have hc : escapeChar c = ['\\', 'n'] := by
                rw [escapeChar, if_neg hq, if_neg hbs, if_neg h8, if_neg h12, if_pos h10]
              rw [hc]
              show parseStringGo (f + 1) ('\\' :: 'n' :: (l.flatMap escapeChar ++ '"' :: rest)) = _
              rw [parseStringGo_shortEsc (show shortEscape 'n' = some c by
                  rw [show shortEscape 'n' = some (Char.ofNat 10) from rfl,
                    char_eq_of_toNat (show (Char.ofNat 10).toNat = c.toNat by
                      rw [toNat_ofNat_valid (Or.inl (by omega)), h10])])
                (by decide), ihf]
            · by_cases h13 : c.toNat = 13
              · have hc : escapeChar c = ['\\', 'r'] := by
                  rw [escapeChar, if_neg hq, if_neg hbs, if_neg h8, if_neg h12, if_neg h10,
                    if_pos h13]
                rw [hc]
                show parseStringGo (f + 1) ('\\' :: 'r' :: (l.flatMap escapeChar ++ '"' :: rest))
                  = _
                rw [parseStringGo_shortEsc (show shortEscape 'r' = some c by
                    rw [show shortEscape 'r' = some (Char.ofNat 13) from rfl,
                      char_eq_of_toNat (show (Char.ofNat 13).toNat = c.toNat by
                        rw [toNat_ofNat_valid (Or.inl (by omega)), h13])])
                  (by decide), ihf]
              · by_cases h9 : c.toNat = 9
                · have hc : escapeChar c = ['\\', 't'] := by
                    rw [escapeChar, if_neg hq, if_neg hbs, if_neg h8, if_neg h12, if_neg h10,
                      if_neg h13, if_pos h9]
                  rw [hc]
                  show parseStringGo (f + 1)
                    ('\\' :: 't' :: (l.flatMap escapeChar ++ '"' :: rest)) = _
                  rw [parseStringGo_shortEsc (show shortEscape 't' = some c by
                      rw [show shortEscape 't' = some (Char.ofNat 9) from rfl,
                        char_eq_of_toNat (show (Char.ofNat 9).toNat = c.toNat by
                          rw [toNat_ofNat_valid (Or.inl (by omega)), h9])])
                    (by decide), ihf]
                · by_cases hesc : c.toNat < 32 ∨ 127 ≤ c.toNat
                  · by_cases hbig : c.toNat < 65536
                    · have hc : escapeChar c = uEscape c.toNat := by
                        rw [escapeChar, if_neg hq, if_neg hbs, if_neg h8, if_neg h12, if_neg h10,
                          if_neg h13, if_neg h9, if_pos hesc, if_pos hbig]
                      rw [hc]
                      have hval := char_valid c
                      rw [uEscape_cons, parseStringGo_uEscStep,
                        parseUEsc_single hbig (by omega) (by omega)]
                      simp only []
                      rw [ihf]
                      simp [Char.ofNat_toNat]
                    · have hc : escapeChar c =
                          uEscape (55296 + (c.toNat - 65536) / 1024) ++
                          uEscape (56320 + (c.toNat - 65536) % 1024) := by
                        rw [escapeChar, if_neg hq, if_neg hbs, if_neg h8, if_neg h12, if_neg h10,
                          if_neg h13, if_neg h9, if_pos hesc, if_neg hbig]
                      rw [hc]
                      have hval := char_valid c
                      rw [List.append_assoc, uEscape_cons, parseStringGo_uEscStep]
                      rw [show uEscape (56320 + (c.toNat - 65536) % 1024) ++
                          (l.flatMap escapeChar ++ '"' :: rest) =
                          uEscape (56320 + (c.toNat - 65536) % 1024) ++
                          (l.flatMap escapeChar ++ '"' :: rest) from rfl]
                      rw [parseUEsc_pair (by omega) (by omega)]
                      simp only []
                      rw [ihf]
                      simp [Char.ofNat_toNat]
                  · have hc : escapeChar c = [c] := by
                      rw [escapeChar, if_neg hq, if_neg hbs, if_neg h8, if_neg h12, if_neg h10,
                        if_neg h13, if_neg h9, if_neg hesc]
                    rw [hc]
                    show parseStringGo (f + 1) (c :: (l.flatMap escapeChar ++ '"' :: rest)) = _
                    rw [parseStringGo_plain hq hbs (by omega), ihf]
theorem objAppend_nil : ∀ xs : JsonObj, objAppend xs .nil = xs
  | .nil => rfl
  | .cons k v t => by rw [objAppend, objAppend_nil t]

theorem objHasKey_append : ∀ (a b : JsonObj) (k : String),
    objHasKey (objAppend a b) k = (objHasKey a k || objHasKey b k)
  | .nil, b, k => by simp [objAppend, objHasKey]
  | .cons k1 v1 t, b, k => by
      rw [objAppend, objHasKey, objHasKey_append t, objHasKey]
      simp [Bool.or_assoc]

theorem objUpsert_append : ∀ (acc : JsonObj) (k : String) (v : Json),
    objHasKey acc k = false →
    objUpsert acc k v = objAppend acc (.cons k v .nil)
  | .nil, _, _, _ => rfl
  | .cons k1 v1 t, k, v, h => by
      rw [objHasKey] at h
      simp only [Bool.or_eq_false_iff] at h
      rw [objUpsert, objAppend, if_neg (by
        intro hc
        rw [hc] at h
        simp at h)]
      rw [objUpsert_append t k v h.2]

theorem objAppend_assoc : ∀ (a b c : JsonObj),
    objAppend (objAppend a b) c = objAppend a (objAppend b c)
  | .nil, _, _ => rfl
  | .cons k v t, b, c => by rw [objAppend, objAppend, objAppend_assoc t, objAppend]

theorem objCanonGo_append : ∀ (xs acc : JsonObj),
    (∀ k, objHasKey acc k = true → objHasKey xs k = false) →
    objKeysNodup xs = true →
    objCanonGo acc xs = objAppend acc xs
  | .nil, acc, _, _ => by rw [objCanonGo, objAppend_nil]
  | .cons k v t, acc, hdisj, hnd => by
      rw [objKeysNodup] at hnd
      simp only [Bool.and_eq_true, Bool.not_eq_true'] at hnd
      have hk : objHasKey acc k = false := by
        cases hacc : objHasKey acc k
        · rfl
        · have h2 := hdisj k hacc
          rw [objHasKey] at h2
          simp at h2
      rw [objCanonGo, objUpsert_append acc k v hk]
      rw [objCanonGo_append t (objAppend acc (.cons k v .nil)) (fun k2 hk2 => by
        rw [objHasKey_append] at hk2
        rcases Bool.or_eq_true_iff.mp hk2 with h2 | h2
        · have h3 := hdisj k2 h2
          rw [objHasKey] at h3
          simp only [Bool.or_eq_false_iff] at h3
          exact h3.2
        · rw [objHasKey] at h2
          rcases Bool.or_eq_true_iff.mp h2 with h3 | h3
          · have hkk : k = k2 := by simpa using h3
            rw [← hkk]
            exact hnd.1
          · simp [objHasKey] at h3) hnd.2]
      rw [objAppend_assoc]
      rfl

theorem objCanonGo_id {xs : JsonObj} (h : objKeysNodup xs = true) :
    objCanonGo .nil xs = xs := by
  rw [objCanonGo_append xs .nil (fun k hk => by simp [objHasKey] at hk) h]
  rfl

/-! ### Head characters of serialized values -/

theorem escapeChar_length_pos (c : Char) : 1 ≤ (escapeChar c).length := by
  rw [escapeChar]
  split_ifs <;> simp [uEscape]

theorem flatMap_escape_length (l : List Char) :
    l.length ≤ (l.flatMap escapeChar).length := by
  induction l with
  | nil => simp
  | cons c cs ih =>
    simp only [List.flatMap_cons, List.length_append, List.length_cons]
    have := escapeChar_length_pos c
    omega

theorem dumps_data_head : ∀ v : Json, ∃ c cs, (dumps v).data = c :: cs ∧ HeadClass c := by
  intro v
  match v with
  | .null => exact ⟨'n', _, rfl, Or.inl rfl⟩
  | .bool true => exact ⟨'t', _, rfl, Or.inr (Or.inl rfl)⟩
  | .bool false => exact ⟨'f', _, rfl, Or.inr (Or.inr (Or.inl rfl))⟩
  | .str s => exact ⟨'"', _, rfl, Or.inr (Or.inr (Or.inr (Or.inr (Or.inr (Or.inl rfl)))))⟩
  | .arr .nil => exact ⟨'[', _, rfl, by unfold HeadClass; tauto⟩
  | .arr (.cons h t) =>
    refine ⟨'[', ((dumps h).data ++ (dumpsL t).data ++ [']']), ?_, by unfold HeadClass; tauto⟩
    show (("[" ++ dumps h ++ dumpsL t ++ "]").data) = _
    simp [String.data_append]
  | .obj .nil => exact ⟨'\x7b', _, rfl, by unfold HeadClass; tauto⟩
  | .obj (.cons k v2 t) =>
    refine ⟨'\x7b', ((encodeString k).data ++ (": " ++ dumps v2 ++ dumpsO t ++ "\x7d").data), ?_,
      by unfold HeadClass; tauto⟩
    show (("\x7b" ++ encodeString k ++ ": " ++ dumps v2 ++ dumpsO t ++ "\x7d").data) = _
    simp [String.data_append]
  | .num i =>
    rw [show dumps (.num i) = intToDec i from rfl, intToDec]
    by_cases hneg : i < 0
    · simp only [hneg, if_true]
      refine ⟨'-', (natToDec i.natAbs).data, ?_, Or.inr (Or.inr (Or.inr (Or.inl rfl)))⟩
      rw [String.data_append]
      rfl
    · simp only [hneg, if_false]
      rw [natToDec]
      by_cases h0 : i.natAbs = 0
      · simp only [h0, if_pos rfl]
        exact ⟨'0', [], rfl, Or.inr (Or.inr (Or.inr (Or.inr (Or.inl (by decide)))))⟩
      · simp only [h0, if_false]
        obtain ⟨hne, hdig, _, _⟩ := natToDec_correct i.natAbs i.natAbs (by omega) (by omega)
        match hx : natToDecChars i.natAbs i.natAbs with
        | [] => exact absurd hx hne
        | c :: cs =>
          rw [hx] at hdig
          exact ⟨c, cs, rfl, Or.inr (Or.inr (Or.inr (Or.inr (Or.inl (hdig c (by simp))))))⟩

theorem headClass_facts {c : Char} (h : HeadClass c) :
    isWsChar c = false ∧ ¬ c = ']' ∧ ¬ c = '\x7d' ∧ ¬ c = ',' := by
  rcases h with h | h | h | h | h | h | h | h
  all_goals first
  | (subst h; exact ⟨by decide, by decide, by decide, by decide⟩)
  | (simp only [isDigitChar, decide_eq_true_eq] at h
     refine ⟨?_, ?_, ?_, ?_⟩
     · simp only [isWsChar]
       have h1 : ¬ c = ' ' := char_ne_of_toNat_ne (by intro hc; rw [show (' ').toNat = 32 from rfl] at hc; omega)
       have h2 : ¬ c = '\t' := char_ne_of_toNat_ne (by intro hc; rw [show ('\t').toNat = 9 from rfl] at hc; omega)
       have h3 : ¬ c = '\n' := char_ne_of_toNat_ne (by intro hc; rw [show ('\n').toNat = 10 from rfl] at hc; omega)
       have h4 : ¬ c = '\r' := char_ne_of_toNat_ne (by intro hc; rw [show ('\r').toNat = 13 from rfl] at hc; omega)
       simp [h1, h2, h3, h4]
     · exact char_ne_of_toNat_ne (by intro hc; rw [show (']').toNat = 93 from rfl] at hc; omega)
     · exact char_ne_of_toNat_ne (by intro hc; rw [show ('\x7d').toNat = 125 from rfl] at hc; omega)
     · exact char_ne_of_toNat_ne (by intro hc; rw [show (',').toNat = 44 from rfl] at hc; omega))
/-! ### Parser step lemmas on serialized shapes -/

theorem jsizeJ_pos : ∀ v : Json, 1 ≤ jsizeJ v
  | .null => le_refl 1
  | .bool _ => le_refl 1
  | .num _ => le_refl 1
  | .str _ => le_refl 1
  | .arr xs => by show 1 ≤ 1 + jsizeL xs; omega
  | .obj xs => by show 1 ≤ 1 + jsizeO xs; omega

theorem parseV_null (f : Nat) (r : List Char) :
    parseV (f + 1) ('n' :: 'u' :: 'l' :: 'l' :: r) = .ok (.null, r) := rfl

theorem parseV_true (f : Nat) (r : List Char) :
    parseV (f + 1) ('t' :: 'r' :: 'u' :: 'e' :: r) = .ok (.bool true, r) := rfl

theorem parseV_false (f : Nat) (r : List Char) :
    parseV (f + 1) ('f' :: 'a' :: 'l' :: 's' :: 'e' :: r) = .ok (.bool false, r) := rfl

theorem parseV_str (f : Nat) (r : List Char) :
    parseV (f + 1) ('"' :: r) =
      match parseStringGo r.length r with
      | .error e => .error e
      | .ok (body, rest) => .ok (.str (String.mk body), rest) := rfl

theorem parseV_arr (f : Nat) (r : List Char) :
    parseV (f + 1) ('[' :: r) =
      (match skipWs r with
       | [] => .error "Expecting value"
       | c1 :: r1 =>
           if c1 = ']' then .ok (.arr .nil, r1)
           else
             match parseL f (c1 :: r1) with
             | .error e => .error e
             | .ok (xs, rest) => .ok (.arr xs, rest)) := rfl

theorem parseV_obj (f : Nat) (r : List Char) :
    parseV (f + 1) ('\x7b' :: r) =
      (match skipWs r with
       | [] => .error "Expecting property name enclosed in double quotes"
       | c1 :: r1 =>
           if c1 = '\x7d' then .ok (.obj .nil, r1)
           else
             match parseO f (c1 :: r1) with
             | .error e => .error e
             | .ok (xs, rest) => .ok (.obj (objCanonGo .nil xs), rest)) := rfl

theorem parseV_number {c : Char} (h1 : ¬ c = 'n') (h2 : ¬ c = 't') (h3 : ¬ c = 'f')
    (h4 : ¬ c = '"') (h5 : ¬ c = '[') (h6 : ¬ c = '\x7b') (h7 : ¬ (c = 'N' ∨ c = 'I'))
    (f : Nat) (r : List Char) :
    parseV (f + 1) (c :: r) = parseNumber (c :: r) := by
  rw [parseV.eq_def]
  simp only [if_neg h1, if_neg h2, if_neg h3, if_neg h4, if_neg h5, if_neg h6, if_neg h7]

theorem parseL_succ (f : Nat) (cs : List Char) :
    parseL (f + 1) cs =
      (match parseV f cs with
       | .error e => .error e
       | .ok (v, r) =>
           match skipWs r with
           | ',' :: r2 =>
               (match parseL f (skipWs r2) with
                | .error e => .error e
                | .ok (t, rest) => .ok (.cons v t, rest))
           | ']' :: r2 => .ok (.cons v .nil, r2)
           | _ => .error "Expecting ',' delimiter") := rfl

theorem parseO_succ (f : Nat) (r : List Char) :
    parseO (f + 1) ('"' :: r) =
      (match parseStringGo r.length r with
       | .error e => .error e
       | .ok (kb, r1) =>
           match skipWs r1 with
           | ':' :: r2 =>
               (match parseV f (skipWs r2) with
                | .error e => .error e
                | .ok (v, r3) =>
                    match skipWs r3 with
                    | ',' :: r4 =>
                        (match parseO f (skipWs r4) with
                         | .error e => .error e
                         | .ok (t, rest) => .ok (.cons (String.mk kb) v t, rest))
                    | '\x7d' :: r4 => .ok (.cons (String.mk kb) v .nil, r4)
                    | _ => .error "Expecting ',' delimiter")
           | _ => .error "Expecting ':' delimiter") := rfl

theorem numHead_facts {c : Char} (h : c = '-' ∨ isDigitChar c = true) :
    ¬ c = 'n' ∧ ¬ c = 't' ∧ ¬ c = 'f' ∧ ¬ c = '"' ∧ ¬ c = '[' ∧ ¬ c = '\x7b' ∧
    ¬ (c = 'N' ∨ c = 'I') := by
  rcases h with h | h
  · subst h
    refine ⟨by decide, by decide, by decide, by decide, by decide, by decide, by decide⟩
  · simp only [isDigitChar, decide_eq_true_eq] at h
    refine ⟨?_, ?_, ?_, ?_, ?_, ?_, ?_⟩
    · exact char_ne_of_toNat_ne (by intro hc; rw [show ('n').toNat = 110 from rfl] at hc; omega)
    · exact char_ne_of_toNat_ne (by intro hc; rw [show ('t').toNat = 116 from rfl] at hc; omega)
    · exact char_ne_of_toNat_ne (by intro hc; rw [show ('f').toNat = 102 from rfl] at hc; omega)
    · exact char_ne_of_toNat_ne (by intro hc; rw [show ('"').toNat = 34 from rfl] at hc; omega)
    · exact char_ne_of_toNat_ne (by intro hc; rw [show ('[').toNat = 91 from rfl] at hc; omega)
    · exact char_ne_of_toNat_ne (by intro hc; rw [show ('\x7b').toNat = 123 from rfl] at hc; omega)
    · rintro (hc | hc)
      · exact char_ne_of_toNat_ne (by intro hn; rw [show ('N').toNat = 78 from rfl] at hn; omega) hc
      · exact char_ne_of_toNat_ne (by intro hn; rw [show ('I').toNat = 73 from rfl] at hn; omega) hc

theorem intToDec_head (i : Int) :
    ∃ c cs, (intToDec i).data = c :: cs ∧ (c = '-' ∨ isDigitChar c = true) := by
  rw [intToDec]
  by_cases hneg : i < 0
  · simp only [hneg, if_true]
    refine ⟨'-', (natToDec i.natAbs).data, ?_, Or.inl rfl⟩
    rw [String.data_append]
    rfl
  · simp only [hneg, if_false]
    rw [natToDec]
    by_cases h0 : i.natAbs = 0
    · simp only [h0, if_pos rfl]
      exact ⟨'0', [], rfl, Or.inr (by decide)⟩
    · simp only [h0, if_false]
      obtain ⟨hne, hdig, _, _⟩ := natToDec_correct i.natAbs i.natAbs (by omega) (by omega)
      match hx : natToDecChars i.natAbs i.natAbs with
      | [] => exact absurd hx hne
      | c :: cs =>
        rw [hx] at hdig
        exact ⟨c, cs, rfl, Or.inr (hdig c (by simp))⟩

/-! ### Serialized shapes, right-associated -/

theorem encodeString_data_append (s : String) (X : List Char) :
    (encodeString s).data ++ X = '"' :: (s.data.flatMap escapeChar ++ ('"' :: X)) := by
  show (('"' :: (s.data.flatMap escapeChar ++ ['"'])) ++ X) = _
  simp

theorem dumpsArr_data (h : Json) (t : JsonList) (X : List Char) :
    (dumps (.arr (.cons h t))).data ++ X =
      '[' :: ((dumps h).data ++ ((dumpsL t).data ++ (']' :: X))) := by
  show (("[" ++ dumps h ++ dumpsL t ++ "]").data ++ X) = _
  simp [String.data_append]

theorem dumpsObj_data (k : String) (v : Json) (t : JsonObj) (X : List Char) :
    (dumps (.obj (.cons k v t))).data ++ X =
      '\x7b' :: ('"' :: (k.data.flatMap escapeChar ++ ('"' :: (':' :: (' ' ::
        ((dumps v).data ++ ((dumpsO t).data ++ ('\x7d' :: X)))))))) := by
  show (("\x7b" ++ encodeString k ++ ": " ++ dumps v ++ dumpsO t ++ "\x7d").data ++ X) = _
  simp [String.data_append, encodeString]

theorem dumpsL_cons_data (h2 : Json) (t2 : JsonList) (X : List Char) :
    (dumpsL (.cons h2 t2)).data ++ X =
      ',' :: ' ' :: ((dumps h2).data ++ ((dumpsL t2).data ++ X)) := by
  show ((", " ++ dumps h2 ++ dumpsL t2).data ++ X) = _
  simp [String.data_append]

theorem dumpsO_cons_data (k2 : String) (v2 : Json) (t2 : JsonObj) (X : List Char) :
    (dumpsO (.cons k2 v2 t2)).data ++ X =
      ',' :: ' ' :: ('"' :: (k2.data.flatMap escapeChar ++ ('"' :: (':' :: (' ' ::
        ((dumps v2).data ++ ((dumpsO t2).data ++ X))))))) := by
  show ((", " ++ encodeString k2 ++ ": " ++ dumps v2 ++ dumpsO t2).data ++ X) = _
  simp [String.data_append, encodeString]

theorem restOk_dumpsL (t : JsonList) (rest : List Char) :
    RestOk ((dumpsL t).data ++ (']' :: rest)) := by
  match t with
  | .nil => exact Or.inr (Or.inr (Or.inl rfl))
  | .cons h2 t2 =>
    rw [dumpsL_cons_data]
    exact Or.inr (Or.inl rfl)

theorem restOk_dumpsO (t : JsonObj) (rest : List Char) :
    RestOk ((dumpsO t).data ++ ('\x7d' :: rest)) := by
  match t with
  | .nil => exact Or.inr (Or.inr (Or.inr rfl))
  | .cons k2 v2 t2 =>
    rw [dumpsO_cons_data]
    exact Or.inr (Or.inl rfl)

theorem skipWs_dumps (v : Json) (X : List Char) :
    skipWs ((dumps v).data ++ X) = (dumps v).data ++ X := by
  obtain ⟨c, cs, hd, hcl⟩ := dumps_data_head v
  rw [hd, List.cons_append]
  exact skipWs_not_ws (headClass_facts hcl).1 _
/-! ### The serializer/parser round-trip -/

theorem parse_dumps : ∀ f : Nat,
    (∀ (v : Json) (rest : List Char), dictLikeJ v = true → jsizeJ v ≤ f → RestOk rest →
      parseV f ((dumps v).data ++ rest) = .ok (v, rest)) ∧
    (∀ (h : Json) (t : JsonList) (rest : List Char), dictLikeJ h = true → dictLikeL t = true →
      1 + jsizeJ h + jsizeL t ≤ f → RestOk rest →
      parseL f ((dumps h).data ++ ((dumpsL t).data ++ (']' :: rest))) = .ok (.cons h t, rest)) ∧
    (∀ (k : String) (v : Json) (t : JsonObj) (rest : List Char), dictLikeJ v = true →
      dictLikeO t = true → 1 + jsizeJ v + jsizeO t ≤ f → RestOk rest →
      parseO f ('"' :: (k.data.flatMap escapeChar ++ ('"' :: (':' :: (' ' ::
        ((dumps v).data ++ ((dumpsO t).data ++ ('\x7d' :: rest)))))))) =
        .ok (.cons k v t, rest)) := by
  intro f
  induction f with
  | zero =>
    refine ⟨?_, ?_, ?_⟩
    · intro v rest _ hsz _
      have := jsizeJ_pos v
      omega
    · intro h t rest _ _ hsz _
      omega
    · intro k v t rest _ _ hsz _
      omega
  | succ f ih =>
    obtain ⟨ihJ, ihL, ihO⟩ := ih
    refine ⟨?_, ?_, ?_⟩
    · intro v rest hdl hsz hro
      match v with
      | .null => exact parseV_null f rest
      | .bool true => exact parseV_true f rest
      | .bool false => exact parseV_false f rest
      | .num i =>
        obtain ⟨c, cs, hd, hcl⟩ := intToDec_head i
        obtain ⟨n1, n2, n3, n4, n5, n6, n7⟩ := numHead_facts hcl
        have hshape : (dumps (.num i)).data ++ rest = c :: (cs ++ rest) := by
          show (intToDec i).data ++ rest = _
          rw [hd, List.cons_append]
        rw [hshape, parseV_number n1 n2 n3 n4 n5 n6 n7]
        rw [show c :: (cs ++ rest) = (intToDec i).data ++ rest by rw [hd, List.cons_append]]
        exact parseNumber_intToDec i rest hro
      | .str s =>
        have hshape : (dumps (.str s)).data ++ rest
            = '"' :: (s.data.flatMap escapeChar ++ ('"' :: rest)) :=
          encodeString_data_append s rest
        rw [hshape, parseV_str]
        have hlen : s.data.length < (s.data.flatMap escapeChar ++ ('"' :: rest)).length := by
          have := flatMap_escape_length s.data
          simp only [List.length_append, List.length_cons]
          omega
        rw [parseStringGo_escape s.data _ rest hlen]
      | .arr .nil =>
        show parseV (f + 1) ('[' :: ']' :: rest) = .ok (.arr .nil, rest)
        rfl
      | .arr (.cons h t) =>
        have hdl2 : dictLikeJ h = true ∧ dictLikeL t = true := by
          have he : dictLikeJ (.arr (.cons h t)) = (dictLikeJ h && dictLikeL t) := rfl
          rw [he] at hdl
          simpa using hdl
        have hsz2 : jsizeJ (.arr (.cons h t)) = 1 + (1 + jsizeJ h + jsizeL t) := rfl
        rw [dumpsArr_data, parseV_arr, skipWs_dumps h ((dumpsL t).data ++ (']' :: rest))]
        obtain ⟨c, cs, hd, hcl⟩ := dumps_data_head h
        obtain ⟨-, hne1, -, -⟩ := headClass_facts hcl
        rw [hd, List.cons_append]
        show (if c = ']' then Except.ok (Json.arr .nil, cs ++ ((dumpsL t).data ++ (']' :: rest)))
              else
                match parseL f (c :: (cs ++ ((dumpsL t).data ++ (']' :: rest)))) with
                | Except.error e => Except.error e
                | Except.ok (xs, rest2) => Except.ok (Json.arr xs, rest2)) = _
        rw [if_neg hne1,
          show c :: (cs ++ ((dumpsL t).data ++ (']' :: rest)))
            = (dumps h).data ++ ((dumpsL t).data ++ (']' :: rest)) by rw [hd, List.cons_append],
          ihL h t rest hdl2.1 hdl2.2 (by omega) hro]
      | .obj .nil =>
        show parseV (f + 1) ('\x7b' :: '\x7d' :: rest) = .ok (.obj .nil, rest)
        rfl
      | .obj (.cons k v2 t) =>
        have hdl2 : objKeysNodup (.cons k v2 t) = true ∧ dictLikeJ v2 = true ∧
            dictLikeO t = true := by
          have he : dictLikeJ (.obj (.cons k v2 t))
              = (objKeysNodup (.cons k v2 t) && (dictLikeJ v2 && dictLikeO t)) := rfl
          rw [he] at hdl
          simpa [Bool.and_assoc] using hdl
        have hsz2 : jsizeJ (.obj (.cons k v2 t)) = 1 + (1 + jsizeJ v2 + jsizeO t) := rfl
        rw [dumpsObj_data, parseV_obj]
        rw [skipWs_not_ws (by decide) _]
        show (if ('"' : Char) = '\x7d' then
                Except.ok (Json.obj .nil, k.data.flatMap escapeChar ++ ('"' :: (':' :: (' ' ::
                  ((dumps v2).data ++ ((dumpsO t).data ++ ('\x7d' :: rest)))))))
              else
                match parseO f ('"' :: (k.data.flatMap escapeChar ++ ('"' :: (':' :: (' ' ::
                    ((dumps v2).data ++ ((dumpsO t).data ++ ('\x7d' :: rest)))))))) with
                | Except.error e => Except.error e
                | Except.ok (xs, rest2) => Except.ok (Json.obj (objCanonGo .nil xs), rest2)) = _
        rw [if_neg (by decide : ¬ ('"' : Char) = '\x7d'),
          ihO k v2 t rest hdl2.2.1 hdl2.2.2 (by omega) hro]
        show Except.ok (Json.obj (objCanonGo .nil (.cons k v2 t)), rest) = _
        rw [objCanonGo_id hdl2.1]
    · intro h t rest hdh hdt hsz hro
      rw [parseL_succ]
      match t with
      | .nil =>
        rw [show (dumpsL JsonList.nil).data ++ (']' :: rest) = ']' :: rest from rfl,
          ihJ h (']' :: rest) hdh (by have := jsizeJ_pos h; omega)
            (Or.inr (Or.inr (Or.inl rfl)))]
        rfl
      | .cons h2 t2 =>
        have hdt2 : dictLikeJ h2 = true ∧ dictLikeL t2 = true := by
          have he : dictLikeL (.cons h2 t2) = (dictLikeJ h2 && dictLikeL t2) := rfl
          rw [he] at hdt
          simpa using hdt
        have hsz2 : jsizeL (.cons h2 t2) = 1 + jsizeJ h2 + jsizeL t2 := rfl
        rw [dumpsL_cons_data,
          ihJ h (',' :: ' ' :: ((dumps h2).data ++ ((dumpsL t2).data ++ (']' :: rest)))) hdh
            (by have := jsizeJ_pos h2; omega) (Or.inr (Or.inl rfl))]
        show (match parseL f (skipWs (' ' :: ((dumps h2).data ++ ((dumpsL t2).data ++
                (']' :: rest))))) with
              | Except.error e => Except.error e
              | Except.ok (t3, rest2) => Except.ok (JsonList.cons h t3, rest2)) = _
        rw [skipWs_space, skipWs_dumps h2 ((dumpsL t2).data ++ (']' :: rest)),
          ihL h2 t2 rest hdt2.1 hdt2.2 (by have := jsizeJ_pos h; omega) hro]
    · intro k v t rest hdv hdt hsz hro
      rw [parseO_succ]
      have hlen : k.data.length < (k.data.flatMap escapeChar ++ ('"' :: (':' :: (' ' ::
          ((dumps v).data ++ ((dumpsO t).data ++ ('\x7d' :: rest))))))).length := by
        have := flatMap_escape_length k.data
        simp only [List.length_append, List.length_cons]
        omega
      rw [parseStringGo_escape k.data _ _ hlen]
      show (match skipWs (':' :: (' ' :: ((dumps v).data ++ ((dumpsO t).data ++
              ('\x7d' :: rest))))) with
            | ':' :: r2 =>
                (match parseV f (skipWs r2) with
                 | Except.error e => Except.error e
                 | Except.ok (v2, r3) =>
                     match skipWs r3 with
                     | ',' :: r4 =>
                         (match parseO f (skipWs r4) with
                          | Except.error e => Except.error e
                          | Except.ok (t2, rest2) =>
                              Except.ok (JsonObj.cons (String.mk k.data) v2 t2, rest2))
                     | '\x7d' :: r4 => Except.ok (JsonObj.cons (String.mk k.data) v2 .nil, r4)
                     | _ => Except.error "Expecting ',' delimiter")
            | _ => Except.error "Expecting ':' delimiter") = _
      rw [skipWs_not_ws (by decide) _]
      show (match parseV f (skipWs (' ' :: ((dumps v).data ++ ((dumpsO t).data ++
              ('\x7d' :: rest))))) with
            | Except.error e => Except.error e
            | Except.ok (v2, r3) =>
                match skipWs r3 with
                | ',' :: r4 =>
                    (match parseO f (skipWs r4) with
                     | Except.error e => Except.error e
                     | Except.ok (t2, rest2) =>
                         Except.ok (JsonObj.cons (String.mk k.data) v2 t2, rest2))
                | '\x7d' :: r4 => Except.ok (JsonObj.cons (String.mk k.data) v2 .nil, r4)
                | _ => Except.error "Expecting ',' delimiter") = _
      rw [skipWs_space, skipWs_dumps v ((dumpsO t).data ++ ('\x7d' :: rest)),
        ihJ v _ hdv (by omega) (restOk_dumpsO t rest)]
      match t with
      | .nil =>
        show Except.ok (JsonObj.cons (String.mk k.data) v .nil, rest) = _
        rfl
      | .cons k2 v2 t2 =>
        have hdt2 : dictLikeJ v2 = true ∧ dictLikeO t2 = true := by
          have he : dictLikeO (.cons k2 v2 t2) = (dictLikeJ v2 && dictLikeO t2) := rfl
          rw [he] at hdt
          simpa using hdt
        have hsz2 : jsizeO (.cons k2 v2 t2) = 1 + jsizeJ v2 + jsizeO t2 := rfl
        rw [dumpsO_cons_data]
        show (match parseO f (skipWs (' ' :: ('"' :: (k2.data.flatMap escapeChar ++ ('"' ::
                (':' :: (' ' :: ((dumps v2).data ++ ((dumpsO t2).data ++
                  ('\x7d' :: rest)))))))))) with
              | Except.error e => Except.error e
              | Except.ok (t3, rest2) =>
                  Except.ok (JsonObj.cons (String.mk k.data) v t3, rest2)) = _
        rw [skipWs_space, skipWs_not_ws (by decide) _,
          ihO k2 v2 t2 rest hdt2.1 hdt2.2 (by have := jsizeJ_pos v; omega) hro]
/-! ### Fuel bound and `loads (dumps v)` -/

theorem encodeString_length_ge (k : String) : 2 ≤ (encodeString k).data.length := by
  show 2 ≤ ('"' :: (k.data.flatMap escapeChar ++ ['"'])).length
  simp

mutual
theorem jsize_le_dumpsJ : ∀ v : Json, jsizeJ v ≤ (dumps v).data.length
  | .null => by decide
  | .bool true => by decide
  | .bool false => by decide
  | .num i => by
    obtain ⟨c, cs, hd, _⟩ := intToDec_head i
    show jsizeJ (.num i) ≤ (intToDec i).data.length
    rw [hd]
    show 1 ≤ (c :: cs).length
    simp
  | .str s => by
    show 1 ≤ ('"' :: (s.data.flatMap escapeChar ++ ['"'])).length
    simp
  | .arr .nil => by decide
  | .arr (.cons h t) => by
    have h1 := jsize_le_dumpsJ h
    have h2 := jsize_le_dumpsL t
    show 1 + (1 + jsizeJ h + jsizeL t) ≤ (("[" ++ dumps h ++ dumpsL t ++ "]").data).length
    simp only [String.data_append, List.length_append]
    simp only [show ("[".data).length = 1 from rfl, show ("]".data).length = 1 from rfl]
    omega
  | .obj .nil => by decide
  | .obj (.cons k v t) => by
    have h1 := jsize_le_dumpsJ v
    have h2 := jsize_le_dumpsO t
    have h3 := encodeString_length_ge k
    show 1 + (1 + jsizeJ v + jsizeO t) ≤
      (("\x7b" ++ encodeString k ++ ": " ++ dumps v ++ dumpsO t ++ "\x7d").data).length
    simp only [String.data_append, List.length_append]
    simp only [show ("\x7b".data).length = 1 from rfl, show ("\x7d".data).length = 1 from rfl,
      show (": ".data).length = 2 from rfl]
    omega
theorem jsize_le_dumpsL : ∀ t : JsonList, jsizeL t ≤ (dumpsL t).data.length
  | .nil => by decide
  | .cons h t => by
    have h1 := jsize_le_dumpsJ h
    have h2 := jsize_le_dumpsL t
    show 1 + jsizeJ h + jsizeL t ≤ ((", " ++ dumps h ++ dumpsL t).data).length
    simp only [String.data_append, List.length_append]
    simp only [show (", ".data).length = 2 from rfl]
    omega
theorem jsize_le_dumpsO : ∀ t : JsonObj, jsizeO t ≤ (dumpsO t).data.length
  | .nil => by decide
  | .cons k v t => by
    have h1 := jsize_le_dumpsJ v
    have h2 := jsize_le_dumpsO t
    have h3 := encodeString_length_ge k
    show 1 + jsizeJ v + jsizeO t ≤
      ((", " ++ encodeString k ++ ": " ++ dumps v ++ dumpsO t).data).length
    simp only [String.data_append, List.length_append]
    simp only [show (", ".data).length = 2 from rfl, show (": ".data).length = 2 from rfl]
    omega
end

/-- `json.loads` inverts `json.dumps` on every dict-like value. -/
theorem loads_dumps {v : Json} (h : dictLikeJ v = true) : loads (dumps v) = .ok v := by
  rw [loads]
  have hsk : skipWs (dumps v).data = (dumps v).data := by
    have h2 := skipWs_dumps v []
    simpa using h2
  rw [hsk]
  have hp := (parse_dumps ((dumps v).data.length + 1)).1 v [] h
    (by have := jsize_le_dumpsJ v; omega) (Or.inl rfl)
  rw [List.append_nil] at hp
  rw [hp]
  rfl

/-! ### ASCII facts: `dumps` output is pure ASCII, and UTF-8 is the
identity on ASCII text -/

theorem hexChar_toNat_lt {m : Nat} (h : m < 16) : (hexChar m).toNat < 128 := by
  interval_cases m <;> decide

theorem uEscape_ascii (n : Nat) : ∀ d ∈ uEscape n, d.toNat < 128 := by
  intro d hd
  have hd2 : d = '\\' ∨ d = 'u' ∨ d = hexChar (n / 4096 % 16) ∨ d = hexChar (n / 256 % 16) ∨
      d = hexChar (n / 16 % 16) ∨ d = hexChar (n % 16) := by simpa [uEscape] using hd
  rcases hd2 with rfl | rfl | rfl | rfl | rfl | rfl
  · decide
  · decide
  · exact hexChar_toNat_lt (by omega)
  · exact hexChar_toNat_lt (by omega)
  · exact hexChar_toNat_lt (by omega)
  · exact hexChar_toNat_lt (by omega)

theorem escapeChar_ascii (c : Char) : ∀ d ∈ escapeChar c, d.toNat < 128 := by
  intro d hd
  by_cases hq : c = '"'
  · rw [show escapeChar c = ['\\', '"'] by rw [escapeChar, if_pos hq]] at hd
    have hd2 : d = '\\' ∨ d = '"' := by simpa using hd
    rcases hd2 with rfl | rfl <;> decide
  · by_cases hbs : c = '\\'
    · rw [show escapeChar c = ['\\', '\\'] by rw [escapeChar, if_neg hq, if_pos hbs]] at hd
      have hd2 : d = '\\' ∨ d = '\\' := by simpa using hd
      rcases hd2 with rfl | rfl <;> decide
    · by_cases h8 : c.toNat = 8
      · rw [show escapeChar c = ['\\', 'b'] by rw [escapeChar, if_neg hq, if_neg hbs,
          if_pos h8]] at hd
        have hd2 : d = '\\' ∨ d = 'b' := by simpa using hd
        rcases hd2 with rfl | rfl <;> decide
      · by_cases h12 : c.toNat = 12
        · rw [show escapeChar c = ['\\', 'f'] by rw [escapeChar, if_neg hq, if_neg hbs,
            if_neg h8, if_pos h12]] at hd
          have hd2 : d = '\\' ∨ d = 'f' := by simpa using hd
          rcases hd2 with rfl | rfl <;> decide
        · by_cases h10 : c.toNat = 10
          · rw [show escapeChar c = ['\\', 'n'] by rw [escapeChar, if_neg hq, if_neg hbs,
              if_neg h8, if_neg h12, if_pos h10]] at hd
            have hd2 : d = '\\' ∨ d = 'n' := by simpa using hd
            rcases hd2 with rfl | rfl <;> decide
          · by_cases h13 : c.toNat = 13
            · rw [show escapeChar c = ['\\', 'r'] by rw [escapeChar, if_neg hq, if_neg hbs,
                if_neg h8, if_neg h12, if_neg h10, if_pos h13]] at hd
              have hd2 : d = '\\' ∨ d = 'r' := by simpa using hd
              rcases hd2 with rfl | rfl <;> decide
            · by_cases h9 : c.toNat = 9
              · rw [show escapeChar c = ['\\', 't'] by rw [escapeChar, if_neg hq, if_neg hbs,
                  if_neg h8, if_neg h12, if_neg h10, if_neg h13, if_pos h9]] at hd
                have hd2 : d = '\\' ∨ d = 't' := by simpa using hd
                rcases hd2 with rfl | rfl <;> decide
              · by_cases hesc : c.toNat < 32 ∨ 127 ≤ c.toNat
                · by_cases hbig : c.toNat < 65536
                  · rw [show escapeChar c = uEscape c.toNat by rw [escapeChar, if_neg hq,
                      if_neg hbs, if_neg h8, if_neg h12, if_neg h10, if_neg h13, if_neg h9,
                      if_pos hesc, if_pos hbig]] at hd
                    exact uEscape_ascii _ d hd
                  · rw [show escapeChar c = uEscape (55296 + (c.toNat - 65536) / 1024) ++
                        uEscape (56320 + (c.toNat - 65536) % 1024) by rw [escapeChar, if_neg hq,
                      if_neg hbs, if_neg h8, if_neg h12, if_neg h10, if_neg h13, if_neg h9,
                      if_pos hesc, if_neg hbig]] at hd
                    rcases List.mem_append.mp hd with hd | hd
                    · exact uEscape_ascii _ d hd
                    · exact uEscape_ascii _ d hd
                · rw [show escapeChar c = [c] by rw [escapeChar, if_neg hq, if_neg hbs,
                    if_neg h8, if_neg h12, if_neg h10, if_neg h13, if_neg h9, if_neg hesc]] at hd
                  have hd2 : d = c := by simpa using hd
                  subst hd2
                  omega

theorem natToDec_ascii (n : Nat) : ∀ c ∈ (natToDec n).data, c.toNat < 128 := by
  intro c hc
  by_cases h0 : n = 0
  · subst h0
    have hc2 : c ∈ ['0'] := hc
    fin_cases hc2
    decide
  · rw [natToDec] at hc
    simp only [h0, if_false] at hc
    obtain ⟨_, hdig, _, _⟩ := natToDec_correct n n (by omega) (by omega)
    have := hdig c hc
    simp only [isDigitChar, decide_eq_true_eq] at this
    omega

mutual
theorem dumps_asciiJ : ∀ v : Json, ∀ c ∈ (dumps v).data, c.toNat < 128
  | .null => by intro c hc; fin_cases hc <;> decide
  | .bool true => by intro c hc; fin_cases hc <;> decide
  | .bool false => by intro c hc; fin_cases hc <;> decide
  | .num i => by
    intro c hc
    show c.toNat < 128
    rw [show (dumps (.num i)) = intToDec i from rfl, intToDec] at hc
    by_cases hneg : i < 0
    · simp only [hneg, if_true, String.data_append] at hc
      rcases List.mem_append.mp hc with hc | hc
      · have hc2 : c ∈ ['-'] := hc
        fin_cases hc2
        decide
      · exact natToDec_ascii _ c hc
    · simp only [hneg, if_false] at hc
      exact natToDec_ascii _ c hc
  | .str s => by
    intro c hc
    show c.toNat < 128
    rw [show (dumps (.str s)).data = '"' :: (s.data.flatMap escapeChar ++ ['"']) from rfl] at hc
    simp only [List.mem_cons, List.mem_append, List.mem_singleton, List.not_mem_nil,
      or_false] at hc
    rcases hc with rfl | hc | rfl
    · decide
    · obtain ⟨a, _, ha2⟩ := List.mem_flatMap.mp hc
      exact escapeChar_ascii a c ha2
    · decide
  | .arr .nil => by intro c hc; fin_cases hc <;> decide
  | .arr (.cons h t) => by
    intro c hc
    show c.toNat < 128
    rw [show (dumps (.arr (.cons h t))) = "[" ++ dumps h ++ dumpsL t ++ "]" from rfl] at hc
    simp only [String.data_append, List.mem_append] at hc
    rcases hc with ((hc | hc) | hc) | hc
    · have hc2 : c ∈ ['['] := hc
      fin_cases hc2; decide
    · exact dumps_asciiJ h c hc
    · exact dumps_asciiL t c hc
    · have hc2 : c ∈ [']'] := hc
      fin_cases hc2; decide
  | .obj .nil => by intro c hc; fin_cases hc <;> decide
  | .obj (.cons k v t) => by
    intro c hc
    show c.toNat < 128
    rw [show (dumps (.obj (.cons k v t)))
        = "\x7b" ++ encodeString k ++ ": " ++ dumps v ++ dumpsO t ++ "\x7d" from rfl] at hc
    simp only [String.data_append, List.mem_append] at hc
    rcases hc with ((((hc | hc) | hc) | hc) | hc) | hc
    · have hc2 : c ∈ ['\x7b'] := hc
      fin_cases hc2; decide
    · rw [show (encodeString k).data = '"' :: (k.data.flatMap escapeChar ++ ['"']) from rfl] at hc
      simp only [List.mem_cons, List.mem_append, List.mem_singleton, List.not_mem_nil,
        or_false] at hc
      rcases hc with rfl | hc | rfl
      · decide
      · obtain ⟨a, _, ha2⟩ := List.mem_flatMap.mp hc
        exact escapeChar_ascii a c ha2
      · decide
    · have hc2 : c ∈ [':', ' '] := hc
      fin_cases hc2 <;> decide
    · exact dumps_asciiJ v c hc
    · exact dumps_asciiO t c hc
    · have hc2 : c ∈ ['\x7d'] := hc
      fin_cases hc2; decide
theorem dumps_asciiL : ∀ t : JsonList, ∀ c ∈ (dumpsL t).data, c.toNat < 128
  | .nil => by intro c hc; simp [dumpsL] at hc
  | .cons h t => by
    intro c hc
    show c.toNat < 128
    rw [show (dumpsL (.cons h t)) = ", " ++ dumps h ++ dumpsL t from rfl] at hc
    simp only [String.data_append, List.mem_append] at hc
    rcases hc with (hc | hc) | hc
    · have hc2 : c ∈ [',', ' '] := hc
      fin_cases hc2 <;> decide
    · exact dumps_asciiJ h c hc
    · exact dumps_asciiL t c hc
theorem dumps_asciiO : ∀ t : JsonObj, ∀ c ∈ (dumpsO t).data, c.toNat < 128
  | .nil => by intro c hc; simp [dumpsO] at hc
  | .cons k v t => by
    intro c hc
    show c.toNat < 128
    rw [show (dumpsO (.cons k v t)) = ", " ++ encodeString k ++ ": " ++ dumps v ++ dumpsO t
        from rfl] at hc
    simp only [String.data_append, List.mem_append] at hc
    rcases hc with (((hc | hc) | hc) | hc) | hc
    · have hc2 : c ∈ [',', ' '] := hc
      fin_cases hc2 <;> decide
    · rw [show (encodeString k).data = '"' :: (k.data.flatMap escapeChar ++ ['"']) from rfl] at hc
      simp only [List.mem_cons, List.mem_append, List.mem_singleton, List.not_mem_nil,
        or_false] at hc
      rcases hc with rfl | hc | rfl
      · decide
      · obtain ⟨a, _, ha2⟩ := List.mem_flatMap.mp hc
        exact escapeChar_ascii a c ha2
      · decide
    · have hc2 : c ∈ [':', ' '] := hc
      fin_cases hc2 <;> decide
    · exact dumps_asciiJ v c hc
    · exact dumps_asciiO t c hc
end

theorem utf8Char_ascii {c : Char} (h : c.toNat < 128) : utf8Char c = [c.toNat] := by
  rw [utf8Char]
  simp only [if_pos h]

theorem utf8Encode_ascii {l : List Char} (h : ∀ c ∈ l, c.toNat < 128) :
    l.flatMap utf8Char = l.map Char.toNat := by
  induction l with
  | nil => rfl
  | cons c cs ih =>
    rw [List.flatMap_cons, utf8Char_ascii (h c (by simp)), List.map_cons]
    rw [ih (fun d hd => h d (by simp [hd]))]
    rfl

theorem utf8Char_lt256 (c : Char) : ∀ b ∈ utf8Char c, b < 256 := by
  intro b hb
  have hv := char_valid c
  rw [utf8Char] at hb
  split_ifs at hb with h1 h2 h3
  · simp at hb; omega
  · simp at hb; rcases hb with rfl | rfl <;> omega
  · simp at hb; rcases hb with rfl | rfl | rfl <;> omega
  · simp at hb
    rcases hb with rfl | rfl | rfl | rfl <;> omega

theorem utf8Encode_ok (s : String) : ∀ b ∈ utf8Encode s, b < 256 := by
  intro b hb
  obtain ⟨c, _, hc2⟩ := List.mem_flatMap.mp hb
  exact utf8Char_lt256 c b hc2

theorem utf8DecodeGo_ascii : ∀ (l : Bytes) (f : Nat), l.length ≤ f → (∀ b ∈ l, b < 128) →
    utf8DecodeGo f l = .ok (l.map Char.ofNat) := by
  intro l
  induction l with
  | nil =>
    intro f _ _
    cases f <;> rfl
  | cons b t ih =>
    intro f hf hb
    obtain ⟨f, rfl⟩ : ∃ f2, f = f2 + 1 := ⟨f - 1, by simp at hf; omega⟩
    rw [utf8DecodeGo, if_pos (hb b (by simp))]
    rw [ih f (by simp at hf; omega) (fun d hd => hb d (by simp [hd]))]
    rfl

/-- UTF-8 decoding inverts UTF-8 encoding on ASCII text. -/
theorem utf8Decode_encode_ascii {s : String} (h : ∀ c ∈ s.data, c.toNat < 128) :
    utf8Decode (utf8Encode s) = .ok s := by
  rw [utf8Decode, show utf8Encode s = s.data.flatMap utf8Char from rfl, utf8Encode_ascii h]
  rw [utf8DecodeGo_ascii _ _ (by simp) (by
    intro b hb
    obtain ⟨c, hc1, hc2⟩ := List.mem_map.mp hb
    rw [← hc2]
    exact h c hc1)]
  rw [List.map_map]
  have hmap : s.data.map (Char.ofNat ∘ Char.toNat) = s.data := by
    have h2 : ∀ l : List Char, l.map (Char.ofNat ∘ Char.toNat) = l := by
      intro l
      induction l with
      | nil => rfl
      | cons c cs ih =>
        rw [List.map_cons, ih]
        simp [Char.ofNat_toNat]
    exact h2 s.data
  rw [hmap]
/-! ## GCM well-formedness -/

theorem length_natToBytesBE : ∀ (w n : Nat), (natToBytesBE w n).length = w
  | 0, _ => rfl
  | w + 1, n => by
    rw [natToBytesBE, List.length_append, length_natToBytesBE w]
    simp

theorem natToBytesBE_ok : ∀ (w n : Nat), BytesOk (natToBytesBE w n)
  | 0, _ => by intro b hb; simp [natToBytesBE] at hb
  | w + 1, n => by
    intro b hb
    rw [natToBytesBE] at hb
    rcases List.mem_append.mp hb with hb | hb
    · exact natToBytesBE_ok w (n / 256) b hb
    · simp at hb
      subst hb
      exact Nat.mod_lt _ (by omega)

theorem inc32_wf {b : Bytes} (hl : b.length = 16) (hok : BytesOk b) :
    (inc32 b).length = 16 ∧ BytesOk (inc32 b) := by
  constructor
  · rw [inc32, List.length_append, List.length_take, length_natToBytesBE, hl]
    omega
  · intro x hx
    rw [inc32] at hx
    rcases List.mem_append.mp hx with hx | hx
    · exact hok x (List.mem_of_mem_take hx)
    · exact natToBytesBE_ok 4 _ x hx

theorem inc32s_wf (n : Nat) {b : Bytes} (hl : b.length = 16) (hok : BytesOk b) :
    (inc32s n b).length = 16 ∧ BytesOk (inc32s n b) := by
  induction n with
  | zero => exact ⟨hl, hok⟩
  | succ n ih =>
    rw [inc32s]
    exact inc32_wf ih.1 ih.2

theorem gcm_j0_wf (key iv : Bytes) (hiv : iv.length = 16) :
    (gcm_j0 key iv).length = 16 ∧ BytesOk (gcm_j0 key iv) := by
  rw [gcm_j0, if_neg (by omega)]
  exact ⟨length_natToBytesBE 16 _, natToBytesBE_ok 16 _⟩

theorem flatten_blocks16 : ∀ bs : List Bytes, (∀ b ∈ bs, b.length = 16) →
    bs.flatten.length = 16 * bs.length := by
  intro bs
  induction bs with
  | nil => intro _; rfl
  | cons b t ih =>
    intro h
    rw [List.flatten_cons, List.length_append, h b (by simp),
      ih (fun x hx => h x (by simp [hx]))]
    simp
    ring

theorem gcmKeystream_wf {key j0 : Bytes}
    (hk : key.length = 16 ∨ key.length = 24 ∨ key.length = 32) (hkOk : BytesOk key)
    (hj : j0.length = 16) (hjOk : BytesOk j0) (n : Nat) :
    (gcmKeystream key j0 n).length = n ∧ BytesOk (gcmKeystream key j0 n) := by
  have hblocks : ∀ b ∈ (List.range ((n + 15) / 16)).map
      (fun i => encryptBlock key (inc32s (i + 1) j0)), b.length = 16 ∧ BytesOk b := by
    intro b hb
    obtain ⟨i, _, hi2⟩ := List.mem_map.mp hb
    obtain ⟨hl2, hok2⟩ := inc32s_wf (i + 1) hj hjOk
    rw [← hi2]
    exact encryptBlock_wf hk hkOk hl2 hok2
  constructor
  · rw [gcmKeystream, List.length_take,
      flatten_blocks16 _ (fun b hb => (hblocks b hb).1)]
    simp only [List.length_map, List.length_range]
    omega
  · intro x hx
    rw [gcmKeystream] at hx
    have hx2 := List.mem_of_mem_take hx
    obtain ⟨b, hb1, hb2⟩ := List.mem_flatten.mp hx2
    exact (hblocks b hb1).2 x hb2

theorem length_ctrCrypt {key j0 : Bytes}
    (hk : key.length = 16 ∨ key.length = 24 ∨ key.length = 32) (hkOk : BytesOk key)
    (hj : j0.length = 16) (hjOk : BytesOk j0) (data : Bytes) :
    (ctrCrypt key j0 data).length = data.length := by
  rw [ctrCrypt, length_xorBytes, (gcmKeystream_wf hk hkOk hj hjOk data.length).1]
  simp

theorem ctrCrypt_ok {key j0 : Bytes}
    (hk : key.length = 16 ∨ key.length = 24 ∨ key.length = 32) (hkOk : BytesOk key)
    (hj : j0.length = 16) (hjOk : BytesOk j0) {data : Bytes} (hd : BytesOk data) :
    BytesOk (ctrCrypt key j0 data) :=
  xorBytes_ok hd (gcmKeystream_wf hk hkOk hj hjOk data.length).2

/-- CTR is an involution: decrypting with the same key and counter block
restores the plaintext. -/
theorem ctrCrypt_ctrCrypt {key j0 : Bytes}
    (hk : key.length = 16 ∨ key.length = 24 ∨ key.length = 32) (hkOk : BytesOk key)
    (hj : j0.length = 16) (hjOk : BytesOk j0) (data : Bytes) :
    ctrCrypt key j0 (ctrCrypt key j0 data) = data := by
  have hks := (gcmKeystream_wf hk hkOk hj hjOk data.length).1
  have hlen : (xorBytes data (gcmKeystream key j0 data.length)).length = data.length := by
    rw [length_xorBytes, hks]
    simp
  rw [ctrCrypt, ctrCrypt, hlen]
  exact xorBytes_cancel (by rw [hks])

theorem gcmTag_wf {key iv : Bytes}
    (hk : key.length = 16 ∨ key.length = 24 ∨ key.length = 32) (hkOk : BytesOk key)
    (hiv : iv.length = 16) (hivOk : BytesOk iv) (ct : Bytes) :
    (gcmTag key iv ct).length = 16 ∧ BytesOk (gcmTag key iv ct) := by
  obtain ⟨hjl, hjok⟩ := gcm_j0_wf key iv hiv
  obtain ⟨hel, heok⟩ := encryptBlock_wf hk hkOk hjl hjok
  constructor
  · rw [gcmTag, length_xorBytes, hel, length_natToBytesBE]
    rfl
  · exact xorBytes_ok heok (natToBytesBE_ok 16 _)

theorem flip_iv_length (iv : Bytes) : (flip_iv iv).length = iv.length := by
  rw [flip_iv, List.length_map]

theorem flip_iv_ok {iv : Bytes} (h : BytesOk iv) : BytesOk (flip_iv iv) := by
  intro b hb
  obtain ⟨a, ha1, ha2⟩ := List.mem_map.mp hb
  rw [← ha2]
  exact Nat.xor_lt_two_pow (n := 8) (h a ha1) (by omega)
theorem exceptBind_ok {α β : Type} (a : α) (f : α → Except String β) :
    (Except.ok a : Except String α) >>= f = f a := rfl

theorem append16_split {a b : Bytes} (hb : b.length = 16) :
    (a ++ b).take ((a ++ b).length - 16) = a ∧ (a ++ b).drop ((a ++ b).length - 16) = b := by
  rw [List.length_append, hb]
  have h1 : a.length + 16 - 16 = a.length := by omega
  rw [h1]
  exact ⟨List.take_left' rfl, List.drop_left' rfl⟩

/-- Reduce `decrypt_request` on base64 inputs that decode cleanly and a
key that unwraps. -/
theorem decrypt_request_reduce (unwrap : Bytes → Except String Bytes)
    {blob k iv ek : Bytes} (hblobOk : BytesOk blob) (hivOk : BytesOk iv)
    (hekOk : BytesOk ek) (hunwrap : unwrap ek = .ok k) :
    decrypt_request unwrap (b64encode blob) (b64encode ek) (b64encode iv) =
      (if ¬ (k.length = 16 ∨ k.length = 24 ∨ k.length = 32) then
        .error "Invalid key size for AES"
      else if iv.length < 8 ∨ 128 < iv.length then
        .error "initialization_vector must be between 8 and 128 bytes (64 and 1024 bits)"
      else if (blob.drop (blob.length - 16)).length < 16 then
        .error "Authentication tag must be 16 bytes or longer"
      else if ¬ blob.drop (blob.length - 16)
          = gcmTag k iv (blob.take (blob.length - 16)) then
        .error "InvalidTag"
      else do
        let s ← utf8Decode (ctrCrypt k (gcm_j0 k iv) (blob.take (blob.length - 16)))
        let decrypted_data ← loads s
        .ok (decrypted_data, k, iv)) := by
  rw [decrypt_request]
  rw [b64decode_b64encode hblobOk]
  rw [exceptBind_ok]
  rw [b64decode_b64encode hivOk]
  rw [exceptBind_ok]
  rw [b64decode_b64encode hekOk]
  rw [exceptBind_ok]
  rw [hunwrap]
  rw [exceptBind_ok]

/-- Any envelope whose trailing 16 bytes do not recompute as the GCM tag
of the rest is rejected with `InvalidTag` and yields no plaintext. -/
theorem decrypt_request_invalidtag (unwrap : Bytes → Except String Bytes)
    {blob k iv ek : Bytes} (hblobOk : BytesOk blob) (hivOk : BytesOk iv)
    (hekOk : BytesOk ek) (hunwrap : unwrap ek = .ok k)
    (hk : k.length = 16 ∨ k.length = 24 ∨ k.length = 32)
    (hiv : 8 ≤ iv.length ∧ iv.length ≤ 128) (hblen : 16 ≤ blob.length)
    (hmm : ¬ blob.drop (blob.length - 16) = gcmTag k iv (blob.take (blob.length - 16))) :
    decrypt_request unwrap (b64encode blob) (b64encode ek) (b64encode iv)
      = .error "InvalidTag" := by
  rw [decrypt_request_reduce unwrap hblobOk hivOk hekOk hunwrap]
  rw [if_neg (not_not_intro hk), if_neg (by omega)]
  rw [if_neg (by rw [List.length_drop]; omega)]
  rw [if_pos hmm]

theorem bytesOk_set {t : Bytes} (h : BytesOk t) {x : Nat} (hx : x < 256) (i : Nat) :
    BytesOk (t.set i x) := by
  intro b hb
  rcases List.mem_or_eq_of_mem_set hb with hb | hb
  · exact h b hb
  · omega

theorem getD_set_self {t : Bytes} {i : Nat} (h : i < t.length) (x : Nat) :
    (t.set i x).getD i 0 = x := by
  rw [List.getD_eq_getElem?_getD, List.getElem?_set_self (by omega)]
  simp

theorem set_xor_ne {t : Bytes} {i j : Nat} (hi : i < t.length) :
    ¬ t.set i (t.getD i 0 ^^^ 2 ^ j) = t := by
  intro hc
  have h1 := congrArg (fun l : Bytes => l.getD i 0) hc
  simp only at h1
  rw [getD_set_self hi] at h1
  have h2 : t.getD i 0 ^^^ (t.getD i 0 ^^^ 2 ^ j) = t.getD i 0 ^^^ t.getD i 0 :=
    congrArg (t.getD i 0 ^^^ ·) h1
  rw [← Nat.xor_assoc, Nat.xor_self, Nat.zero_xor] at h2
  have h3 : 0 < 2 ^ j := Nat.two_pow_pos j
  omega
/-! ## Claim C3 -/

/-- C3: for every AES key `K`, 16-byte IV `V` and dict-like JSON object
`O`, authenticated-decrypting the base64-decoded output of
`encrypt_response O K V` under `K`, nonce `complement V` and the trailing
16-byte tag — exactly what `decrypt_request` does after unwrapping the
key — recovers `O` exactly. -/
theorem encrypt_response_decrypt_request_roundtrip :
    ∀ (O : Json) (k iv ek : Bytes) (unwrap : Bytes → Except String Bytes),
      dictLikeJ O = true →
      (k.length = 16 ∨ k.length = 24 ∨ k.length = 32) → BytesOk k →
      iv.length = 16 → BytesOk iv → BytesOk ek → unwrap ek = .ok k →
      ∃ env : String,
        encrypt_response O k iv = .ok env ∧
        decrypt_request unwrap env (b64encode ek) (b64encode (flip_iv iv)) =
          .ok (O, k, flip_iv iv) := by
  intro O k iv ek unwrap hdl hk hkOk hiv hivOk hekOk hunwrap
  have hfl : (flip_iv iv).length = 16 := by rw [flip_iv_length, hiv]
  have hflOk := flip_iv_ok hivOk
  obtain ⟨hjl, hjok⟩ := gcm_j0_wf k (flip_iv iv) hfl
  have hptOk : BytesOk (utf8Encode (dumps O)) := utf8Encode_ok _
  have hctOk : BytesOk (ctrCrypt k (gcm_j0 k (flip_iv iv)) (utf8Encode (dumps O))) :=
    ctrCrypt_ok hk hkOk hjl hjok hptOk
  obtain ⟨htagl, htagok⟩ := gcmTag_wf hk hkOk hfl hflOk
    (ctrCrypt k (gcm_j0 k (flip_iv iv)) (utf8Encode (dumps O)))
  refine ⟨b64encode (ctrCrypt k (gcm_j0 k (flip_iv iv)) (utf8Encode (dumps O)) ++
    gcmTag k (flip_iv iv) (ctrCrypt k (gcm_j0 k (flip_iv iv)) (utf8Encode (dumps O)))),
    ?_, ?_⟩
  · rw [encrypt_response, if_neg (not_not_intro hk), if_neg (by rw [hfl]; omega)]
  · have hblobOk : BytesOk (ctrCrypt k (gcm_j0 k (flip_iv iv)) (utf8Encode (dumps O)) ++
        gcmTag k (flip_iv iv) (ctrCrypt k (gcm_j0 k (flip_iv iv)) (utf8Encode (dumps O)))) := by
      intro b hb
      rcases List.mem_append.mp hb with hb | hb
      · exact hctOk b hb
      · exact htagok b hb
    rw [decrypt_request_reduce unwrap hblobOk hflOk hekOk hunwrap]
    obtain ⟨hsp1, hsp2⟩ := append16_split (a := ctrCrypt k (gcm_j0 k (flip_iv iv))
      (utf8Encode (dumps O))) htagl
    rw [hsp1, hsp2]
    rw [if_neg (not_not_intro hk), if_neg (by rw [hfl]; omega),
      if_neg (by rw [htagl]; omega), if_neg (not_not_intro rfl)]
    rw [ctrCrypt_ctrCrypt hk hkOk hjl hjok]
    rw [utf8Decode_encode_ascii (dumps_asciiJ O)]
    rw [exceptBind_ok, loads_dumps hdl, exceptBind_ok]

/-- C3 witness: a concrete round trip through encryption and decryption. -/
theorem encrypt_response_decrypt_request_roundtrip_witness :
    dictLikeJ (.obj (.cons "a" (.num 1) .nil)) = true ∧
    ∃ env : String,
      encrypt_response (.obj (.cons "a" (.num 1) .nil)) (List.replicate 16 1)
        (List.replicate 16 0) = .ok env ∧
      decrypt_request (fun _ => .ok (List.replicate 16 1)) env (b64encode [9])
        (b64encode (flip_iv (List.replicate 16 0))) =
        .ok (.obj (.cons "a" (.num 1) .nil), List.replicate 16 1,
          flip_iv (List.replicate 16 0)) :=
  ⟨by decide,
   encrypt_response_decrypt_request_roundtrip (.obj (.cons "a" (.num 1) .nil))
     (List.replicate 16 1) (List.replicate 16 0) [9] (fun _ => .ok (List.replicate 16 1))
     (by decide) (by decide) (by decide) (by decide) (by decide) (by decide) rfl⟩

/-! ## Claim C4 -/

/-- C4: a 16-byte tag that does not authenticate the body under the
unwrapped key and supplied IV makes `decrypt_request` fail with the
authentication error (`InvalidTag`) and return no plaintext — the result
is an `Except.error`, carrying nothing but the message; in particular
flipping any single bit of a valid envelope's tag does so. -/
theorem decrypt_request_tag_mismatch :
    (∀ (unwrap : Bytes → Except String Bytes) (blob k iv ek : Bytes),
      BytesOk blob → BytesOk iv → BytesOk ek → unwrap ek = .ok k →
      (k.length = 16 ∨ k.length = 24 ∨ k.length = 32) →
      8 ≤ iv.length → iv.length ≤ 128 → 16 ≤ blob.length →
      ¬ blob.drop (blob.length - 16) = gcmTag k iv (blob.take (blob.length - 16)) →
      decrypt_request unwrap (b64encode blob) (b64encode ek) (b64encode iv)
        = .error "InvalidTag") ∧
    (∀ (O : Json) (k iv ek : Bytes) (unwrap : Bytes → Except String Bytes) (i j : Nat),
      (k.length = 16 ∨ k.length = 24 ∨ k.length = 32) → BytesOk k →
      iv.length = 16 → BytesOk iv → BytesOk ek → unwrap ek = .ok k →
      i < 16 → j < 8 →
      decrypt_request unwrap
        (b64encode (ctrCrypt k (gcm_j0 k (flip_iv iv)) (utf8Encode (dumps O)) ++
          tamperTag (gcmTag k (flip_iv iv)
            (ctrCrypt k (gcm_j0 k (flip_iv iv)) (utf8Encode (dumps O)))) i j))
        (b64encode ek) (b64encode (flip_iv iv)) = .error "InvalidTag") := by
  constructor
  · intro unwrap blob k iv ek hblobOk hivOk hekOk hunwrap hk h8 h128 hblen hmm
    exact decrypt_request_invalidtag unwrap hblobOk hivOk hekOk hunwrap hk ⟨h8, h128⟩ hblen hmm
  · intro O k iv ek unwrap i j hk hkOk hiv hivOk hekOk hunwrap hi hj
    have hfl : (flip_iv iv).length = 16 := by rw [flip_iv_length, hiv]
    have hflOk := flip_iv_ok hivOk
    obtain ⟨hjl, hjok⟩ := gcm_j0_wf k (flip_iv iv) hfl
    have hptOk : BytesOk (utf8Encode (dumps O)) := utf8Encode_ok _
    have hctOk : BytesOk (ctrCrypt k (gcm_j0 k (flip_iv iv)) (utf8Encode (dumps O))) :=
      ctrCrypt_ok hk hkOk hjl hjok hptOk
    obtain ⟨htagl, htagok⟩ := gcmTag_wf hk hkOk hfl hflOk
      (ctrCrypt k (gcm_j0 k (flip_iv iv)) (utf8Encode (dumps O)))
    have hpow : (2 : Nat) ^ j < 256 := by
      have h2 : (2 : Nat) ^ j ≤ 2 ^ 7 := Nat.pow_le_pow_right (by omega) (by omega)
      omega
    have htampOk : BytesOk (tamperTag (gcmTag k (flip_iv iv)
        (ctrCrypt k (gcm_j0 k (flip_iv iv)) (utf8Encode (dumps O)))) i j) :=
      bytesOk_set htagok
        (Nat.xor_lt_two_pow (n := 8) (getD_lt_of_ok htagok i) hpow) i
    have htampl : (tamperTag (gcmTag k (flip_iv iv)
        (ctrCrypt k (gcm_j0 k (flip_iv iv)) (utf8Encode (dumps O)))) i j).length = 16 := by
      rw [tamperTag, List.length_set, htagl]
    obtain ⟨hsp1, hsp2⟩ := append16_split (a := ctrCrypt k (gcm_j0 k (flip_iv iv))
      (utf8Encode (dumps O))) htampl
    have hblobOk : BytesOk (ctrCrypt k (gcm_j0 k (flip_iv iv)) (utf8Encode (dumps O)) ++
        tamperTag (gcmTag k (flip_iv iv)
          (ctrCrypt k (gcm_j0 k (flip_iv iv)) (utf8Encode (dumps O)))) i j) := by
      intro b hb
      rcases List.mem_append.mp hb with hb | hb
      · exact hctOk b hb
      · exact htampOk b hb
    refine decrypt_request_invalidtag unwrap hblobOk hflOk hekOk hunwrap hk
      (by rw [hfl]; omega) (by rw [List.length_append, htampl]; omega) ?_
    rw [hsp1, hsp2, tamperTag]
    exact set_xor_ne (by rw [htagl]; omega)

/-- C4 witness: flipping the lowest bit of the first tag byte of a
concrete valid envelope is rejected with `InvalidTag`. -/
theorem decrypt_request_tag_mismatch_witness :
    decrypt_request (fun _ => .ok (List.replicate 16 1))
      (b64encode (ctrCrypt (List.replicate 16 1)
          (gcm_j0 (List.replicate 16 1) (flip_iv (List.replicate 16 0)))
          (utf8Encode (dumps (.obj (.cons "a" (.num 1) .nil)))) ++
        tamperTag (gcmTag (List.replicate 16 1) (flip_iv (List.replicate 16 0))
          (ctrCrypt (List.replicate 16 1)
            (gcm_j0 (List.replicate 16 1) (flip_iv (List.replicate 16 0)))
            (utf8Encode (dumps (.obj (.cons "a" (.num 1) .nil)))))) 0 0))
      (b64encode [9]) (b64encode (flip_iv (List.replicate 16 0))) = .error "InvalidTag" :=
  decrypt_request_tag_mismatch.2 (.obj (.cons "a" (.num 1) .nil)) (List.replicate 16 1)
    (List.replicate 16 0) [9] (fun _ => .ok (List.replicate 16 1)) 0 0
    (by decide) (by decide) (by decide) (by decide) (by decide) rfl (by decide) (by decide)

/-! ## Claim C8 -/

/-- C8 (amended): `encrypt_response` serializes the response object with
`json.dumps` defaults before encryption — the encrypted body decrypts
back to exactly the UTF-8 bytes of `dumps O`.  The serialization is NOT
compact: `json.dumps` without arguments uses the default separators
`", "` and `": "`, which insert a space after every comma and colon. -/
theorem encrypt_response_serialization :
    (∀ (O : Json) (k iv : Bytes),
      (k.length = 16 ∨ k.length = 24 ∨ k.length = 32) → BytesOk k →
      iv.length = 16 → BytesOk iv →
      ∃ blob : Bytes,
        encrypt_response O k iv = .ok (b64encode blob) ∧
        ctrCrypt k (gcm_j0 k (flip_iv iv)) (blob.take (blob.length - 16))
          = utf8Encode (dumps O) ∧
        utf8Decode (ctrCrypt k (gcm_j0 k (flip_iv iv)) (blob.take (blob.length - 16)))
          = .ok (dumps O)) ∧
    dumps (.obj (.cons "a" (.num 1) (.cons "b" (.num 2) .nil)))
      = "\x7b\"a\": 1, \"b\": 2\x7d" := by
  constructor
  · intro O k iv hk hkOk hiv hivOk
    have hfl : (flip_iv iv).length = 16 := by rw [flip_iv_length, hiv]
    have hflOk := flip_iv_ok hivOk
    obtain ⟨hjl, hjok⟩ := gcm_j0_wf k (flip_iv iv) hfl
    obtain ⟨htagl, htagok⟩ := gcmTag_wf hk hkOk hfl hflOk
      (ctrCrypt k (gcm_j0 k (flip_iv iv)) (utf8Encode (dumps O)))
    obtain ⟨hsp1, hsp2⟩ := append16_split (a := ctrCrypt k (gcm_j0 k (flip_iv iv))
      (utf8Encode (dumps O))) htagl
    refine ⟨ctrCrypt k (gcm_j0 k (flip_iv iv)) (utf8Encode (dumps O)) ++
      gcmTag k (flip_iv iv) (ctrCrypt k (gcm_j0 k (flip_iv iv)) (utf8Encode (dumps O))),
      ?_, ?_, ?_⟩
    · rw [encrypt_response, if_neg (not_not_intro hk), if_neg (by rw [hfl]; omega)]
    · rw [hsp1, ctrCrypt_ctrCrypt hk hkOk hjl hjok]
    · rw [hsp1, ctrCrypt_ctrCrypt hk hkOk hjl hjok,
        utf8Decode_encode_ascii (dumps_asciiJ O)]
  · decide

/-- C8 counterexample to the spec's "compact" claim: the serialization of
a two-key object contains spaces after the comma and colons, so it is not
the minimal-separator form. -/
theorem encrypt_response_serialization_counterexample :
    dumps (.obj (.cons "a" (.num 1) (.cons "b" (.num 2) .nil)))
      ≠ "\x7b\"a\":1,\"b\":2\x7d" ∧
    ' ' ∈ (dumps (.obj (.cons "a" (.num 1) (.cons "b" (.num 2) .nil)))).data := by
  exact ⟨by decide, by decide⟩

/-- C8 witness: the amended claim at a concrete object, key and IV. -/
theorem encrypt_response_serialization_witness :
    ∃ blob : Bytes,
      encrypt_response (.obj (.cons "a" (.num 1) .nil)) (List.replicate 16 1)
        (List.replicate 16 0) = .ok (b64encode blob) ∧
      ctrCrypt (List.replicate 16 1)
          (gcm_j0 (List.replicate 16 1) (flip_iv (List.replicate 16 0)))
          (blob.take (blob.length - 16))
        = utf8Encode (dumps (.obj (.cons "a" (.num 1) .nil))) ∧
      utf8Decode (ctrCrypt (List.replicate 16 1)
          (gcm_j0 (List.replicate 16 1) (flip_iv (List.replicate 16 0)))
          (blob.take (blob.length - 16)))
        = .ok (dumps (.obj (.cons "a" (.num 1) .nil))) :=
  encrypt_response_serialization.1 (.obj (.cons "a" (.num 1) .nil)) (List.replicate 16 1)
    (List.replicate 16 0) (by decide) (by decide) (by decide) (by decide)

/-! ## Claim C9 -/

/-- C9: the IV complement used by `encrypt_response` (XOR each byte with
0xFF) is self-inverse, and the complemented IV differs from the original
in every byte; hence for a nonempty IV the response nonce always differs
from the request nonce. -/
theorem flip_iv_involutive :
    (∀ iv : Bytes, flip_iv (flip_iv iv) = iv) ∧
    (∀ (iv : Bytes) (i : Nat), i < iv.length →
      ¬ (flip_iv iv).getD i 0 = iv.getD i 0) ∧
    (∀ iv : Bytes, ¬ iv = [] → ¬ flip_iv iv = iv) := by
  have hxor : ∀ b : Nat, (b ^^^ 255) ^^^ 255 = b := by
    intro b
    rw [Nat.xor_assoc, show (255 : Nat) ^^^ 255 = 0 from rfl, Nat.xor_zero]
  have hne : ∀ b : Nat, ¬ b ^^^ 255 = b := by
    intro b hc
    have h2 : b ^^^ (b ^^^ 255) = b ^^^ b := congrArg (b ^^^ ·) hc
    rw [← Nat.xor_assoc, Nat.xor_self, Nat.zero_xor] at h2
    exact absurd h2 (by decide)
  refine ⟨?_, ?_, ?_⟩
  · intro iv
    rw [flip_iv, flip_iv, List.map_map]
    have h2 : ∀ l : Bytes, l.map ((fun b => b ^^^ 255) ∘ fun b => b ^^^ 255) = l := by
      intro l
      induction l with
      | nil => rfl
      | cons b t ih =>
        rw [List.map_cons, ih]
        simp only [Function.comp]
        rw [hxor]
    exact h2 iv
  · intro iv i hi
    have hm : (flip_iv iv).getD i 0 = iv.getD i 0 ^^^ 255 := by
      rw [flip_iv, List.getD_eq_getElem?_getD, List.getElem?_map,
        List.getElem?_eq_getElem hi, List.getD_eq_getElem?_getD,
        List.getElem?_eq_getElem hi]
      rfl
    rw [hm]
    exact hne _
  · intro iv hnil hc
    match iv, hnil with
    | b :: t, _ =>
      rw [flip_iv, List.map_cons] at hc
      exact hne b (List.head_eq_of_cons_eq hc)

/-- C9 witness: the complement properties at concrete IVs. -/
theorem flip_iv_involutive_witness :
    (0 : Nat) < ([0, 255] : Bytes).length ∧
    ¬ (flip_iv [0, 255]).getD 0 0 = ([0, 255] : Bytes).getD 0 0 ∧
    ¬ ([7] : Bytes) = [] ∧ ¬ flip_iv [7] = [7] :=
  ⟨by decide, flip_iv_involutive.2.1 [0, 255] 0 (by decide), by decide,
   flip_iv_involutive.2.2 [7] (by decide)⟩


end WA
